import Mathlib

/-!
# Tower defense: path extraction, targeting, placement, levels and the frame loop

A shallow embedding of `RaylibC++/src/main.cpp`: `FloodFill`, the level configuration
(`SetupLevel`, `AdvanceLevel`), and one iteration of the `while` loop of `main` (`frame`) as a
function on the program state, followed by theorems about them.

Conventions. A `float` value is the rational number it denotes, and the operations `+`, `-`,
`*`, `/` and `sqrtf` on floats round the exact result to the nearest binary32 value, ties to
even (`roundF32`); results beyond `FLT_MAX` (the infinities of C) and NaN are not modelled. A
`std::vector` is a list; the stack `open` of `FloodFill` is a list whose head is `open.back()`.
A pointer into a vector is an index. The file-scope variables (`Globals`) and the locals of
`main` that shadow them (`Locals`) are kept apart. Library functions whose code is not in the
program are the fields of `Lib`.
-/

/-! ## Grid and flood fill -/

structure Cell where
  row : Int
  col : Int
deriving DecidableEq, Repr

def TILE_COUNT : Int := 20

/-- The enumerators of `TileType`, as the `int` values stored in the grid. -/
def GRASS : Int := 0
def DIRT : Int := 1
def WAYPOINT : Int := 2
def TURRET : Int := 3

def DIRECTIONS : List Cell := [⟨-1, 0⟩, ⟨1, 0⟩, ⟨0, -1⟩, ⟨0, 1⟩]

def InBounds (cell : Cell) (rows cols : Int) : Bool :=
  decide (cell.col ≥ 0) && decide (cell.col < cols) && decide (cell.row ≥ 0) && decide (cell.row < rows)

/-- The array `int tiles[TILE_COUNT][TILE_COUNT]`, read as `tiles row col`. -/
abbrev Grid := Int → Int → Int

/-- The array `bool closed[TILE_COUNT][TILE_COUNT]` of `FloodFill`. -/
abbrev Closed := Int → Int → Bool

/-- The grid given by an initializer list of rows; cells outside the list read 0. -/
def gridOfRows (rows : List (List Int)) : Grid :=
  fun r c => if r < 0 ∨ c < 0 then 0 else (rows.getD r.toNat []).getD c.toNat 0

/-- Lines 96-103: `closed[row][col] = tiles[row][col] == 0`. -/
def initClosed (tiles : Grid) : Closed := fun row col => decide (tiles row col = 0)

/-- Line 112: `closed[cell.row][cell.col] = true`. -/
def setClosed (closed : Closed) (cell : Cell) : Closed :=
  fun row col => if row = cell.row ∧ col = cell.col then true else closed row col

/-- Lines 119-124: the neighbours of `cell` pushed on the stack, in the order of `DIRECTIONS`. -/
def pushNeighbours (tiles : Grid) (closed : Closed) (cell : Cell) (openStack : List Cell) :
    List Cell :=
  DIRECTIONS.foldl (fun acc dir =>
    let adj : Cell := ⟨cell.row + dir.row, cell.col + dir.col⟩
    if InBounds adj TILE_COUNT TILE_COUNT && !closed adj.row adj.col
        && decide (tiles adj.row adj.col > 0)
    then adj :: acc else acc) openStack

/-- The cells of the 20x20 grid, in row-major order. -/
def gridCells : List Cell :=
  (List.range 20).flatMap (fun r => (List.range 20).map (fun c => (⟨Int.ofNat r, Int.ofNat c⟩ : Cell)))

/-- Number of grid cells not yet closed. -/
def unclosedCount (closed : Closed) : Nat :=
  gridCells.countP (fun c => !closed c.row c.col)

/-- Whether the top of the stack is a cell whose pop closes nothing new (1) or not (0). -/
def topPending (closed : Closed) : List Cell → Nat
  | [] => 0
  | c :: _ => if InBounds c TILE_COUNT TILE_COUNT && !closed c.row c.col then 0 else 1

/-- Termination measure of the loop of `FloodFill`. -/
def floodMeasure (closed : Closed) (openStack : List Cell) : Nat :=
  openStack.length + 8 * unclosedCount closed + 4 * topPending closed openStack

set_option linter.unusedVariables false in
/-- Lines 105-127: the `while (!open.empty())` loop. The result is `none` when a popped cell is
outside the grid, where the C++ indexes `closed` and `tiles` out of range. It terminates
because `floodMeasure` decreases on every pop. -/
def floodLoop (tiles : Grid) (searchValue : Int) (closed : Closed) (openStack result : List Cell) :
    Option (List Cell) :=
  match openStack with
  | [] => some result
  | cell :: rest =>
    if h : InBounds cell TILE_COUNT TILE_COUNT = true then
      floodLoop tiles searchValue (setClosed closed cell)
        (pushNeighbours tiles (setClosed closed cell) cell rest)
        (if tiles cell.row cell.col = searchValue then result ++ [cell] else result)
    else none
termination_by floodMeasure closed openStack
decreasing_by
  have key : ∀ (cell : Cell) (rest : List Cell), InBounds cell TILE_COUNT TILE_COUNT = true →
      floodMeasure (setClosed closed cell) (pushNeighbours tiles (setClosed closed cell) cell rest)
        < floodMeasure closed (cell :: rest) := by
    intro cell rest h
    -- closing the popped cell never re-opens a grid cell
    have hmono : ∀ l : List Cell,
        List.countP (fun c => !setClosed closed cell c.row c.col) l
          ≤ List.countP (fun c => !closed c.row c.col) l := by
      intro l
      apply List.countP_mono_left
      intro x _ hx
      simp only [setClosed, Bool.not_eq_true'] at hx ⊢
      by_cases hc : x.row = cell.row ∧ x.col = cell.col
      · simp [hc] at hx
      · simpa [hc] using hx
    -- and the count of open grid cells drops when the popped cell was still open
    have hstrict : closed cell.row cell.col = false →
        unclosedCount (setClosed closed cell) + 1 ≤ unclosedCount closed := by
      intro hcl
      have hmem : cell ∈ gridCells := by
        obtain ⟨r, c⟩ := cell
        simp only [InBounds, TILE_COUNT, Bool.and_eq_true, decide_eq_true_eq] at h
        obtain ⟨⟨⟨h1, h2⟩, h3⟩, h4⟩ := h
        simp only [gridCells, List.mem_flatMap, List.mem_map, List.mem_range, Cell.mk.injEq]
        lift r to ℕ using h3
        lift c to ℕ using h1
        refine ⟨r, ?_, c, ?_, rfl, rfl⟩ <;> omega
      have hcount : ∀ l : List Cell, cell ∈ l →
          List.countP (fun c => !setClosed closed cell c.row c.col) l + 1
            ≤ List.countP (fun c => !closed c.row c.col) l := by
        intro l
        induction l with
        | nil => intro hm; cases hm
        | cons a t ih =>
          intro hm
          have hle := hmono t
          by_cases hac : a = cell
          · have e1 : (!setClosed closed cell a.row a.col) = false := by simp [setClosed, hac]
            have e2 : (!closed a.row a.col) = true := by simp [hac, hcl]
            rw [List.countP_cons, List.countP_cons, e1, e2]
            simp only [Bool.false_eq_true, if_false, if_true]
            omega
          · have ih' := ih (by
              rcases List.mem_cons.mp hm with h1 | h1
              · exact absurd h1.symm hac
              · exact h1)
            have hne : ¬ (a.row = cell.row ∧ a.col = cell.col) := by
              intro hh
              apply hac
              cases a; cases cell; simp_all
            have e3 : (!setClosed closed cell a.row a.col) = (!closed a.row a.col) := by
              simp [setClosed, hne]
            rw [List.countP_cons, List.countP_cons, e3]
            omega
      exact hcount gridCells hmem
    -- at most four neighbours are pushed, and each pushed neighbour is an open grid cell
    have hfold : ∀ (cl : Closed) (ds acc : List Cell), ∃ pushed : List Cell,
        List.foldl (fun acc dir =>
          if (InBounds ⟨cell.row + dir.row, cell.col + dir.col⟩ TILE_COUNT TILE_COUNT
              && !cl (cell.row + dir.row) (cell.col + dir.col)
              && decide (tiles (cell.row + dir.row) (cell.col + dir.col) > 0)) = true
          then (⟨cell.row + dir.row, cell.col + dir.col⟩ : Cell) :: acc else acc) acc ds
          = pushed ++ acc ∧ pushed.length ≤ ds.length ∧
        ∀ a ∈ pushed, InBounds a TILE_COUNT TILE_COUNT = true ∧ cl a.row a.col = false := by
      intro cl ds
      induction ds with
      | nil => intro acc; exact ⟨[], rfl, Nat.le_refl _, fun a ha => by cases ha⟩
      | cons d ds ih =>
        intro acc
        rw [List.foldl_cons]
        split_ifs with hc
        · obtain ⟨p, hp1, hp2, hp3⟩ := ih (⟨cell.row + d.row, cell.col + d.col⟩ :: acc)
          refine ⟨p ++ [⟨cell.row + d.row, cell.col + d.col⟩], ?_, ?_, ?_⟩
          · rw [hp1]; simp
          · simp only [List.length_append, List.length_cons, List.length_nil]; omega
          · intro a ha
            rcases List.mem_append.mp ha with ha | ha
            · exact hp3 a ha
            · rw [List.mem_singleton.mp ha]
              simp only [Bool.and_eq_true, Bool.not_eq_true', decide_eq_true_eq] at hc
              exact ⟨hc.1.1, hc.1.2⟩
        · obtain ⟨p, hp1, hp2, hp3⟩ := ih acc
          exact ⟨p, hp1, by simp only [List.length_cons]; omega, hp3⟩
    have htop1 : ∀ (cl : Closed) (l : List Cell), topPending cl l ≤ 1 := by
      intro cl l
      unfold topPending
      split
      · omega
      · split <;> omega
    obtain ⟨pushed, hp, hlen, hprop⟩ := hfold (setClosed closed cell) DIRECTIONS rest
    have hp' : pushNeighbours tiles (setClosed closed cell) cell rest = pushed ++ rest := hp
    have hlen4 : pushed.length ≤ 4 := hlen
    rw [hp']
    simp only [floodMeasure, List.length_append, List.length_cons]
    have hU : unclosedCount (setClosed closed cell) ≤ unclosedCount closed := hmono gridCells
    have h2 := htop1 (setClosed closed cell) (pushed ++ rest)
    by_cases hcl : closed cell.row cell.col = false
    · have h1 := hstrict hcl
      omega
    · have h3 : topPending closed (cell :: rest) = 1 := by
        simp only [Bool.not_eq_false] at hcl
        simp [topPending, hcl]
      cases pushed with
      | nil =>
        simp only [List.nil_append, List.length_nil] at h2 ⊢
        omega
      | cons a t =>
        have ha := hprop a (List.mem_cons_self a t)
        have h4 : topPending (setClosed closed cell) (a :: t ++ rest) = 0 := by
          simp [topPending, ha.1, ha.2]
        simp only [List.length_cons] at hlen4 ⊢
        omega
  exact key _ _ h

/-- Lines 90-128. -/
def FloodFill (start : Cell) (tiles : Grid) (searchValue : Int) : Option (List Cell) :=
  floodLoop tiles searchValue (initClosed tiles) [start] []

/-- A read of `tiles[cell.row][cell.col]` with the array bounds checked: `none` when the
index is outside the array. -/
def readTiles (tiles : Grid) (cell : Cell) : Option Int :=
  if 0 ≤ cell.row ∧ cell.row < TILE_COUNT ∧ 0 ≤ cell.col ∧ cell.col < TILE_COUNT
  then some (tiles cell.row cell.col) else none

/-- A read of `closed[cell.row][cell.col]` with the array bounds checked. -/
def readClosed (closed : Closed) (cell : Cell) : Option Bool :=
  if 0 ≤ cell.row ∧ cell.row < TILE_COUNT ∧ 0 ≤ cell.col ∧ cell.col < TILE_COUNT
  then some (closed cell.row cell.col) else none

/-- The write `closed[cell.row][cell.col] = true` with the array bounds checked. -/
def writeClosed (closed : Closed) (cell : Cell) : Option Closed :=
  if 0 ≤ cell.row ∧ cell.row < TILE_COUNT ∧ 0 ≤ cell.col ∧ cell.col < TILE_COUNT
  then some (setClosed closed cell) else none

/-- Line 122, `InBounds(adj) && !closed[adj.row][adj.col] && tiles[adj.row][adj.col] > 0`,
with the operands evaluated from left to right and only as far as `&&` needs them, and with
every array read checked: `none` when a read is outside its array. -/
def neighbourTest (tiles : Grid) (closed : Closed) (adj : Cell) : Option Bool :=
  if InBounds adj TILE_COUNT TILE_COUNT then
    match readClosed closed adj with
    | none => none
    | some true => some false
    | some false =>
      match readTiles tiles adj with
      | none => none
      | some tile => some (decide (tile > 0))
  else some false

/-- Lines 119-124 with every array read checked: `none` when a read is outside its array. -/
def pushNeighboursChecked (tiles : Grid) (closed : Closed) (cell : Cell)
    (openStack : List Cell) : Option (List Cell) :=
  DIRECTIONS.foldl (fun acc dir =>
    match acc with
    | none => none
    | some stack =>
      let adj : Cell := ⟨cell.row + dir.row, cell.col + dir.col⟩
      match neighbourTest tiles closed adj with
      | none => none
      | some true => some (adj :: stack)
      | some false => some stack) (some openStack)

/-- The loop of `FloodFill` run for at most `fuel` pops, by structural recursion, with every
access to the arrays `closed` and `tiles` checked against the array bounds: `none` when the
fuel runs out, `some none` when an access is outside its array, and `some (some r)` when the
stack is empty and `r` is the result. -/
def floodLoopFuel (tiles : Grid) (searchValue : Int) :
    Nat → Closed → List Cell → List Cell → Option (Option (List Cell))
  | 0, _, _, _ => none
  | _ + 1, _, [], result => some (some result)
  | fuel + 1, closed, cell :: rest, result =>
    match writeClosed closed cell, readTiles tiles cell with
    | some closed1, some tile =>
      match pushNeighboursChecked tiles closed1 cell rest with
      | some stack1 =>
        floodLoopFuel tiles searchValue fuel closed1 stack1
          (if tile = searchValue then result ++ [cell] else result)
      | none => some none
    | _, _ => some none

/-- Lines 209-232: the grid of `main`. -/
def mainTiles : List (List Int) := [
  [0, 0, 0, 0, 0, 0, 0, 0, 0, 0, 0, 0, 2, 0, 0, 0, 0, 0, 0, 0],
  [0, 0, 0, 0, 0, 0, 0, 0, 0, 0, 0, 0, 1, 0, 0, 0, 0, 0, 0, 0],
  [0, 0, 0, 0, 0, 0, 0, 0, 0, 0, 0, 0, 1, 0, 0, 0, 0, 0, 0, 0],
  [0, 0, 0, 0, 0, 0, 0, 0, 0, 0, 0, 0, 1, 0, 0, 0, 0, 0, 0, 0],
  [0, 0, 0, 0, 0, 0, 0, 0, 0, 0, 0, 0, 1, 0, 0, 0, 0, 0, 0, 0],
  [0, 0, 0, 0, 0, 0, 0, 0, 0, 0, 0, 0, 1, 0, 0, 0, 0, 0, 0, 0],
  [0, 0, 0, 0, 0, 0, 0, 0, 0, 0, 0, 0, 1, 0, 0, 0, 0, 0, 0, 0],
  [0, 0, 0, 2, 1, 1, 1, 1, 1, 1, 1, 1, 2, 0, 0, 0, 0, 0, 0, 0],
  [0, 0, 0, 1, 0, 0, 0, 0, 0, 0, 0, 0, 0, 0, 0, 0, 0, 0, 0, 0],
  [0, 0, 0, 1, 0, 0, 0, 0, 0, 0, 0, 0, 0, 0, 0, 0, 0, 0, 0, 0],
  [0, 0, 0, 1, 0, 0, 0, 0, 0, 0, 0, 0, 0, 0, 0, 0, 0, 0, 0, 0],
  [0, 0, 0, 1, 0, 0, 0, 0, 0, 0, 0, 0, 0, 0, 0, 0, 0, 0, 0, 0],
  [0, 0, 0, 1, 0, 0, 0, 0, 0, 0, 0, 0, 0, 0, 0, 0, 0, 0, 0, 0],
  [0, 0, 0, 2, 1, 1, 1, 1, 1, 1, 1, 1, 1, 1, 1, 1, 2, 0, 0, 0],
  [0, 0, 0, 0, 0, 0, 0, 0, 0, 0, 0, 0, 0, 0, 0, 0, 1, 0, 0, 0],
  [0, 0, 0, 0, 0, 0, 0, 0, 0, 0, 0, 0, 0, 0, 0, 0, 1, 0, 0, 0],
  [0, 0, 0, 0, 0, 0, 0, 0, 0, 0, 0, 0, 0, 0, 0, 0, 1, 0, 0, 0],
  [0, 0, 0, 0, 0, 0, 0, 0, 0, 2, 1, 1, 1, 1, 1, 1, 2, 0, 0, 0],
  [0, 0, 0, 0, 0, 0, 0, 0, 0, 1, 0, 0, 0, 0, 0, 0, 0, 0, 0, 0],
  [0, 0, 0, 0, 0, 0, 0, 0, 0, 2, 0, 0, 0, 0, 0, 0, 0, 0, 0, 0]]

/-! ## Scalars and vectors

A `float` is modelled by the rational number it denotes. The arithmetic of the program is
binary32 arithmetic: every operation rounds its exact result, by itself (no fused
multiply-add), to the nearest binary32 value, ties to the even significand, with gradual
underflow. Overflow to infinity and NaN are not modelled. -/

/-- Floor of the binary logarithm of a positive `n`, by halving; `fuel` bounds the number of
halvings. -/
def log2Fuel : Nat → Nat → Nat
  | 0, _ => 0
  | fuel + 1, n => if 2 ≤ n then log2Fuel fuel (n / 2) + 1 else 0

/-- Floor of the binary logarithm of `n / d`, for positive `n` and `d`. -/
def floorLog2 (n d : Nat) : Int :=
  let k : Int := (log2Fuel n n : Int) - (log2Fuel d d : Int)
  if (if 0 ≤ k then decide (d * 2 ^ k.toNat ≤ n) else decide (d ≤ n * 2 ^ (-k).toNat)) then k
  else k - 1

/-- The integer nearest to `n / d`, the even one of the two when `n / d` is halfway. -/
def roundNearestEven (n d : Nat) : Nat :=
  if 2 * (n % d) < d then n / d
  else if d < 2 * (n % d) then n / d + 1
  else if (n / d) % 2 = 0 then n / d else n / d + 1

/-- Rounding of an exact result to binary32: the nearest multiple of `2 ^ s`, ties to even,
where `2 ^ (s + 23)` is the largest power of two not above `|q|`, and at least `2 ^ (-126)`
(below it the values are the subnormal ones, multiples of `2 ^ (-149)`). -/
def roundF32 (q : ℚ) : ℚ :=
  if q.num = 0 then 0
  else
    let s : Int := max (floorLog2 q.num.natAbs q.den) (-126) - 23
    let m : Nat :=
      if 0 ≤ s then roundNearestEven q.num.natAbs (q.den * 2 ^ s.toNat)
      else roundNearestEven (q.num.natAbs * 2 ^ (-s).toNat) q.den
    let a : ℚ := if 0 ≤ s then ((m * 2 ^ s.toNat : Nat) : ℚ) else mkRat m (2 ^ (-s).toNat)
    if q.num < 0 then -a else a

/-- The `float` operation `a + b`. -/
def fadd (a b : ℚ) : ℚ := roundF32 (a + b)

/-- The `float` operation `a - b`. -/
def fsub (a b : ℚ) : ℚ := roundF32 (a - b)

/-- The `float` operation `a * b`. -/
def fmul (a b : ℚ) : ℚ := roundF32 (a * b)

/-- The `float` operation `a / b`. -/
def fdiv (a b : ℚ) : ℚ := roundF32 (a / b)

/-- Integer square root, one bit at a time from bit `b - 1` down. -/
def natSqrtBits : Nat → Nat → Nat → Nat
  | 0, _, acc => acc
  | b + 1, n, acc =>
    natSqrtBits b n (if (acc + 2 ^ b) * (acc + 2 ^ b) ≤ n then acc + 2 ^ b else acc)

/-- The binary32 value nearest to the square root of a positive `x`. With `2 ^ (s + 23)` the
largest power of two not above the root, `f` is the integer part of the root in units of
`2 ^ s`, and the root is rounded up when it lies above `f + 1/2`. -/
def sqrtNearest (x : ℚ) : ℚ :=
  if x ≤ 0 then 0
  else
    let s : Int := floorLog2 x.num.natAbs x.den / 2 - 23
    let n : Nat := if 0 ≤ s then x.num.natAbs else x.num.natAbs * 4 ^ (-s).toNat
    let d : Nat := if 0 ≤ s then x.den * 4 ^ s.toNat else x.den
    let f : Nat := natSqrtBits 32 (n / d) 0
    let m : Nat :=
      if (2 * f + 1) ^ 2 * d < 4 * n then f + 1
      else if (2 * f + 1) ^ 2 * d = 4 * n then (if f % 2 = 0 then f else f + 1)
      else f
    if 0 ≤ s then ((m * 2 ^ s.toNat : Nat) : ℚ) else mkRat m (2 ^ (-s).toNat)

/-- The function `sqrtf` of `<cmath>` on a non-negative float: the binary32 value nearest to
the square root. For every `x` up to `FLT_MAX` that value is at most 2^64 (theorem
`sqrtf_eq_sqrtNearest`), so that the bound 2^64 changes no value of `sqrtf` on floats. -/
def sqrtf (x : ℚ) : ℚ := min (sqrtNearest x) (2 ^ 64)

structure Vector2 where
  x : ℚ
  y : ℚ
deriving DecidableEq

/-- Modelled from the spec: `Math.h` is missing; its `Vector2 + Vector2` is componentwise. -/
def Vector2.add (a b : Vector2) : Vector2 := ⟨fadd a.x b.x, fadd a.y b.y⟩

/-- Modelled from the spec: `Math.h` is missing; its `Vector2 - Vector2` is componentwise. -/
def Vector2.sub (a b : Vector2) : Vector2 := ⟨fsub a.x b.x, fsub a.y b.y⟩

/-- Modelled from the spec: `Math.h` is missing; its `Vector2 * float` scales both components. -/
def Vector2.scale (a : Vector2) (k : ℚ) : Vector2 := ⟨fmul a.x k, fmul a.y k⟩

/-- Library functions the program calls and whose code is not part of it: `Normalize`
(Math.h) and the two collision tests of raylib. Every theorem about the frame holds for every
choice of them. -/
structure Lib where
  Normalize : Vector2 → Vector2
  CheckCollisionPointCircle : Vector2 → Vector2 → ℚ → Bool
  CheckCollisionCircles : Vector2 → ℚ → Vector2 → ℚ → Bool

/-- The constant `FLT_MAX` of `<cfloat>`: (2 - 2^-23) * 2^127. -/
def FLT_MAX : ℚ := 340282346638528859811704183484516925440

/-- Lines 6-9. -/
def Vector2Distance (v1 v2 : Vector2) : ℚ :=
  sqrtf (fadd (fmul (fsub v2.x v1.x) (fsub v2.x v1.x)) (fmul (fsub v2.y v1.y) (fsub v2.y v1.y)))

def Vector2Equals (v1 v2 : Vector2) : Bool :=
  decide (v1.x = v2.x) && decide (v1.y = v2.y)

/-- Conversion of an `int` to `float`. -/
def intToFloat (i : Int) : ℚ := roundF32 i

def SCREEN_SIZE : ℚ := 800
def TILE_SIZE : ℚ := fdiv SCREEN_SIZE (intToFloat TILE_COUNT)
def MAX_TURRETS : Int := 5

/-- Lines 75-80. -/
def TileCenter (row col : Int) : Vector2 :=
  ⟨fadd (fmul (intToFloat col) TILE_SIZE) (fmul TILE_SIZE (1 / 2)),
   fadd (fmul (intToFloat row) TILE_SIZE) (fmul TILE_SIZE (1 / 2))⟩

/-- Conversion of a `float` to `int`: truncation toward zero. -/
def floatToInt (q : ℚ) : Int := q.num.tdiv q.den

/-- Conversion of an `int` to `size_t` (64 bits), as done by the comparison with
`waypoints.size() - 1`. -/
def toSizeT (i : Int) : Int := i % 2 ^ 64

/-! ## Entities -/

inductive GameState where
  | SETUP
  | PLAYING
deriving DecidableEq

structure Enemy where
  position : Vector2
  speed : ℚ
  currentWaypoint : Int
  health : ℚ
  radius : ℚ
  active : Bool
deriving DecidableEq

structure Turret where
  position : Vector2
  range : ℚ
  fireRate : ℚ
  reloadTime : ℚ
  bulletSpeed : ℚ
  damage : ℚ
  active : Bool
deriving DecidableEq

structure Bullet where
  position : Vector2
  direction : Vector2
  time : ℚ
  enabled : Bool
deriving DecidableEq

/-- The two sounds of `main`; `PlaySound` is recorded in a log. -/
inductive Sound where
  | placeturretSound
  | removeTurretSound
deriving DecidableEq

/-- The file-scope variables. -/
structure Globals where
  turretCount : Int
  enemyCount : Int
  spawnTimer : ℚ
  gameState : GameState
  enemies : List Enemy
  bullets : List Bullet
  turrets : List Turret
  currentLevel : Int
  enemyHealth : Int
  spawnInterval : ℚ

/-- The mutable locals of `main`; several shadow a file-scope variable of the same name. -/
structure Locals where
  tiles : Grid
  waypoints : List Cell
  bullets : List Bullet
  enemies : List Enemy
  spawnTimer : ℚ
  enemyCount : Int
  turrets : List Turret
  gameState : GameState

/-- Program state at the top of the `while` loop, with the log of played sounds. -/
structure Game where
  g : Globals
  m : Locals
  played : List Sound

/-- What one frame reads from the window: `GetFrameTime`, the mouse position when
`IsMouseButtonPressed(MOUSE_LEFT_BUTTON)`, and `IsKeyPressed(KEY_SPACE)`. -/
structure Input where
  dt : ℚ
  mouse : Option Vector2
  space : Bool

namespace main

def enemySpeed : ℚ := 250
def enemyRadius : ℚ := 20
def bulletTime : ℚ := 1
def bulletSpeed : ℚ := 500
def bulletRadius : ℚ := 15
/-- The local `spawnInterval` of `main`, which the spawn step reads. -/
def spawnInterval : ℚ := 1
def maxEnemies : Int := 10

end main

/-! ## Levels -/

def SetupLevel (level : Int) (g : Globals) : Globals :=
  let g1 : Globals :=
    if level = 1 then { g with enemyHealth := 100, spawnInterval := 3 / 2 }
    else if level = 2 then { g with enemyHealth := 200, spawnInterval := 1 }
    else if level = 3 then { g with enemyHealth := 300, spawnInterval := 3 / 4 }
    else g
  { g1 with enemies := [], bullets := [], turrets := [], enemyCount := 0, spawnTimer := 0 }

def AdvanceLevel (g : Globals) : Globals :=
  let g1 : Globals :=
    if g.currentLevel < 3 then { g with currentLevel := g.currentLevel + 1 }
    else { g with currentLevel := 1 }
  SetupLevel g1.currentLevel g1

/-! ## Setup: the click handler -/

/-- The idiom `v.erase(std::remove_if(v.begin(), v.end(), pred), v.end())`. -/
def eraseRemoveIf {α : Type} (pred : α → Bool) : List α → List α
  | [] => []
  | a :: rest => if pred a then eraseRemoveIf pred rest else a :: eraseRemoveIf pred rest

def setTile (tiles : Grid) (row col : Int) (v : Int) : Grid :=
  fun r c => if r = row ∧ c = col then v else tiles r c

/-- The turret built at a tile, in the initial scan and on placement. The literal `0.8f` of
`fireRate` is the binary32 value 13421773 / 2^24. -/
def newTurret (row col : Int) : Turret :=
  { position := TileCenter row col, range := 250, fireRate := 13421773 / 16777216,
    reloadTime := 0,
    bulletSpeed := 500, damage := 15, active := true }

/-- Line 308: `int col = mousePosition.x / TILE_SIZE`. -/
def mouseCol (mousePosition : Vector2) : Int := floatToInt (fdiv mousePosition.x TILE_SIZE)

/-- Line 309: `int row = mousePosition.y / TILE_SIZE`. -/
def mouseRow (mousePosition : Vector2) : Int := floatToInt (fdiv mousePosition.y TILE_SIZE)

/-- Lines 304-351: the body of `if (IsMouseButtonPressed(MOUSE_LEFT_BUTTON))`. -/
def handleClick (mousePosition : Vector2) (s : Game) : Game :=
  let s1 : Game := { s with played := s.played ++ [Sound.placeturretSound] }
  let col : Int := mouseCol mousePosition
  let row : Int := mouseRow mousePosition
  if InBounds ⟨row, col⟩ TILE_COUNT TILE_COUNT then
    if s1.m.tiles row col = GRASS ∧ s1.g.turretCount < MAX_TURRETS then
      { g := { s1.g with turretCount := s1.g.turretCount + 1 },
        m := { s1.m with tiles := setTile s1.m.tiles row col TURRET,
                         turrets := s1.m.turrets ++ [newTurret row col] },
        played := s1.played ++ [Sound.placeturretSound] }
    else if s1.m.tiles row col = TURRET then
      { g := { s1.g with turretCount := s1.g.turretCount - 1 },
        m := { s1.m with tiles := setTile s1.m.tiles row col GRASS,
                         turrets := eraseRemoveIf
                           (fun turret => Vector2Equals turret.position (TileCenter row col))
                           s1.m.turrets },
        played := s1.played ++ [Sound.removeTurretSound] }
    else s1
  else s1

/-- Lines 302-358: the `if (gameState == SETUP)` block. -/
def setupStep (inp : Input) (s : Game) : Game :=
  let s1 : Game := match inp.mouse with
    | some mousePosition => handleClick mousePosition s
    | none => s
  if inp.space then { s1 with m := { s1.m with gameState := GameState.PLAYING } } else s1

/-! ## Playing: spawn, movement, turrets, bullets, compaction, win test -/

/-- Read of `waypoints[i]`; an index outside the vector (undefined in C++) reads cell (0,0). -/
def waypointAt (waypoints : List Cell) (i : Int) : Cell :=
  if i < 0 then ⟨0, 0⟩ else waypoints.getD i.toNat ⟨0, 0⟩

/-- Lines 366-381. -/
def spawnStep (dt : ℚ) (m : Locals) : Locals :=
  let spawnTimer := fadd m.spawnTimer dt
  if spawnTimer ≥ main.spawnInterval ∧ m.enemyCount < main.maxEnemies then
    let enemy : Enemy :=
      { position := TileCenter (waypointAt m.waypoints 0).row (waypointAt m.waypoints 0).col,
        speed := main.enemySpeed, currentWaypoint := 0, health := 150,
        radius := main.enemyRadius, active := true }
    { m with spawnTimer := 0, enemies := m.enemies ++ [enemy], enemyCount := m.enemyCount + 1 }
  else { m with spawnTimer := spawnTimer }

/-- Lines 386-402: the body of the movement loop for one enemy. -/
def moveEnemy (lib : Lib) (dt : ℚ) (waypoints : List Cell) (enemy : Enemy) : Enemy :=
  if enemy.active then
    let fromPos := TileCenter (waypointAt waypoints enemy.currentWaypoint).row
      (waypointAt waypoints enemy.currentWaypoint).col
    let toPos := TileCenter (waypointAt waypoints (enemy.currentWaypoint + 1)).row
      (waypointAt waypoints (enemy.currentWaypoint + 1)).col
    let direction := lib.Normalize (toPos.sub fromPos)
    let e1 : Enemy :=
      { enemy with position := enemy.position.add ((direction.scale enemy.speed).scale dt) }
    if lib.CheckCollisionPointCircle e1.position toPos e1.radius then
      let e2 : Enemy := { e1 with currentWaypoint := e1.currentWaypoint + 1 }
      if toSizeT e2.currentWaypoint ≥ toSizeT ((waypoints.length : Int) - 1) then
        { e2 with active := false }
      else e2
    else e1
  else enemy

/-- Lines 409-424: the targeting scan. The accumulator is (`nearestEnemy`, `nearestDistance`),
the pointer being the index of the enemy in the vector; `i` is the index of the head. -/
def scanEnemies (turret : Turret) :
    List Enemy → Nat → Option Nat × ℚ → Option Nat × ℚ
  | [], _, acc => acc
  | enemy :: rest, i, acc =>
    if enemy.active then
      let distance := Vector2Distance turret.position enemy.position
      if distance < acc.2 ∧ distance ≤ turret.range then
        scanEnemies turret rest (i + 1) (some i, distance)
      else scanEnemies turret rest (i + 1) acc
    else scanEnemies turret rest (i + 1) acc

def findNearest (turret : Turret) (enemies : List Enemy) : Option Nat × ℚ :=
  scanEnemies turret enemies 0 (none, FLT_MAX)

/-- Lines 439-443: damage of a shot on the enemy `nearestEnemy` points to. -/
def applyDamage (damage : ℚ) (enemy : Enemy) : Enemy :=
  let e1 : Enemy := { enemy with health := fsub enemy.health damage }
  if e1.health ≤ 0 then { e1 with active := false } else e1

/-- Lines 408-444: the body of the turret loop for one turret; it returns the turret,
the enemies and the bullets after it. The index the scan returns is an index of `enemies`,
so the lookup `enemies.get? i` succeeds. -/
def updateTurret (lib : Lib) (dt : ℚ) (turret : Turret) (enemies : List Enemy)
    (bullets : List Bullet) : Turret × List Enemy × List Bullet :=
  let t1 : Turret := { turret with reloadTime := fadd turret.reloadTime dt }
  match (findNearest t1 enemies).1 with
  | some i =>
    match enemies.get? i with
    | some nearestEnemy =>
      if t1.reloadTime ≥ t1.fireRate then
        let bullet : Bullet :=
          { position := t1.position,
            direction := lib.Normalize (nearestEnemy.position.sub t1.position),
            time := 0, enabled := true }
        ({ t1 with reloadTime := 0 }, enemies.set i (applyDamage t1.damage nearestEnemy),
          bullets ++ [bullet])
      else (t1, enemies, bullets)
    | none => (t1, enemies, bullets)
  | none => (t1, enemies, bullets)

/-- Lines 406-445: the turret loop. -/
def updateTurrets (lib : Lib) (dt : ℚ) :
    List Turret → List Enemy → List Bullet → List Turret × List Enemy × List Bullet
  | [], enemies, bullets => ([], enemies, bullets)
  | turret :: rest, enemies, bullets =>
    let r := updateTurret lib dt turret enemies bullets
    let r2 := updateTurrets lib dt rest r.2.1 r.2.2
    (r.1 :: r2.1, r2.2.1, r2.2.2)

/-- Lines 454-462: one bullet against every enemy, in order. -/
def collideBullet (lib : Lib) : Bullet → List Enemy → Bullet × List Enemy
  | bullet, [] => (bullet, [])
  | bullet, enemy :: rest =>
    if enemy.active ∧ lib.CheckCollisionCircles bullet.position main.bulletRadius
        enemy.position enemy.radius then
      let r := collideBullet lib { bullet with enabled := false } rest
      (r.1, { enemy with health := fsub enemy.health 10 } :: r.2)
    else
      let r := collideBullet lib bullet rest
      (r.1, enemy :: r.2)

/-- Lines 450-462: the body of the bullet loop for one bullet. -/
def updateBullet (lib : Lib) (dt : ℚ) (bullet : Bullet) (enemies : List Enemy) :
    Bullet × List Enemy :=
  let b1 : Bullet :=
    { bullet with
      position := bullet.position.add ((bullet.direction.scale main.bulletSpeed).scale dt),
      time := fadd bullet.time dt }
  collideBullet lib b1 enemies

/-- Lines 448-463: the bullet loop. -/
def updateBullets (lib : Lib) (dt : ℚ) : List Bullet → List Enemy → List Bullet × List Enemy
  | [], enemies => ([], enemies)
  | bullet :: rest, enemies =>
    let r := updateBullet lib dt bullet enemies
    let r2 := updateBullets lib dt rest r.2
    (r.1 :: r2.1, r2.2)

/-- Lines 366-463: the update passes of a playing frame, before the compaction. -/
def updatePasses (lib : Lib) (dt : ℚ) (m : Locals) : Locals :=
  let m1 := spawnStep dt m
  let m2 : Locals := { m1 with enemies := m1.enemies.map (moveEnemy lib dt m1.waypoints) }
  let r := updateTurrets lib dt m2.turrets m2.enemies m2.bullets
  let r2 := updateBullets lib dt r.2.2 r.2.1
  { m2 with turrets := r.1, enemies := r2.2, bullets := r2.1 }

/-- Lines 465-468. -/
def compactBullets (m : Locals) : Locals :=
  { m with bullets := eraseRemoveIf (fun bullet => !bullet.enabled) m.bullets }

/-- Lines 470-474. -/
def winCheck (s : Game) : Game :=
  if s.m.enemies.isEmpty ∧ s.m.enemyCount ≥ main.maxEnemies then { s with g := AdvanceLevel s.g }
  else s

/-- Lines 363-475: the `if (gameState == PLAYING)` block. -/
def playingStep (lib : Lib) (dt : ℚ) (s : Game) : Game :=
  winCheck { s with m := compactBullets (updatePasses lib dt s.m) }

/-- One iteration of the `while` loop (drawing left out). -/
def frame (lib : Lib) (inp : Input) (s : Game) : Game :=
  let s1 := if s.m.gameState = GameState.SETUP then setupStep inp s else s
  if s1.m.gameState = GameState.PLAYING then playingStep lib inp.dt s1 else s1

/-! ## Initial state -/

/-- Lines 257-277: the turrets of the TURRET tiles of the initial grid, in row-major order. -/
def initialTurrets (tiles : Grid) : List Turret :=
  (gridCells.filter (fun c => tiles c.row c.col = TURRET)).map (fun c => newTurret c.row c.col)

/-- The file-scope variables as declared, before `main` runs. -/
def globals0 : Globals :=
  { turretCount := 0, enemyCount := 0, spawnTimer := 0, gameState := GameState.SETUP,
    enemies := [], bullets := [], turrets := [], currentLevel := 1, enemyHealth := 100,
    spawnInterval := 3 / 2 }

/-- State on entry of the `while` loop: lines 209-295. -/
def initGame : Game :=
  let tiles := gridOfRows mainTiles
  { g := SetupLevel globals0.currentLevel (SetupLevel globals0.currentLevel globals0),
    m := { tiles := tiles,
           waypoints := (FloodFill ⟨0, 12⟩ tiles WAYPOINT).getD [],
           bullets := [], enemies := [], spawnTimer := 0, enemyCount := 0,
           turrets := initialTurrets tiles, gameState := GameState.SETUP },
    played := [] }

/-- The state after the frames of `inputs`, in order. -/
def run (lib : Lib) (inputs : List Input) : Game :=
  inputs.foldl (fun s inp => frame lib inp s) initGame

/-! ## A concrete library, for evaluating frames on explicit inputs -/

/-- The library functions as raylib and the usual vector header define them, in binary32
arithmetic: `Normalize` dividing by the length, and the two collision tests comparing the
squared distance with the squared radius (sum). -/
def refLib : Lib :=
  { Normalize := fun v =>
      if sqrtf (fadd (fmul v.x v.x) (fmul v.y v.y)) = 0 then v
      else ⟨fdiv v.x (sqrtf (fadd (fmul v.x v.x) (fmul v.y v.y))),
            fdiv v.y (sqrtf (fadd (fmul v.x v.x) (fmul v.y v.y)))⟩
    CheckCollisionPointCircle := fun point center radius =>
      decide (fadd (fmul (fsub point.x center.x) (fsub point.x center.x))
          (fmul (fsub point.y center.y) (fsub point.y center.y)) ≤ fmul radius radius)
    CheckCollisionCircles := fun center1 radius1 center2 radius2 =>
      decide (fadd (fmul (fsub center2.x center1.x) (fsub center2.x center1.x))
          (fmul (fsub center2.y center1.y) (fsub center2.y center1.y))
        ≤ fmul (fadd radius1 radius2) (fadd radius1 radius2)) }

/-- A turret of the game, on tile (0,0), whose reload time is 0.7f = 11744051 / 2^24. -/
def reloadingTurret : Turret :=
  { newTurret 0 0 with reloadTime := 11744051 / 16777216 }

/-- An active enemy as the spawn step builds it, at a given position. -/
def enemyAt (position : Vector2) : Enemy :=
  { position := position, speed := main.enemySpeed, currentWaypoint := 0, health := 150,
    radius := main.enemyRadius, active := true }

/-- Three clicks that place turrets on the GRASS cells (0,11), (0,13) and (1,11), next to the
entry of the path, then the start event with a frame of
15/16 s, a frame of 1/16 s and a frame of 13/32 s. -/
def threeTurretsFirstVolley : List Input :=
  [⟨1 / 64, some ⟨460, 20⟩, false⟩, ⟨1 / 64, some ⟨540, 20⟩, false⟩,
   ⟨1 / 64, some ⟨460, 60⟩, false⟩, ⟨15 / 16, none, true⟩, ⟨1 / 16, none, false⟩,
   ⟨13 / 32, none, false⟩]

/-! ## Notions and grids for the statements about the flood fill -/

/-- Cell `b` is one of the four neighbours of `a` that the neighbour loop of `FloodFill`
visits: `b = a + dir` for a `dir` of `DIRECTIONS`. -/
def adjacent4 (a b : Cell) : Bool :=
  DIRECTIONS.any (fun dir => decide (b.row = a.row + dir.row ∧ b.col = a.col + dir.col))

/-- The cells connected to `start` through corridor tiles: `start` itself, and every cell of
the grid with a positive tile that is one of the four neighbours of a connected cell. -/
inductive Connected (tiles : Grid) (start : Cell) : Cell → Prop where
  | start : Connected tiles start start
  | step (c n : Cell) : Connected tiles start c → adjacent4 c n = true →
      InBounds n TILE_COUNT TILE_COUNT = true → tiles n.row n.col > 0 → Connected tiles start n

/-- The test of line 122 on a neighbour `adj`: in bounds, not closed, and a positive tile. -/
def isPushed (tiles : Grid) (closed : Closed) (adj : Cell) : Bool :=
  InBounds adj TILE_COUNT TILE_COUNT && !closed adj.row adj.col
    && decide (tiles adj.row adj.col > 0)

/-- A grid with a branch: a corridor from the waypoint (0,0) that forks at (0,1) towards the
waypoints (0,2) and (2,1). -/
def branchTiles : List (List Int) := [
  [2, 1, 2],
  [0, 1, 0],
  [0, 2, 0]]

/-- A grid with a filled 2x2 block of waypoint tiles. -/
def blockTiles : List (List Int) := [
  [2, 2],
  [2, 2]]

/-- Structural form of a simple corridor: every cell is a neighbour of the next cell and of
no cell after the next. -/
def simpleChain : List Cell → Prop
  | [] => True
  | [_] => True
  | c :: d :: rest =>
    adjacent4 c d = true ∧ (∀ x ∈ rest, adjacent4 c x = false) ∧ simpleChain (d :: rest)

/-- The cells of the corridor of the grid of `main` after the entry (0,12), from entry to
exit. -/
def mainCorridorRest : List Cell :=
  [⟨1, 12⟩, ⟨2, 12⟩, ⟨3, 12⟩, ⟨4, 12⟩, ⟨5, 12⟩, ⟨6, 12⟩, ⟨7, 12⟩, ⟨7, 11⟩, ⟨7, 10⟩, ⟨7, 9⟩,
   ⟨7, 8⟩, ⟨7, 7⟩, ⟨7, 6⟩, ⟨7, 5⟩, ⟨7, 4⟩, ⟨7, 3⟩, ⟨8, 3⟩, ⟨9, 3⟩, ⟨10, 3⟩, ⟨11, 3⟩, ⟨12, 3⟩,
   ⟨13, 3⟩, ⟨13, 4⟩, ⟨13, 5⟩, ⟨13, 6⟩, ⟨13, 7⟩, ⟨13, 8⟩, ⟨13, 9⟩, ⟨13, 10⟩, ⟨13, 11⟩, ⟨13, 12⟩,
   ⟨13, 13⟩, ⟨13, 14⟩, ⟨13, 15⟩, ⟨13, 16⟩, ⟨14, 16⟩, ⟨15, 16⟩, ⟨16, 16⟩, ⟨17, 16⟩, ⟨17, 15⟩,
   ⟨17, 14⟩, ⟨17, 13⟩, ⟨17, 12⟩, ⟨17, 11⟩, ⟨17, 10⟩, ⟨17, 9⟩, ⟨18, 9⟩, ⟨19, 9⟩]

/-! ## The turret layout -/

/-- The turrets of the state stand on the cells `cells`, in the order of the turret list:
`cells` lists, without repetition, the cells of the grid whose tile is TURRET, the turret
positions are the tile centres of these cells, and `turretCount` is their number. -/
def TurretLayout (s : Game) (cells : List Cell) : Prop :=
  cells.Nodup
  ∧ (∀ c : Cell, c ∈ cells ↔
      (InBounds c TILE_COUNT TILE_COUNT = true ∧ s.m.tiles c.row c.col = TURRET))
  ∧ s.m.turrets.map (fun t => t.position) = cells.map (fun c => TileCenter c.row c.col)
  ∧ s.g.turretCount = (cells.length : Int)

/-! ## A run in which every enemy leaves the path -/

/-- The array bounds are the bounds that `InBounds` tests. -/
theorem inBounds_iff (cell : Cell) :
    InBounds cell TILE_COUNT TILE_COUNT = true
      ↔ (0 ≤ cell.row ∧ cell.row < TILE_COUNT ∧ 0 ≤ cell.col ∧ cell.col < TILE_COUNT) := by
  unfold InBounds
  simp only [Bool.and_eq_true, decide_eq_true_eq, ge_iff_le]
  tauto

theorem readTiles_inBounds (tiles : Grid) (cell : Cell)
    (h : InBounds cell TILE_COUNT TILE_COUNT = true) :
    readTiles tiles cell = some (tiles cell.row cell.col) := by
  unfold readTiles
  rw [if_pos ((inBounds_iff cell).mp h)]

theorem readClosed_inBounds (closed : Closed) (cell : Cell)
    (h : InBounds cell TILE_COUNT TILE_COUNT = true) :
    readClosed closed cell = some (closed cell.row cell.col) := by
  unfold readClosed
  rw [if_pos ((inBounds_iff cell).mp h)]

theorem writeClosed_inBounds (closed : Closed) (cell : Cell)
    (h : InBounds cell TILE_COUNT TILE_COUNT = true) :
    writeClosed closed cell = some (setClosed closed cell) := by
  unfold writeClosed
  rw [if_pos ((inBounds_iff cell).mp h)]

theorem writeClosed_outside (closed : Closed) (cell : Cell)
    (h : ¬ InBounds cell TILE_COUNT TILE_COUNT = true) :
    writeClosed closed cell = none := by
  unfold writeClosed
  rw [if_neg (fun hb => h ((inBounds_iff cell).mpr hb))]

/-- The test of line 122 reads `closed` and `tiles` only at a cell that passed `InBounds`:
no read is outside its array, and the value of the test is that of the unchecked test. -/
theorem neighbourTest_eq (tiles : Grid) (closed : Closed) (adj : Cell) :
    neighbourTest tiles closed adj = some (isPushed tiles closed adj) := by
  unfold neighbourTest isPushed
  by_cases hb : InBounds adj TILE_COUNT TILE_COUNT = true
  · rw [if_pos hb, readClosed_inBounds _ _ hb, readTiles_inBounds _ _ hb, hb]
    cases closed adj.row adj.col <;> simp
  · rw [if_neg hb]
    simp only [Bool.not_eq_true] at hb
    rw [hb]
    simp

/-- The neighbour loop makes no read outside the arrays, and pushes what the unchecked loop
pushes. -/
theorem pushNeighboursChecked_eq (tiles : Grid) (closed : Closed) (cell : Cell)
    (stack : List Cell) :
    pushNeighboursChecked tiles closed cell stack = some (pushNeighbours tiles closed cell stack) := by
  have hstep : ∀ (st : List Cell) (adj : Cell),
      (match neighbourTest tiles closed adj with
        | none => none
        | some true => some (adj :: st)
        | some false => some st)
      = some (if InBounds adj TILE_COUNT TILE_COUNT && !closed adj.row adj.col
            && decide (tiles adj.row adj.col > 0) then adj :: st else st) := by
    intro st adj
    rw [neighbourTest_eq]
    unfold isPushed
    cases (InBounds adj TILE_COUNT TILE_COUNT && !closed adj.row adj.col
            && decide (tiles adj.row adj.col > 0)) <;> rfl
  simp only [pushNeighboursChecked, pushNeighbours, DIRECTIONS, List.foldl_cons, List.foldl_nil,
    hstep]

/-- A result of the fuelled loop is the result of the loop. -/
theorem floodLoopFuel_sound (tiles : Grid) (searchValue : Int) (fuel : Nat) :
    ∀ (closed : Closed) (openStack result : List Cell) (r : Option (List Cell)),
      floodLoopFuel tiles searchValue fuel closed openStack result = some r →
      floodLoop tiles searchValue closed openStack result = r := by
  induction fuel with
  | zero => intro closed openStack result r h; simp [floodLoopFuel] at h
  | succ n ih =>
    intro closed openStack result r h
    cases openStack with
    | nil =>
      simp only [floodLoopFuel, Option.some.injEq] at h
      rw [floodLoop.eq_def]; exact h
    | cons cell rest =>
      rw [floodLoop.eq_def]
      dsimp only
      simp only [floodLoopFuel] at h
      by_cases hb : InBounds cell TILE_COUNT TILE_COUNT = true
      · rw [writeClosed_inBounds _ _ hb, readTiles_inBounds _ _ hb] at h
        dsimp only at h
        rw [pushNeighboursChecked_eq] at h
        dsimp only at h
        rw [dif_pos hb]
        exact ih _ _ _ _ h
      · rw [writeClosed_outside _ _ hb] at h
        rw [dif_neg hb]
        exact Option.some.inj h

/-! ## Path extraction -/

set_option maxRecDepth 100000 in
theorem FloodFill_mainTiles :
    FloodFill ⟨0, 12⟩ (gridOfRows mainTiles) WAYPOINT
      = some [⟨0, 12⟩, ⟨7, 12⟩, ⟨7, 3⟩, ⟨13, 3⟩, ⟨13, 16⟩, ⟨17, 16⟩, ⟨17, 9⟩, ⟨19, 9⟩] :=
  floodLoopFuel_sound _ _ 100 _ _ _ _ (by decide)

/-- C1: on the grid of `main`, `FloodFill` from cell (0,12) with search value WAYPOINT returns
the eight waypoints (0,12), (7,12), (7,3), (13,3), (13,16), (17,16), (17,9), (19,9), in this
order. -/
theorem C1_floodfill_reference_waypoints :
    FloodFill ⟨0, 12⟩ (gridOfRows mainTiles) WAYPOINT
      = some [⟨0, 12⟩, ⟨7, 12⟩, ⟨7, 3⟩, ⟨13, 3⟩, ⟨13, 16⟩, ⟨17, 16⟩, ⟨17, 9⟩, ⟨19, 9⟩]
    ∧ (FloodFill ⟨0, 12⟩ (gridOfRows mainTiles) WAYPOINT).map List.length = some 8 := by
  refine ⟨FloodFill_mainTiles, ?_⟩
  rw [FloodFill_mainTiles]
  rfl

/-- The game loop starts with the waypoints of the reference grid. -/
theorem initGame_waypoints :
    initGame.m.waypoints
      = [⟨0, 12⟩, ⟨7, 12⟩, ⟨7, 3⟩, ⟨13, 3⟩, ⟨13, 16⟩, ⟨17, 16⟩, ⟨17, 9⟩, ⟨19, 9⟩] := by
  unfold initGame
  dsimp only
  rw [FloodFill_mainTiles]
  rfl

/-! ## Binary32 arithmetic -/

/-- The halving count is the floor of the binary logarithm. -/
theorem log2Fuel_spec : ∀ (fuel n : Nat), 1 ≤ n → n ≤ fuel →
    2 ^ log2Fuel fuel n ≤ n ∧ n < 2 ^ (log2Fuel fuel n + 1) := by
  intro fuel
  induction fuel with
  | zero => intro n h1 h2; omega
  | succ k ih =>
    intro n h1 h2
    unfold log2Fuel
    by_cases h : 2 ≤ n
    · rw [if_pos h]
      obtain ⟨a, b⟩ := ih (n / 2) (by omega) (by omega)
      constructor
      · rw [pow_succ]
        omega
      · rw [pow_succ]
        omega
    · rw [if_neg h]
      constructor
      · simp; omega
      · simp; omega

/-- The value of `floorLog2 n d` is the floor of the binary logarithm of `n / d`. -/
theorem floorLog2_spec (n d : Nat) (hn : 1 ≤ n) (hd : 1 ≤ d) :
    (2 : ℚ) ^ (floorLog2 n d) ≤ (n : ℚ) / d ∧ (n : ℚ) / d < (2 : ℚ) ^ (floorLog2 n d + 1) := by
  obtain ⟨a1, a2⟩ := log2Fuel_spec n n hn le_rfl
  obtain ⟨b1, b2⟩ := log2Fuel_spec d d hd le_rfl
  have hdq : (0 : ℚ) < d := by exact_mod_cast hd
  have a1q : (2 : ℚ) ^ (log2Fuel n n) ≤ n := by exact_mod_cast a1
  have a2q : (n : ℚ) < 2 ^ (log2Fuel n n + 1) := by exact_mod_cast a2
  have b1q : (2 : ℚ) ^ (log2Fuel d d) ≤ d := by exact_mod_cast b1
  have b2q : (d : ℚ) < 2 ^ (log2Fuel d d + 1) := by exact_mod_cast b2
  have h2 : (0 : ℚ) < 2 := by norm_num
  -- bounds with k = a - b
  have hlow : (2 : ℚ) ^ ((log2Fuel n n : Int) - (log2Fuel d d : Int) - 1) ≤ (n : ℚ) / d := by
    rw [le_div_iff₀ hdq]
    have e : (2 : ℚ) ^ ((log2Fuel n n : Int) - (log2Fuel d d : Int) - 1)
        = 2 ^ (log2Fuel n n) / 2 ^ (log2Fuel d d + 1) := by
      rw [zpow_sub₀ (by norm_num), zpow_sub₀ (by norm_num), zpow_natCast, zpow_natCast, zpow_one,
        pow_succ]
      field_simp
    rw [e, div_mul_eq_mul_div, div_le_iff₀ (by positivity)]
    calc (2 : ℚ) ^ log2Fuel n n * d ≤ n * d := by
          exact mul_le_mul_of_nonneg_right a1q (le_of_lt hdq)
      _ ≤ n * 2 ^ (log2Fuel d d + 1) := by
          exact mul_le_mul_of_nonneg_left (le_of_lt b2q) (by positivity)
  have hhigh : (n : ℚ) / d < (2 : ℚ) ^ ((log2Fuel n n : Int) - (log2Fuel d d : Int) + 1) := by
    rw [div_lt_iff₀ hdq]
    have e : (2 : ℚ) ^ ((log2Fuel n n : Int) - (log2Fuel d d : Int) + 1)
        = 2 ^ (log2Fuel n n + 1) / 2 ^ (log2Fuel d d) := by
      rw [zpow_add₀ (by norm_num), zpow_sub₀ (by norm_num), zpow_natCast, zpow_natCast, zpow_one,
        pow_succ]
      field_simp
    rw [e, div_mul_eq_mul_div, lt_div_iff₀ (by positivity)]
    calc (n : ℚ) * 2 ^ log2Fuel d d < 2 ^ (log2Fuel n n + 1) * 2 ^ log2Fuel d d := by
          exact mul_lt_mul_of_pos_right a2q (by positivity)
      _ ≤ 2 ^ (log2Fuel n n + 1) * d := by
          exact mul_le_mul_of_nonneg_left b1q (by positivity)
  -- the test decides 2^k ≤ n/d
  have htest : ∀ k : Int,
      ((if 0 ≤ k then decide (d * 2 ^ k.toNat ≤ n) else decide (d ≤ n * 2 ^ (-k).toNat)) = true)
        ↔ (2 : ℚ) ^ k ≤ (n : ℚ) / d := by
    intro k
    rw [le_div_iff₀ hdq]
    by_cases hk : 0 ≤ k
    · rw [if_pos hk, decide_eq_true_eq]
      have e : (2 : ℚ) ^ k = ((2 ^ k.toNat : Nat) : ℚ) := by
        conv_lhs => rw [← Int.toNat_of_nonneg hk]
        rw [zpow_natCast]
        push_cast
        rfl
      rw [e]
      constructor
      · intro h
        have : ((d * 2 ^ k.toNat : Nat) : ℚ) ≤ n := by exact_mod_cast h
        push_cast at this ⊢
        linarith
      · intro h
        have : ((2 ^ k.toNat * d : Nat) : ℚ) ≤ n := by push_cast at h ⊢; exact h
        have := Nat.cast_le.mp this
        linarith
    · rw [if_neg hk, decide_eq_true_eq]
      have hk2 : 0 ≤ -k := by omega
      have e : (2 : ℚ) ^ k = 1 / ((2 ^ (-k).toNat : Nat) : ℚ) := by
        have : k = -((-k).toNat : Int) := by rw [Int.toNat_of_nonneg hk2]; ring
        conv_lhs => rw [this]
        rw [zpow_neg, zpow_natCast]
        push_cast
        rw [one_div]
      rw [e, div_mul_eq_mul_div, one_mul, div_le_iff₀ (by positivity)]
      constructor
      · intro h
        exact_mod_cast h
      · intro h
        exact_mod_cast h
  unfold floorLog2
  dsimp only
  by_cases ht : (if 0 ≤ (log2Fuel n n : Int) - (log2Fuel d d : Int)
      then decide (d * 2 ^ ((log2Fuel n n : Int) - (log2Fuel d d : Int)).toNat ≤ n)
      else decide (d ≤ n * 2 ^ (-((log2Fuel n n : Int) - (log2Fuel d d : Int))).toNat)) = true
  · rw [if_pos ht]
    exact ⟨(htest _).mp ht, hhigh⟩
  · rw [if_neg ht]
    refine ⟨hlow, ?_⟩
    have := mt (htest _).mpr ht
    rw [sub_add_cancel]
    exact lt_of_not_le this

/-- The integer square root is not above the root. -/
theorem natSqrtBits_sq : ∀ (b n acc : Nat), acc * acc ≤ n →
    natSqrtBits b n acc * natSqrtBits b n acc ≤ n := by
  intro b
  induction b with
  | zero => intro n acc h; exact h
  | succ k ih =>
    intro n acc h
    unfold natSqrtBits
    by_cases hc : (acc + 2 ^ k) * (acc + 2 ^ k) ≤ n
    · rw [if_pos hc]; exact ih n _ hc
    · rw [if_neg hc]; exact ih n _ h


/-- The rounded root is at most 2^64 when the exponent `s` is at most 40 and the integer
part of the scaled radicand is below 2^48. -/
theorem sqrtNearest_core (n1 d1 : Nat) (s : Int) (hs : s ≤ 40) (hN : n1 / d1 < 2 ^ 48) :
    (if 0 ≤ s then
        (((if (2 * natSqrtBits 32 (n1 / d1) 0 + 1) ^ 2 * d1 < 4 * n1
            then natSqrtBits 32 (n1 / d1) 0 + 1
          else if (2 * natSqrtBits 32 (n1 / d1) 0 + 1) ^ 2 * d1 = 4 * n1
            then (if natSqrtBits 32 (n1 / d1) 0 % 2 = 0 then natSqrtBits 32 (n1 / d1) 0
              else natSqrtBits 32 (n1 / d1) 0 + 1)
          else natSqrtBits 32 (n1 / d1) 0) * 2 ^ s.toNat : Nat) : ℚ)
      else mkRat
        ((if (2 * natSqrtBits 32 (n1 / d1) 0 + 1) ^ 2 * d1 < 4 * n1
            then natSqrtBits 32 (n1 / d1) 0 + 1
          else if (2 * natSqrtBits 32 (n1 / d1) 0 + 1) ^ 2 * d1 = 4 * n1
            then (if natSqrtBits 32 (n1 / d1) 0 % 2 = 0 then natSqrtBits 32 (n1 / d1) 0
              else natSqrtBits 32 (n1 / d1) 0 + 1)
          else natSqrtBits 32 (n1 / d1) 0 : Nat) : Int) (2 ^ (-s).toNat)) ≤ 2 ^ 64 := by
  generalize hfdef : natSqrtBits 32 (n1 / d1) 0 = f
  generalize hmdef : (if (2 * f + 1) ^ 2 * d1 < 4 * n1 then f + 1
       else if (2 * f + 1) ^ 2 * d1 = 4 * n1 then (if f % 2 = 0 then f else f + 1)
       else f) = m
  have hf2 : f * f ≤ n1 / d1 := by
    rw [← hfdef]
    exact natSqrtBits_sq 32 (n1 / d1) 0 (Nat.zero_le _)
  have hf : f < 2 ^ 24 := by
    by_contra hge
    have hge2 : 2 ^ 24 ≤ f := Nat.le_of_not_lt hge
    have : 2 ^ 24 * 2 ^ 24 ≤ f * f := Nat.mul_le_mul hge2 hge2
    have h48 : n1 / d1 < 2 ^ 48 := hN
    norm_num at this h48
    omega
  have hm : m ≤ 2 ^ 24 := by
    rw [← hmdef]
    split_ifs <;> omega
  by_cases h0 : 0 ≤ s
  · rw [if_pos h0]
    have hsn : s.toNat ≤ 40 := by omega
    have hp : 2 ^ s.toNat ≤ 2 ^ 40 := Nat.pow_le_pow_right (by norm_num) hsn
    have : m * 2 ^ s.toNat ≤ 2 ^ 24 * 2 ^ 40 := Nat.mul_le_mul hm hp
    have h2 : ((m * 2 ^ s.toNat : Nat) : ℚ) ≤ ((2 ^ 24 * 2 ^ 40 : Nat) : ℚ) := by
      exact_mod_cast this
    refine le_trans h2 ?_
    norm_num
  · rw [if_neg h0]
    rw [Rat.mkRat_eq_div]
    have hpos : (0 : ℚ) < ((2 ^ (-s).toNat : Nat) : ℚ) := by positivity
    have h1 : (1 : ℚ) ≤ ((2 ^ (-s).toNat : Nat) : ℚ) := by
      have : 1 ≤ 2 ^ (-s).toNat := Nat.one_le_two_pow
      exact_mod_cast this
    have hmq : ((m : Int) : ℚ) ≤ 2 ^ 24 := by
      have : ((m : Nat) : ℚ) ≤ ((2 ^ 24 : Nat) : ℚ) := by exact_mod_cast hm
      push_cast at this ⊢
      exact this
    have hm0 : (0 : ℚ) ≤ ((m : Int) : ℚ) := by positivity
    calc ((m : Int) : ℚ) / ((2 ^ (-s).toNat : Nat) : ℚ) ≤ ((m : Int) : ℚ) / 1 := by
          apply div_le_div_of_nonneg_left hm0 (by norm_num) h1
      _ = m := by simp
      _ ≤ 2 ^ 24 := hmq
      _ ≤ 2 ^ 64 := by norm_num

/-- The square root of a float is at most 2^64. -/
theorem sqrtNearest_le (x : ℚ) (hx : x ≤ FLT_MAX) : sqrtNearest x ≤ 2 ^ 64 := by
  unfold sqrtNearest
  by_cases h0 : x ≤ 0
  · rw [if_pos h0]
    norm_num
  · rw [if_neg h0]
    have hxpos : 0 < x := lt_of_not_le h0
    have hnum : 0 < x.num := Rat.num_pos.mpr hxpos
    have hn : 1 ≤ x.num.natAbs := by omega
    have hd : 1 ≤ x.den := x.den_pos
    have hxeq : ((x.num.natAbs : Nat) : ℚ) / (x.den : ℚ) = x := by
      have e : ((x.num.natAbs : Nat) : Int) = x.num := by omega
      have e2 : ((x.num.natAbs : Nat) : ℚ) = ((x.num : Int) : ℚ) := by
        rw [← Int.cast_natCast, e]
      rw [e2]
      exact Rat.num_div_den x
    obtain ⟨l1, l2⟩ := floorLog2_spec x.num.natAbs x.den hn hd
    rw [hxeq] at l1 l2
    have hL : floorLog2 x.num.natAbs x.den < 128 := by
      have h128 : x < (2 : ℚ) ^ (128 : Int) := by
        refine lt_of_le_of_lt hx ?_
        unfold FLT_MAX
        norm_num
      have := lt_of_le_of_lt l1 h128
      exact (zpow_lt_zpow_iff_right₀ (by norm_num : (1 : ℚ) < 2)).mp this
    have hs : floorLog2 x.num.natAbs x.den / 2 - 23 ≤ 40 := by omega
    -- the radicand in units of 4^s is below 2^48
    have hx48 : x < (2 : ℚ) ^ (2 * (floorLog2 x.num.natAbs x.den / 2 - 23) + 48) := by
      refine lt_of_lt_of_le l2 ?_
      apply zpow_le_zpow_right₀ (by norm_num)
      omega
    dsimp only
    refine sqrtNearest_core _ _ _ hs ?_
    generalize floorLog2 x.num.natAbs x.den / 2 - 23 = s at hx48 ⊢
    have hdq : (0 : ℚ) < x.den := by exact_mod_cast hd
    by_cases hs0 : 0 ≤ s
    · rw [if_pos hs0, if_pos hs0]
      rw [Nat.div_lt_iff_lt_mul (by positivity)]
      have e : (2 : ℚ) ^ (2 * s + 48) = ((4 ^ s.toNat * 2 ^ 48 : Nat) : ℚ) := by
        have : 2 * s + 48 = ((2 * s.toNat + 48 : Nat) : Int) := by
          push_cast
          rw [Int.toNat_of_nonneg hs0]
        rw [this, zpow_natCast]
        push_cast
        rw [pow_add, pow_mul]
        norm_num
      rw [e, ← hxeq, div_lt_iff₀ hdq] at hx48
      have : x.num.natAbs < 4 ^ s.toNat * 2 ^ 48 * x.den := by exact_mod_cast hx48
      calc x.num.natAbs < 4 ^ s.toNat * 2 ^ 48 * x.den := this
        _ = 2 ^ 48 * (x.den * 4 ^ s.toNat) := by ring
    · rw [if_neg hs0, if_neg hs0]
      rw [Nat.div_lt_iff_lt_mul (by positivity)]
      have hs1 : 0 ≤ -s := by omega
      have e : (2 : ℚ) ^ (2 * s + 48) = (2 ^ 48 : ℚ) / ((4 ^ (-s).toNat : Nat) : ℚ) := by
        have : 2 * s + 48 = (48 : Int) - ((2 * (-s).toNat : Nat) : Int) := by
          push_cast
          rw [Int.toNat_of_nonneg hs1]
          ring
        rw [this, zpow_sub₀ (by norm_num), zpow_natCast]
        push_cast
        rw [pow_mul]
        norm_num
      rw [e, ← hxeq, div_lt_div_iff₀ hdq (by positivity)] at hx48
      have : x.num.natAbs * 4 ^ (-s).toNat < 2 ^ 48 * x.den := by exact_mod_cast hx48
      exact this

/-- On floats `sqrtf` is the nearest binary32 value to the root: the bound 2^64 is not
reached. -/
theorem sqrtf_eq_sqrtNearest (x : ℚ) (hx : x ≤ FLT_MAX) : sqrtf x = sqrtNearest x :=
  min_eq_left (sqrtNearest_le x hx)


/-- Rounding at work: 1/3 rounds to 11184811 / 2^25; the `float` sums 0.9f + 0.1f and
0.7f + 0.1f are 1 and 0.8f, above the exact sums; the square root of 2 is 11863283 / 2^23,
that of 10000 is 100; the largest square root of a float, that of `FLT_MAX`, is
2^64 - 2^40. -/
theorem binary32_examples :
    roundF32 (1 / 3) = 11184811 / 33554432
    ∧ fadd (7549747 / 8388608) (13421773 / 134217728) = 1
    ∧ (7549747 / 8388608 + 13421773 / 134217728 : ℚ) < 1
    ∧ fadd (11744051 / 16777216) (13421773 / 134217728) = 13421773 / 16777216
    ∧ (11744051 / 16777216 + 13421773 / 134217728 : ℚ) < 13421773 / 16777216
    ∧ sqrtf 2 = 11863283 / 8388608
    ∧ sqrtf 10000 = 100
    ∧ sqrtf FLT_MAX = 2 ^ 64 - 2 ^ 40
    ∧ roundF32 FLT_MAX = FLT_MAX := by
  decide!

/-! ## Targeting -/

/-- What the scan returns from an accumulator `(sel, d)`: either the accumulator itself, every
active enemy in range being at distance at least `d`, or the first enemy of least distance
among the active ones in range, that distance being below `d`. -/
theorem scanEnemies_spec (t : Turret) (es : List Enemy) :
    ∀ (i : Nat) (sel : Option Nat) (d : ℚ),
      (scanEnemies t es i (sel, d) = (sel, d) ∧
        ∀ e ∈ es, e.active = true → Vector2Distance t.position e.position ≤ t.range →
          d ≤ Vector2Distance t.position e.position)
      ∨ ∃ k e, es.get? k = some e ∧
          scanEnemies t es i (sel, d) = (some (i + k), Vector2Distance t.position e.position) ∧
          e.active = true ∧ Vector2Distance t.position e.position ≤ t.range ∧
          Vector2Distance t.position e.position < d ∧
          (∀ e2 ∈ es, e2.active = true → Vector2Distance t.position e2.position ≤ t.range →
            Vector2Distance t.position e.position ≤ Vector2Distance t.position e2.position) ∧
          (∀ j e2, j < k → es.get? j = some e2 → e2.active = true →
            Vector2Distance t.position e2.position ≤ t.range →
            Vector2Distance t.position e.position < Vector2Distance t.position e2.position) := by
  induction es with
  | nil =>
    intro i sel d
    left
    exact ⟨rfl, fun e he => by cases he⟩
  | cons e0 rest ih =>
    intro i sel d
    by_cases hc : e0.active = true ∧ Vector2Distance t.position e0.position < d ∧
        Vector2Distance t.position e0.position ≤ t.range
    · obtain ⟨ha, hlt, hr⟩ := hc
      have hstep : scanEnemies t (e0 :: rest) i (sel, d)
          = scanEnemies t rest (i + 1) (some i, Vector2Distance t.position e0.position) := by
        simp [scanEnemies, ha, hlt, hr]
      right
      rcases ih (i + 1) (some i) (Vector2Distance t.position e0.position) with ⟨heq, hall⟩ | ⟨k, e, hk, heq, hact, hin, hlt2, hmin, hfirst⟩
      · refine ⟨0, e0, rfl, ?_, ha, hr, hlt, ?_, ?_⟩
        · rw [hstep, heq]; rfl
        · intro e2 he2 ha2 hr2
          rcases List.mem_cons.mp he2 with h1 | h1
          · rw [h1]
          · exact hall e2 h1 ha2 hr2
        · intro j e2 hj
          exact absurd hj (Nat.not_lt_zero j)
      · refine ⟨k + 1, e, hk, ?_, hact, hin, lt_trans hlt2 hlt, ?_, ?_⟩
        · rw [hstep, heq]
          congr 2
          omega
        · intro e2 he2 ha2 hr2
          rcases List.mem_cons.mp he2 with h1 | h1
          · rw [h1]; exact le_of_lt hlt2
          · exact hmin e2 h1 ha2 hr2
        · intro j e2 hj hget ha2 hr2
          cases j with
          | zero =>
            simp only [List.get?_cons_zero, Option.some.injEq] at hget
            rw [← hget]; exact hlt2
          | succ j =>
            exact hfirst j e2 (by omega) hget ha2 hr2
    · have hstep : scanEnemies t (e0 :: rest) i (sel, d)
          = scanEnemies t rest (i + 1) (sel, d) := by
        by_cases ha : e0.active = true
        · have : ¬ (Vector2Distance t.position e0.position < d ∧
              Vector2Distance t.position e0.position ≤ t.range) := fun h => hc ⟨ha, h.1, h.2⟩
          simp [scanEnemies, ha, this]
        · simp [scanEnemies, ha]
      have hd0 : e0.active = true → Vector2Distance t.position e0.position ≤ t.range →
          d ≤ Vector2Distance t.position e0.position := by
        intro ha hr
        by_contra hlt
        exact hc ⟨ha, lt_of_not_le hlt, hr⟩
      rcases ih (i + 1) sel d with ⟨heq, hall⟩ | ⟨k, e, hk, heq, hact, hin, hlt2, hmin, hfirst⟩
      · left
        refine ⟨by rw [hstep, heq], ?_⟩
        intro e2 he2 ha2 hr2
        rcases List.mem_cons.mp he2 with h1 | h1
        · rw [h1] at ha2 hr2 ⊢; exact hd0 ha2 hr2
        · exact hall e2 h1 ha2 hr2
      · right
        refine ⟨k + 1, e, hk, ?_, hact, hin, hlt2, ?_, ?_⟩
        · rw [hstep, heq]
          congr 2
          omega
        · intro e2 he2 ha2 hr2
          rcases List.mem_cons.mp he2 with h1 | h1
          · rw [h1] at ha2 hr2 ⊢; exact le_of_lt (lt_of_lt_of_le hlt2 (hd0 ha2 hr2))
          · exact hmin e2 h1 ha2 hr2
        · intro j e2 hj hget ha2 hr2
          cases j with
          | zero =>
            simp only [List.get?_cons_zero, Option.some.injEq] at hget
            rw [← hget] at ha2 hr2 ⊢
            exact lt_of_lt_of_le hlt2 (hd0 ha2 hr2)
          | succ j =>
            exact hfirst j e2 (by omega) hget ha2 hr2

/-- The value of `sqrtf` is at most 2^64. -/
theorem sqrtf_le (x : ℚ) : sqrtf x ≤ 2 ^ 64 := by
  unfold sqrtf
  exact min_le_right _ _

/-- Every distance the program computes is below `FLT_MAX`, the value `nearestDistance`
starts from. -/
theorem Vector2Distance_lt_FLT_MAX (v1 v2 : Vector2) : Vector2Distance v1 v2 < FLT_MAX := by
  unfold Vector2Distance
  refine lt_of_le_of_lt (sqrtf_le _) ?_
  unfold FLT_MAX
  norm_num

/-- The scan of a turret: nothing is selected when no active enemy is in range, and otherwise
the first enemy of least distance among them. -/
theorem findNearest_spec (t : Turret) (es : List Enemy) :
    ((findNearest t es).1 = none ∧
        ∀ e ∈ es, e.active = true → ¬ Vector2Distance t.position e.position ≤ t.range)
      ∨ ∃ k e, es.get? k = some e ∧ (findNearest t es).1 = some k ∧
          e.active = true ∧ Vector2Distance t.position e.position ≤ t.range ∧
          (∀ e2 ∈ es, e2.active = true → Vector2Distance t.position e2.position ≤ t.range →
            Vector2Distance t.position e.position ≤ Vector2Distance t.position e2.position) ∧
          (∀ j e2, j < k → es.get? j = some e2 → e2.active = true →
            Vector2Distance t.position e2.position ≤ t.range →
            Vector2Distance t.position e.position < Vector2Distance t.position e2.position) := by
  unfold findNearest
  rcases scanEnemies_spec t es 0 none FLT_MAX with ⟨heq, hall⟩ | ⟨k, e, hk, heq, hact, hin, _, hmin, hfirst⟩
  · left
    refine ⟨by rw [heq], ?_⟩
    intro e he ha hr
    have := hall e he ha hr
    exact absurd (lt_of_le_of_lt this (Vector2Distance_lt_FLT_MAX _ _)) (lt_irrefl _)
  · right
    refine ⟨k, e, hk, ?_, hact, hin, hmin, hfirst⟩
    rw [heq]
    simp

/-- C2: for every turret and every enemy list, where the distance of an enemy is the one the
program computes, the binary32 square root of the sum of the squared coordinate differences:
the targeting scan selects no enemy exactly when no active enemy is at distance at most the
range; an enemy it selects is active, in range, at the least distance among the active
enemies in range, and strictly nearer than every such enemy before it in the list, so that among several
at the least distance it is the first; and the distance of the selected enemy is the same for
every reordering of the list. In particular a turret of the game (range 250) with enemies at
distances 200 and 100 selects, in either order, the one at distance 100. -/
theorem C2_targeting_selects_first_nearest (t : Turret) (es : List Enemy) :
    (∀ p : Vector2, Vector2Distance t.position p
        = sqrtf (fadd (fmul (fsub p.x t.position.x) (fsub p.x t.position.x))
            (fmul (fsub p.y t.position.y) (fsub p.y t.position.y))))
    ∧ ((findNearest t es).1 = none ↔
        ∀ e ∈ es, e.active = true → ¬ Vector2Distance t.position e.position ≤ t.range)
    ∧ (∀ k, (findNearest t es).1 = some k →
        ∃ e, es.get? k = some e ∧ e.active = true ∧
          Vector2Distance t.position e.position ≤ t.range ∧
          (findNearest t es).2 = Vector2Distance t.position e.position ∧
          (∀ e2 ∈ es, e2.active = true → Vector2Distance t.position e2.position ≤ t.range →
            Vector2Distance t.position e.position ≤ Vector2Distance t.position e2.position) ∧
          (∀ j e2, j < k → es.get? j = some e2 → e2.active = true →
            Vector2Distance t.position e2.position ≤ t.range →
            Vector2Distance t.position e.position < Vector2Distance t.position e2.position))
    ∧ (∀ es2 : List Enemy, es2.Perm es →
        ((findNearest t es2).1.bind es2.get?).map
            (fun e => Vector2Distance t.position e.position)
          = ((findNearest t es).1.bind es.get?).map
            (fun e => Vector2Distance t.position e.position))
    ∧ (Vector2Distance (newTurret 0 0).position (enemyAt ⟨220, 20⟩).position = 200
        ∧ Vector2Distance (newTurret 0 0).position (enemyAt ⟨20, 120⟩).position = 100
        ∧ (newTurret 0 0).range = 250
        ∧ findNearest (newTurret 0 0) [enemyAt ⟨220, 20⟩, enemyAt ⟨20, 120⟩] = (some 1, 100)
        ∧ findNearest (newTurret 0 0) [enemyAt ⟨20, 120⟩, enemyAt ⟨220, 20⟩] = (some 0, 100)) := by
  refine ⟨fun _ => rfl, ?_, ?_, ?_, by decide!⟩
  · rcases findNearest_spec t es with ⟨hn, hall⟩ | ⟨k, e, hk, hsel, hact, hin, _, _⟩
    · exact ⟨fun _ => hall, fun _ => hn⟩
    · constructor
      · intro hn
        rw [hsel] at hn
        cases hn
      · intro hall
        exact absurd hin (hall e (List.get?_mem hk) hact)
  · intro k hk
    unfold findNearest at hk ⊢
    rcases scanEnemies_spec t es 0 none FLT_MAX with ⟨heq, _⟩ | ⟨k2, e, hget, heq, hact, hin, _, hmin, hfirst⟩
    · rw [heq] at hk
      cases hk
    · rw [heq] at hk ⊢
      have hkk : 0 + k2 = k := Option.some.inj hk
      have hk2 : k2 = k := by omega
      subst hk2
      exact ⟨e, hget, hact, hin, rfl, hmin, hfirst⟩
  · intro es2 hperm
    rcases findNearest_spec t es with ⟨hn, hall⟩ | ⟨k, e, hget, hsel, hact, hin, hmin, _⟩
    · rcases findNearest_spec t es2 with ⟨hn2, _⟩ | ⟨k2, e2, hget2, _, hact2, hin2, _, _⟩
      · rw [hn, hn2]; rfl
      · exact absurd hin2 (hall e2 (hperm.subset (List.get?_mem hget2)) hact2)
    · rcases findNearest_spec t es2 with ⟨_, hall2⟩ | ⟨k2, e2, hget2, hsel2, hact2, hin2, hmin2, _⟩
      · exact absurd hin (hall2 e (hperm.symm.subset (List.get?_mem hget)) hact)
      · rw [hsel, hsel2]
        simp only [Option.some_bind, hget, hget2, Option.map_some']
        congr 1
        apply le_antisymm
        · exact hmin2 e (hperm.symm.subset (List.get?_mem hget)) hact hin
        · exact hmin e2 (hperm.subset (List.get?_mem hget2)) hact2 hin2

/-! ## The game loop: what a frame leaves unchanged -/

theorem SetupLevel_turretCount (level : Int) (g : Globals) :
    (SetupLevel level g).turretCount = g.turretCount := by
  unfold SetupLevel
  dsimp only
  split_ifs <;> rfl

theorem SetupLevel_currentLevel (level : Int) (g : Globals) :
    (SetupLevel level g).currentLevel = g.currentLevel := by
  unfold SetupLevel
  dsimp only
  split_ifs <;> rfl

theorem AdvanceLevel_turretCount (g : Globals) :
    (AdvanceLevel g).turretCount = g.turretCount := by
  unfold AdvanceLevel
  dsimp only
  rw [SetupLevel_turretCount]
  split_ifs <;> rfl

theorem AdvanceLevel_currentLevel (g : Globals) :
    (AdvanceLevel g).currentLevel = if g.currentLevel < 3 then g.currentLevel + 1 else 1 := by
  unfold AdvanceLevel
  dsimp only
  rw [SetupLevel_currentLevel]
  split_ifs <;> rfl

theorem winCheck_m (s : Game) : (winCheck s).m = s.m := by
  unfold winCheck
  split_ifs <;> rfl

theorem winCheck_turretCount (s : Game) : (winCheck s).g.turretCount = s.g.turretCount := by
  unfold winCheck
  split_ifs
  · exact AdvanceLevel_turretCount s.g
  · rfl

theorem playingStep_m (lib : Lib) (dt : ℚ) (s : Game) :
    (playingStep lib dt s).m = compactBullets (updatePasses lib dt s.m) := by
  unfold playingStep
  rw [winCheck_m]

theorem playingStep_turretCount (lib : Lib) (dt : ℚ) (s : Game) :
    (playingStep lib dt s).g.turretCount = s.g.turretCount := by
  unfold playingStep
  rw [winCheck_turretCount]

theorem spawnStep_tiles (dt : ℚ) (m : Locals) : (spawnStep dt m).tiles = m.tiles := by
  unfold spawnStep
  dsimp only
  split_ifs <;> rfl

theorem playingStep_tiles (lib : Lib) (dt : ℚ) (s : Game) :
    (playingStep lib dt s).m.tiles = s.m.tiles := by
  rw [playingStep_m]
  show (spawnStep dt s.m).tiles = s.m.tiles
  exact spawnStep_tiles dt s.m

/-- A property of the initial state that every frame preserves holds after every run. -/
theorem run_invariant (lib : Lib) (P : Game → Prop) (h0 : P initGame)
    (hstep : ∀ s inp, P s → P (frame lib inp s)) (inputs : List Input) : P (run lib inputs) := by
  unfold run
  have key : ∀ (l : List Input) (s : Game), P s → P (l.foldl (fun s inp => frame lib inp s) s) := by
    intro l
    induction l with
    | nil => intro s hs; exact hs
    | cons a t ih => intro s hs; exact ih _ (hstep s a hs)
  exact key inputs initGame h0

/-! ## Turret placement -/

/-- The click handler as a case distinction on the clicked cell. -/
theorem handleClick_cases (p : Vector2) (s : Game) :
    ((InBounds ⟨mouseRow p, mouseCol p⟩ TILE_COUNT TILE_COUNT = true ∧
        s.m.tiles (mouseRow p) (mouseCol p) = GRASS ∧ s.g.turretCount < MAX_TURRETS) ∧
      (handleClick p s).g.turretCount = s.g.turretCount + 1 ∧
      (handleClick p s).m.tiles = setTile s.m.tiles (mouseRow p) (mouseCol p) TURRET ∧
      (handleClick p s).m.turrets = s.m.turrets ++ [newTurret (mouseRow p) (mouseCol p)] ∧
      (handleClick p s).m.gameState = s.m.gameState)
    ∨ ((InBounds ⟨mouseRow p, mouseCol p⟩ TILE_COUNT TILE_COUNT = true ∧
        ¬ (s.m.tiles (mouseRow p) (mouseCol p) = GRASS ∧ s.g.turretCount < MAX_TURRETS) ∧
        s.m.tiles (mouseRow p) (mouseCol p) = TURRET) ∧
      (handleClick p s).g.turretCount = s.g.turretCount - 1 ∧
      (handleClick p s).m.tiles = setTile s.m.tiles (mouseRow p) (mouseCol p) GRASS ∧
      (handleClick p s).m.turrets = eraseRemoveIf
        (fun turret => Vector2Equals turret.position (TileCenter (mouseRow p) (mouseCol p)))
        s.m.turrets ∧
      (handleClick p s).m.gameState = s.m.gameState)
    ∨ ((InBounds ⟨mouseRow p, mouseCol p⟩ TILE_COUNT TILE_COUNT = false ∨
        (¬ (s.m.tiles (mouseRow p) (mouseCol p) = GRASS ∧ s.g.turretCount < MAX_TURRETS) ∧
          s.m.tiles (mouseRow p) (mouseCol p) ≠ TURRET)) ∧
      (handleClick p s).g = s.g ∧ (handleClick p s).m = s.m) := by
  unfold handleClick
  dsimp only
  by_cases hb : InBounds ⟨mouseRow p, mouseCol p⟩ TILE_COUNT TILE_COUNT = true
  · by_cases hg : s.m.tiles (mouseRow p) (mouseCol p) = GRASS ∧ s.g.turretCount < MAX_TURRETS
    · left
      rw [if_pos hb, if_pos hg]
      exact ⟨⟨hb, hg⟩, rfl, rfl, rfl, rfl⟩
    · by_cases ht : s.m.tiles (mouseRow p) (mouseCol p) = TURRET
      · right; left
        rw [if_pos hb, if_neg hg, if_pos ht]
        exact ⟨⟨hb, hg, ht⟩, rfl, rfl, rfl, rfl⟩
      · right; right
        rw [if_pos hb, if_neg hg, if_neg ht]
        exact ⟨Or.inr ⟨hg, ht⟩, rfl, rfl⟩
  · right; right
    rw [if_neg hb]
    refine ⟨Or.inl ?_, rfl, rfl⟩
    simpa using hb

theorem handleClick_gameState (p : Vector2) (s : Game) :
    (handleClick p s).m.gameState = s.m.gameState := by
  rcases handleClick_cases p s with ⟨_, _, _, _, h⟩ | ⟨_, _, _, _, h⟩ | ⟨_, _, h⟩
  · exact h
  · exact h
  · rw [h]

theorem handleClick_turretCount_le (p : Vector2) (s : Game)
    (h : s.g.turretCount ≤ MAX_TURRETS) : (handleClick p s).g.turretCount ≤ MAX_TURRETS := by
  rcases handleClick_cases p s with ⟨⟨_, _, hlt⟩, hc, _⟩ | ⟨_, hc, _⟩ | ⟨_, hg, _⟩
  · rw [hc]; omega
  · rw [hc]; omega
  · rw [hg]; exact h

theorem setupStep_turretCount_le (inp : Input) (s : Game)
    (h : s.g.turretCount ≤ MAX_TURRETS) : (setupStep inp s).g.turretCount ≤ MAX_TURRETS := by
  unfold setupStep
  cases hm : inp.mouse with
  | none => dsimp only; split_ifs <;> exact h
  | some p => dsimp only; split_ifs <;> exact handleClick_turretCount_le p s h

theorem frame_turretCount_le (lib : Lib) (inp : Input) (s : Game)
    (h : s.g.turretCount ≤ MAX_TURRETS) : (frame lib inp s).g.turretCount ≤ MAX_TURRETS := by
  unfold frame
  dsimp only
  split_ifs
  · rw [playingStep_turretCount]; exact setupStep_turretCount_le inp s h
  · exact setupStep_turretCount_le inp s h
  · rw [playingStep_turretCount]; exact h
  · exact h

theorem run_turretCount_le (lib : Lib) (inputs : List Input) :
    (run lib inputs).g.turretCount ≤ MAX_TURRETS :=
  run_invariant lib (fun s => s.g.turretCount ≤ MAX_TURRETS) (by decide!)
    (fun s inp hs => frame_turretCount_le lib inp s hs) inputs

/-- C3: after every sequence of frames from the initial state, whatever the clicks, the start
events and the elapsed times, the turret count is at most MAX_TURRETS (5). -/
theorem C3_turret_count_bounded (lib : Lib) (inputs : List Input) :
    (run lib inputs).g.turretCount ≤ MAX_TURRETS ∧ MAX_TURRETS = 5 :=
  ⟨run_invariant lib (fun s => s.g.turretCount ≤ MAX_TURRETS) (by decide!)
    (fun s inp hs => frame_turretCount_le lib inp s hs) inputs, rfl⟩

theorem setTile_setTile_same (tiles : Grid) (row col v w : Int) (h : tiles row col = w) :
    setTile (setTile tiles row col v) row col w = tiles := by
  funext r c
  unfold setTile
  by_cases hrc : r = row ∧ c = col
  · rw [if_pos hrc, hrc.1, hrc.2, h]
  · rw [if_neg hrc, if_neg hrc]

theorem setTile_same (tiles : Grid) (row col v : Int) : setTile tiles row col v row col = v := by
  unfold setTile
  rw [if_pos ⟨rfl, rfl⟩]

/-- A setup frame with a click and no start event is the click handler. -/
theorem frame_setup_click (lib : Lib) (dt : ℚ) (p : Vector2) (s : Game)
    (h : s.m.gameState = GameState.SETUP) :
    frame lib ⟨dt, some p, false⟩ s = handleClick p s := by
  have hg : (handleClick p s).m.gameState = GameState.SETUP := by
    rw [handleClick_gameState, h]
  have hs : setupStep ⟨dt, some p, false⟩ s = handleClick p s := by
    unfold setupStep
    simp
  unfold frame
  dsimp only
  rw [if_pos h, hs, if_neg]
  rw [hg]
  decide

/-- Two clicks in a row on the same cell of the grid restore the tiles and the turret count,
when the count is at most MAX_TURRETS. -/
theorem handleClick_twice (p : Vector2) (s : Game) (hle : s.g.turretCount ≤ MAX_TURRETS) :
    (handleClick p (handleClick p s)).m.tiles = s.m.tiles ∧
    (handleClick p (handleClick p s)).g.turretCount = s.g.turretCount := by
  rcases handleClick_cases p s with
    ⟨⟨hb, hgrass, hlt⟩, hc, ht, _, _⟩ | ⟨⟨hb, hng, htur⟩, hc, ht, _, _⟩ | ⟨hno, hg, hm⟩
  · -- placement, then removal
    have htile : (handleClick p s).m.tiles (mouseRow p) (mouseCol p) = TURRET := by
      rw [ht, setTile_same]
    rcases handleClick_cases p (handleClick p s) with
      ⟨⟨_, hgrass2, _⟩, _⟩ | ⟨_, hc2, ht2, _, _⟩ | ⟨hno2, _, _⟩
    · rw [htile] at hgrass2
      exact absurd hgrass2 (by decide)
    · rw [ht2, ht, hc2, hc]
      exact ⟨setTile_setTile_same _ _ _ _ _ hgrass, by omega⟩
    · rcases hno2 with h1 | ⟨_, h2⟩
      · rw [hb] at h1; cases h1
      · exact absurd htile h2
  · -- removal, then placement
    have htile : (handleClick p s).m.tiles (mouseRow p) (mouseCol p) = GRASS := by
      rw [ht, setTile_same]
    have hcount : (handleClick p s).g.turretCount < MAX_TURRETS := by
      rw [hc]; omega
    rcases handleClick_cases p (handleClick p s) with
      ⟨_, hc2, ht2, _, _⟩ | ⟨⟨_, hng2, _⟩, _⟩ | ⟨hno2, _, _⟩
    · rw [ht2, ht, hc2, hc]
      exact ⟨setTile_setTile_same _ _ _ _ _ htur, by omega⟩
    · exact absurd ⟨htile, hcount⟩ hng2
    · rcases hno2 with h1 | ⟨h2, _⟩
      · rw [hb] at h1; cases h1
      · exact absurd ⟨htile, hcount⟩ h2
  · -- neither: the second click finds the same tiles and count
    rcases handleClick_cases p (handleClick p s) with
      ⟨⟨hb2, hgrass2, hlt2⟩, _⟩ | ⟨⟨hb2, hng2, htur2⟩, _⟩ | ⟨_, hg2, hm2⟩
    · rw [hm] at hgrass2
      rw [hg] at hlt2
      rcases hno with h1 | ⟨h2, _⟩
      · rw [hb2] at h1; cases h1
      · exact absurd ⟨hgrass2, hlt2⟩ h2
    · rw [hm] at htur2
      rcases hno with h1 | ⟨_, h2⟩
      · rw [hb2] at h1; cases h1
      · exact absurd htur2 h2
    · rw [hm2, hg2, hm, hg]
      exact ⟨rfl, rfl⟩

/-- C4: in every setup state reached from the initial state, for every click position whose
cell is in bounds, two frames in a row that click on that cell (a placement followed by a
removal when the cell is GRASS and the turret count is below the maximum) leave the tile of
every cell and the turret count as they were before the first click; in the placement case the
frame after the first click has a TURRET tile on the cell and one turret more. -/
theorem C4_place_then_remove_roundtrip (lib : Lib) (inputs : List Input) (p : Vector2)
    (dt1 dt2 : ℚ)
    (hsetup : (run lib inputs).m.gameState = GameState.SETUP)
    (hin : InBounds ⟨mouseRow p, mouseCol p⟩ TILE_COUNT TILE_COUNT = true) :
    (frame lib ⟨dt2, some p, false⟩ (frame lib ⟨dt1, some p, false⟩ (run lib inputs))).m.tiles
        = (run lib inputs).m.tiles
    ∧ (frame lib ⟨dt2, some p, false⟩
        (frame lib ⟨dt1, some p, false⟩ (run lib inputs))).g.turretCount
        = (run lib inputs).g.turretCount
    ∧ ((run lib inputs).m.tiles (mouseRow p) (mouseCol p) = GRASS →
        (run lib inputs).g.turretCount < MAX_TURRETS →
        (frame lib ⟨dt1, some p, false⟩ (run lib inputs)).m.tiles (mouseRow p) (mouseCol p)
            = TURRET
        ∧ (frame lib ⟨dt1, some p, false⟩ (run lib inputs)).g.turretCount
            = (run lib inputs).g.turretCount + 1) := by
  have hle : (run lib inputs).g.turretCount ≤ MAX_TURRETS := run_turretCount_le lib inputs
  have h1 : frame lib ⟨dt1, some p, false⟩ (run lib inputs) = handleClick p (run lib inputs) :=
    frame_setup_click lib dt1 p _ hsetup
  have h2 : frame lib ⟨dt2, some p, false⟩ (handleClick p (run lib inputs))
      = handleClick p (handleClick p (run lib inputs)) :=
    frame_setup_click lib dt2 p _ (by rw [handleClick_gameState]; exact hsetup)
  rw [h1, h2]
  refine ⟨(handleClick_twice p _ hle).1, (handleClick_twice p _ hle).2, ?_⟩
  intro hgrass hlt
  rcases handleClick_cases p (run lib inputs) with
    ⟨_, hc, ht, _, _⟩ | ⟨⟨_, hng, _⟩, _⟩ | ⟨hno, _, _⟩
  · rw [ht, hc, setTile_same]
    exact ⟨rfl, rfl⟩
  · exact absurd ⟨hgrass, hlt⟩ hng
  · rcases hno with hb | ⟨hng, _⟩
    · rw [hin] at hb; cases hb
    · exact absurd ⟨hgrass, hlt⟩ hng

/-- C4 at the initial state and a click at (20,20), the centre of the GRASS cell (0,0): the
state is a setup state and the cell is in bounds. -/
theorem C4_roundtrip_witness :
    ((run refLib []).m.gameState = GameState.SETUP
      ∧ InBounds ⟨mouseRow ⟨20, 20⟩, mouseCol ⟨20, 20⟩⟩ TILE_COUNT TILE_COUNT = true)
    ∧ ((frame refLib ⟨1 / 60, some ⟨20, 20⟩, false⟩
          (frame refLib ⟨1 / 60, some ⟨20, 20⟩, false⟩ (run refLib []))).m.tiles
        = (run refLib []).m.tiles
    ∧ (frame refLib ⟨1 / 60, some ⟨20, 20⟩, false⟩
        (frame refLib ⟨1 / 60, some ⟨20, 20⟩, false⟩ (run refLib []))).g.turretCount
        = (run refLib []).g.turretCount
    ∧ ((run refLib []).m.tiles (mouseRow ⟨20, 20⟩) (mouseCol ⟨20, 20⟩) = GRASS →
        (run refLib []).g.turretCount < MAX_TURRETS →
        (frame refLib ⟨1 / 60, some ⟨20, 20⟩, false⟩ (run refLib [])).m.tiles
            (mouseRow ⟨20, 20⟩) (mouseCol ⟨20, 20⟩) = TURRET
        ∧ (frame refLib ⟨1 / 60, some ⟨20, 20⟩, false⟩ (run refLib [])).g.turretCount
            = (run refLib []).g.turretCount + 1)) :=
  ⟨⟨by decide!, by decide!⟩,
    C4_place_then_remove_roundtrip refLib [] ⟨20, 20⟩ (1 / 60) (1 / 60) (by decide!) (by decide!)⟩

/-! ## Rejected placements -/

/-- C5: a click whose cell is out of bounds, or is a DIRT or WAYPOINT tile, or is a GRASS tile
while the turret count equals MAX_TURRETS, changes neither the tile grid nor the turret list
nor the turret count; and in every frame a cell that holds a DIRT or WAYPOINT tile keeps it. -/
theorem C5_rejected_placement_is_noop (lib : Lib) :
    (∀ (s : Game) (p : Vector2),
      (InBounds ⟨mouseRow p, mouseCol p⟩ TILE_COUNT TILE_COUNT = false
        ∨ s.m.tiles (mouseRow p) (mouseCol p) = DIRT
        ∨ s.m.tiles (mouseRow p) (mouseCol p) = WAYPOINT
        ∨ (s.m.tiles (mouseRow p) (mouseCol p) = GRASS ∧ s.g.turretCount = MAX_TURRETS)) →
      (handleClick p s).m.tiles = s.m.tiles ∧ (handleClick p s).m.turrets = s.m.turrets
        ∧ (handleClick p s).g.turretCount = s.g.turretCount)
    ∧ (∀ (inp : Input) (s : Game) (row col : Int),
      (s.m.tiles row col = DIRT ∨ s.m.tiles row col = WAYPOINT) →
      (frame lib inp s).m.tiles row col = s.m.tiles row col) := by
  constructor
  · intro s p h
    have hnot : ¬ (s.m.tiles (mouseRow p) (mouseCol p) = GRASS ∧ s.g.turretCount < MAX_TURRETS)
        ∨ InBounds ⟨mouseRow p, mouseCol p⟩ TILE_COUNT TILE_COUNT = false := by
      rcases h with h | h | h | ⟨_, h⟩
      · exact Or.inr h
      · left; intro hh; rw [h] at hh; exact absurd hh.1 (by decide)
      · left; intro hh; rw [h] at hh; exact absurd hh.1 (by decide)
      · left; intro hh; rw [h] at hh; exact absurd hh.2 (lt_irrefl _)
    have hnt : s.m.tiles (mouseRow p) (mouseCol p) ≠ TURRET
        ∨ InBounds ⟨mouseRow p, mouseCol p⟩ TILE_COUNT TILE_COUNT = false := by
      rcases h with h | h | h | ⟨h, _⟩
      · exact Or.inr h
      · left; rw [h]; decide
      · left; rw [h]; decide
      · left; rw [h]; decide
    rcases handleClick_cases p s with ⟨⟨hb, hg⟩, _⟩ | ⟨⟨hb, _, ht⟩, _⟩ | ⟨_, hg, hm⟩
    · rcases hnot with h1 | h1
      · exact absurd hg h1
      · rw [hb] at h1; cases h1
    · rcases hnt with h1 | h1
      · exact absurd ht h1
      · rw [hb] at h1; cases h1
    · rw [hm, hg]
      exact ⟨rfl, rfl, rfl⟩
  · intro inp s row col h
    have hclick : ∀ p, (handleClick p s).m.tiles row col = s.m.tiles row col := by
      intro p
      rcases handleClick_cases p s with ⟨⟨_, hg, _⟩, _, ht, _⟩ | ⟨⟨_, _, htur⟩, _, ht, _⟩ | ⟨_, _, hm⟩
      · rw [ht]
        unfold setTile
        by_cases hrc : row = mouseRow p ∧ col = mouseCol p
        · rw [hrc.1, hrc.2, hg] at h
          rcases h with h | h <;> exact absurd h (by decide)
        · rw [if_neg hrc]
      · rw [ht]
        unfold setTile
        by_cases hrc : row = mouseRow p ∧ col = mouseCol p
        · rw [hrc.1, hrc.2, htur] at h
          rcases h with h | h <;> exact absurd h (by decide)
        · rw [if_neg hrc]
      · rw [hm]
    have hsetup : (setupStep inp s).m.tiles row col = s.m.tiles row col := by
      unfold setupStep
      cases hm : inp.mouse with
      | none => dsimp only; split_ifs <;> rfl
      | some p => dsimp only; split_ifs <;> exact hclick p
    unfold frame
    dsimp only
    split_ifs
    · rw [playingStep_tiles]; exact hsetup
    · exact hsetup
    · rw [playingStep_tiles]
    · rfl

/-- C5 at the initial state: a click at (500,20) falls on the WAYPOINT cell (0,12) and is
rejected. -/
theorem C5_rejected_placement_witness :
    initGame.m.tiles (mouseRow ⟨500, 20⟩) (mouseCol ⟨500, 20⟩) = WAYPOINT
    ∧ (handleClick ⟨500, 20⟩ initGame).m.tiles = initGame.m.tiles
    ∧ (handleClick ⟨500, 20⟩ initGame).m.turrets = initGame.m.turrets
    ∧ (handleClick ⟨500, 20⟩ initGame).g.turretCount = initGame.g.turretCount :=
  ⟨by decide!, (C5_rejected_placement_is_noop refLib).1 initGame ⟨500, 20⟩
    (Or.inr (Or.inr (Or.inl (by decide!))))⟩

/-! ## Levels -/

/-- C6: from a level index L in {1, 2, 3}, `AdvanceLevel` sets the level to L+1 when L < 3
and to 1 when L = 3; the index stays within 1..3 after any number of advances, and three
advances in a row return it to L. -/
theorem C6_advance_level_cycles (g : Globals)
    (h : g.currentLevel = 1 ∨ g.currentLevel = 2 ∨ g.currentLevel = 3) :
    (AdvanceLevel g).currentLevel = (if g.currentLevel < 3 then g.currentLevel + 1 else 1)
    ∧ (∀ n : Nat, 1 ≤ (AdvanceLevel^[n] g).currentLevel ∧ (AdvanceLevel^[n] g).currentLevel ≤ 3)
    ∧ (AdvanceLevel (AdvanceLevel (AdvanceLevel g))).currentLevel = g.currentLevel := by
  refine ⟨AdvanceLevel_currentLevel g, ?_, ?_⟩
  · intro n
    induction n with
    | zero =>
      simp only [Function.iterate_zero, id_eq]
      omega
    | succ k ih =>
      rw [Function.iterate_succ_apply', AdvanceLevel_currentLevel]
      split_ifs <;> omega
  · rw [AdvanceLevel_currentLevel, AdvanceLevel_currentLevel, AdvanceLevel_currentLevel]
    rcases h with h | h | h <;> rw [h] <;> decide

/-- C6 at the file-scope variables as declared, where the level is 1. -/
theorem C6_advance_level_witness :
    (globals0.currentLevel = 1 ∨ globals0.currentLevel = 2 ∨ globals0.currentLevel = 3)
    ∧ ((AdvanceLevel globals0).currentLevel
        = (if globals0.currentLevel < 3 then globals0.currentLevel + 1 else 1)
    ∧ (∀ n : Nat, 1 ≤ (AdvanceLevel^[n] globals0).currentLevel
        ∧ (AdvanceLevel^[n] globals0).currentLevel ≤ 3)
    ∧ (AdvanceLevel (AdvanceLevel (AdvanceLevel globals0))).currentLevel
        = globals0.currentLevel) :=
  ⟨Or.inl rfl, C6_advance_level_cycles globals0 (Or.inl rfl)⟩

/-! ## Level advance and spawn cadence on explicit inputs -/

/-- What the win test of lines 470-474 does when it fires: the level advances by one (3 wraps
to 1) and the file-scope `enemyCount` and `spawnTimer` are zeroed, while the `enemyCount` of
`main` keeps the value the update passes left, which is at least `maxEnemies`. In a run from
the initial state the test never fires: the enemy vector of `main` is never emptied. -/
theorem playingStep_win (lib : Lib) (dt : ℚ) (s : Game)
    (hempty : (updatePasses lib dt s.m).enemies = [])
    (hcount : (updatePasses lib dt s.m).enemyCount ≥ main.maxEnemies) :
    (playingStep lib dt s).g.currentLevel
        = (if s.g.currentLevel < 3 then s.g.currentLevel + 1 else 1)
    ∧ (playingStep lib dt s).g.enemyCount = 0
    ∧ (playingStep lib dt s).g.spawnTimer = 0
    ∧ (playingStep lib dt s).m.enemyCount = (updatePasses lib dt s.m).enemyCount
    ∧ (playingStep lib dt s).m.enemyCount ≥ main.maxEnemies := by
  have hm : (playingStep lib dt s).m.enemyCount = (updatePasses lib dt s.m).enemyCount := by
    rw [playingStep_m]
    rfl
  have hg : (playingStep lib dt s).g = AdvanceLevel s.g := by
    unfold playingStep winCheck
    rw [if_pos]
    refine ⟨?_, hcount⟩
    show (compactBullets (updatePasses lib dt s.m)).enemies.isEmpty = true
    show (updatePasses lib dt s.m).enemies.isEmpty = true
    rw [hempty]
    rfl
  refine ⟨?_, ?_, ?_, hm, ?_⟩
  · rw [hg, AdvanceLevel_currentLevel]
  · rw [hg]
    unfold AdvanceLevel SetupLevel
    rfl
  · rw [hg]
    unfold AdvanceLevel SetupLevel
    rfl
  · rw [hm]
    exact hcount

/-- C8 evaluated on the run that enters Playing with a frame of 1/2 second and continues
with a second frame of 1/2 second, at level 1 with the configured interval 3/2: nothing is
spawned in the first frame, and the first enemy is spawned in the second, at an accumulated
time of 1 second, the value of the `spawnInterval` of `main`. -/
theorem C8_first_spawn_after_one_second :
    (run refLib [⟨1 / 2, none, true⟩]).m.gameState = GameState.PLAYING
    ∧ (run refLib [⟨1 / 2, none, true⟩]).m.enemyCount = 0
    ∧ (run refLib [⟨1 / 2, none, true⟩]).m.enemies.length = 0
    ∧ (run refLib [⟨1 / 2, none, true⟩, ⟨1 / 2, none, false⟩]).m.enemyCount = 1
    ∧ (run refLib [⟨1 / 2, none, true⟩, ⟨1 / 2, none, false⟩]).m.enemies.length = 1
    ∧ (run refLib [⟨1 / 2, none, true⟩, ⟨1 / 2, none, false⟩]).g.currentLevel = 1
    ∧ (run refLib [⟨1 / 2, none, true⟩, ⟨1 / 2, none, false⟩]).g.spawnInterval = 3 / 2
    ∧ ((1 / 2 + 1 / 2 : ℚ) < 3 / 2) ∧ main.spawnInterval = 1 := by
  unfold run initGame
  simp only [FloodFill_mainTiles, Option.getD_some]
  decide!

/-! ## Bullet compaction -/

theorem eraseRemoveIf_eq_filter {α : Type} (pred : α → Bool) (l : List α) :
    eraseRemoveIf pred l = l.filter (fun a => !pred a) := by
  induction l with
  | nil => rfl
  | cons a t ih =>
    unfold eraseRemoveIf
    by_cases h : pred a = true
    · rw [if_pos h, ih, List.filter_cons_of_neg (by simp [h])]
    · rw [if_neg h, ih, List.filter_cons_of_pos (by simpa using h)]

/-- C9: after the compaction of a playing frame every bullet of the list is enabled, and the
list is the list of the enabled bullets of the list before the compaction (the list the
update passes leave), in the same order. -/
theorem C9_compaction_keeps_enabled_bullets (lib : Lib) (dt : ℚ) (s : Game) :
    (∀ b ∈ (playingStep lib dt s).m.bullets, b.enabled = true)
    ∧ (playingStep lib dt s).m.bullets
        = (updatePasses lib dt s.m).bullets.filter (fun b => b.enabled)
    ∧ List.Sublist (playingStep lib dt s).m.bullets (updatePasses lib dt s.m).bullets := by
  have h : (playingStep lib dt s).m.bullets
      = (updatePasses lib dt s.m).bullets.filter (fun b => b.enabled) := by
    rw [playingStep_m]
    show eraseRemoveIf (fun bullet => !bullet.enabled) (updatePasses lib dt s.m).bullets = _
    rw [eraseRemoveIf_eq_filter]
    congr 1
    funext b
    simp
  refine ⟨?_, h, ?_⟩
  · intro b hb
    rw [h] at hb
    simpa using (List.mem_filter.mp hb).2
  · rw [h]
    exact List.filter_sublist _

/-! ## Enemy deactivation on an explicit run -/

/-- C10 evaluated on a run of the game: three turrets are placed next to the entry of the
path, the first enemy is spawned and takes three shots and three bullet hits (health 75).
In the next frame (13/32 s) the enemy, active before the frame, takes three more shots
(health 30, above zero) and then three bullet hits: after the frame its health is 0 and it
is still active, at waypoint index 0. -/
theorem C10_bullet_hit_leaves_dead_enemy_active :
    (run refLib threeTurretsFirstVolley).m.gameState = GameState.PLAYING
    ∧ (run refLib threeTurretsFirstVolley).m.enemies.map (fun e => (e.active, e.health))
        = [(true, 75)]
    ∧ (frame refLib ⟨13 / 32, none, false⟩ (run refLib threeTurretsFirstVolley)).m.enemies.map
          (fun e => (e.active, e.health, e.currentWaypoint))
        = [(true, 0, 0)]
    ∧ (frame refLib ⟨13 / 32, none, false⟩
          (run refLib threeTurretsFirstVolley)).m.waypoints.length = 8 := by
  unfold run threeTurretsFirstVolley initGame
  simp only [FloodFill_mainTiles, Option.getD_some]
  decide!


/-! ## The flood fill on every grid -/

theorem floodLoop_nil (tiles : Grid) (searchValue : Int) (closed : Closed) (result : List Cell) :
    floodLoop tiles searchValue closed [] result = some result := by
  rw [floodLoop.eq_def]

theorem floodLoop_cons (tiles : Grid) (searchValue : Int) (closed : Closed) (cell : Cell)
    (rest result : List Cell) (h : InBounds cell TILE_COUNT TILE_COUNT = true) :
    floodLoop tiles searchValue closed (cell :: rest) result
      = floodLoop tiles searchValue (setClosed closed cell)
          (pushNeighbours tiles (setClosed closed cell) cell rest)
          (if tiles cell.row cell.col = searchValue then result ++ [cell] else result) := by
  rw [floodLoop.eq_def]
  dsimp only
  rw [dif_pos h]

theorem floodLoop_cons_out (tiles : Grid) (searchValue : Int) (closed : Closed) (cell : Cell)
    (rest result : List Cell) (h : ¬ InBounds cell TILE_COUNT TILE_COUNT = true) :
    floodLoop tiles searchValue closed (cell :: rest) result = none := by
  rw [floodLoop.eq_def]
  dsimp only
  rw [dif_neg h]

/-- The neighbour loop pushes, from last to first direction, the neighbours that pass the
test of line 122. -/
theorem pushNeighbours_eq (tiles : Grid) (closed : Closed) (cell : Cell) (stack : List Cell) :
    pushNeighbours tiles closed cell stack
      = (if isPushed tiles closed ⟨cell.row, cell.col + 1⟩ = true
          then [(⟨cell.row, cell.col + 1⟩ : Cell)] else [])
        ++ ((if isPushed tiles closed ⟨cell.row, cell.col - 1⟩ = true
          then [(⟨cell.row, cell.col - 1⟩ : Cell)] else [])
        ++ ((if isPushed tiles closed ⟨cell.row + 1, cell.col⟩ = true
          then [(⟨cell.row + 1, cell.col⟩ : Cell)] else [])
        ++ ((if isPushed tiles closed ⟨cell.row - 1, cell.col⟩ = true
          then [(⟨cell.row - 1, cell.col⟩ : Cell)] else []) ++ stack))) := by
  have e1 : cell.row + -1 = cell.row - 1 := by omega
  have e2 : cell.col + -1 = cell.col - 1 := by omega
  simp only [pushNeighbours, DIRECTIONS, List.foldl_cons, List.foldl_nil, isPushed, add_zero,
    e1, e2]
  split_ifs <;> rfl

/-- Every cell on the stack after the neighbour loop was there before or passed the test. -/
theorem mem_pushNeighbours (tiles : Grid) (closed : Closed) (cell : Cell) (stack : List Cell)
    (a : Cell) (ha : a ∈ pushNeighbours tiles closed cell stack) :
    a ∈ stack ∨ isPushed tiles closed a = true := by
  rw [pushNeighbours_eq] at ha
  simp only [List.mem_append] at ha
  rcases ha with ha | ha | ha | ha | ha
  all_goals first
    | exact Or.inl ha
    | (split_ifs at ha with h
       · rw [List.mem_singleton.mp ha]; exact Or.inr h
       · cases ha)

theorem isPushed_inBounds (tiles : Grid) (closed : Closed) (a : Cell)
    (h : isPushed tiles closed a = true) : InBounds a TILE_COUNT TILE_COUNT = true := by
  unfold isPushed at h
  simp only [Bool.and_eq_true] at h
  exact h.1.1

/-- From a stack of cells of the grid the loop returns a list: no cell outside the grid is
ever popped. Every cell of the list was in the initial result or is a cell of the grid whose
tile is the search value. -/
theorem floodLoop_returns (tiles : Grid) (searchValue : Int) :
    ∀ (closed : Closed) (openStack result : List Cell),
      (∀ c ∈ openStack, InBounds c TILE_COUNT TILE_COUNT = true) →
      ∃ l, floodLoop tiles searchValue closed openStack result = some l ∧
        ∀ c ∈ l, c ∈ result ∨
          (InBounds c TILE_COUNT TILE_COUNT = true ∧ tiles c.row c.col = searchValue) := by
  intro closed openStack result
  induction closed, openStack, result using floodLoop.induct tiles searchValue with
  | case1 closed result =>
    intro _
    exact ⟨result, floodLoop_nil _ _ _ _, fun c hc => Or.inl hc⟩
  | case2 closed result c tail hc ih =>
    intro hall
    have hstack : ∀ a ∈ pushNeighbours tiles (setClosed closed c) c tail,
        InBounds a TILE_COUNT TILE_COUNT = true := by
      intro a ha
      rcases mem_pushNeighbours _ _ _ _ a ha with h | h
      · exact hall a (List.mem_cons_of_mem _ h)
      · exact isPushed_inBounds _ _ _ h
    obtain ⟨l, hl, hmem⟩ := ih hstack
    refine ⟨l, ?_, ?_⟩
    · rw [floodLoop_cons _ _ _ _ _ _ hc]
      by_cases ht : tiles c.row c.col = searchValue
      · rw [if_pos ht]; rw [dif_pos ht] at hl; exact hl
      · rw [if_neg ht]; rw [dif_neg ht] at hl; exact hl
    · intro x hx
      rcases hmem x hx with h | h
      · by_cases ht : tiles c.row c.col = searchValue
        · rw [dif_pos ht] at h
          rcases List.mem_append.mp h with h | h
          · exact Or.inl h
          · rw [List.mem_singleton.mp h]; exact Or.inr ⟨hc, ht⟩
        · rw [dif_neg ht] at h; exact Or.inl h
      · exact Or.inr h
  | case3 closed result c tail hc =>
    intro hall
    exact absurd (hall c (List.mem_cons_self c tail)) hc

/-- The loop empties its stack after finitely many pops: with enough fuel the fuelled loop,
in which every array access is checked, gives the result of the loop. -/
theorem floodLoopFuel_complete (tiles : Grid) (searchValue : Int) :
    ∀ (closed : Closed) (openStack result : List Cell),
      ∃ n, floodLoopFuel tiles searchValue n closed openStack result
        = some (floodLoop tiles searchValue closed openStack result) := by
  intro closed openStack result
  induction closed, openStack, result using floodLoop.induct tiles searchValue with
  | case1 closed result =>
    exact ⟨1, by rw [floodLoop_nil]; rfl⟩
  | case2 closed result c tail hc ih =>
    obtain ⟨n, hn⟩ := ih
    refine ⟨n + 1, ?_⟩
    rw [floodLoop_cons _ _ _ _ _ _ hc]
    simp only [floodLoopFuel]
    rw [writeClosed_inBounds _ _ hc, readTiles_inBounds _ _ hc]
    dsimp only
    rw [pushNeighboursChecked_eq]
    dsimp only
    by_cases ht : tiles c.row c.col = searchValue
    · rw [if_pos ht]; rw [dif_pos ht] at hn; exact hn
    · rw [if_neg ht]; rw [dif_neg ht] at hn; exact hn
  | case3 closed result c tail hc =>
    refine ⟨1, ?_⟩
    rw [floodLoop_cons_out _ _ _ _ _ _ hc]
    simp only [floodLoopFuel]
    rw [writeClosed_outside _ _ hc]


/-! ## Branches and blocks -/

theorem adjacent4_iff (a b : Cell) :
    adjacent4 a b = true ↔
      (b.row = a.row - 1 ∧ b.col = a.col) ∨ (b.row = a.row + 1 ∧ b.col = a.col)
      ∨ (b.row = a.row ∧ b.col = a.col - 1) ∨ (b.row = a.row ∧ b.col = a.col + 1) := by
  have e1 : a.row + -1 = a.row - 1 := by omega
  have e2 : a.col + -1 = a.col - 1 := by omega
  simp only [adjacent4, DIRECTIONS, List.any_cons, List.any_nil, Bool.or_false, Bool.or_eq_true,
    decide_eq_true_eq, add_zero, e1, e2]

/-- C13, the claim refuted on a grid with a branch: the search from (0,0) pops (0,0), then
(0,1), which has two unvisited corridor neighbours, (0,2) and (1,1); both are pushed, and
`FloodFill` returns the waypoints (0,0), (0,2), (2,1) of both branches, not a failure. -/
theorem C13_branch_is_explored_not_reported :
    pushNeighbours (gridOfRows branchTiles) (setClosed (initClosed (gridOfRows branchTiles)) ⟨0, 0⟩)
        ⟨0, 0⟩ [] = [⟨0, 1⟩]
    ∧ pushNeighbours (gridOfRows branchTiles)
        (setClosed (setClosed (initClosed (gridOfRows branchTiles)) ⟨0, 0⟩) ⟨0, 1⟩) ⟨0, 1⟩ []
        = [⟨0, 2⟩, ⟨1, 1⟩]
    ∧ FloodFill ⟨0, 0⟩ (gridOfRows branchTiles) WAYPOINT = some [⟨0, 0⟩, ⟨0, 2⟩, ⟨2, 1⟩]
    ∧ FloodFill ⟨0, 0⟩ (gridOfRows branchTiles) WAYPOINT ≠ none := by
  have h : FloodFill ⟨0, 0⟩ (gridOfRows branchTiles) WAYPOINT = some [⟨0, 0⟩, ⟨0, 2⟩, ⟨2, 1⟩] :=
    floodLoopFuel_sound _ _ 10 _ _ _ _ (by decide)
  refine ⟨by decide, by decide, h, ?_⟩
  rw [h]
  exact Option.some_ne_none _

/-- The neighbour loop pushes every neighbour that passes the test of line 122, and keeps the
stack below. -/
theorem mem_pushNeighbours_of (tiles : Grid) (closed : Closed) (cell : Cell) (stack : List Cell)
    (n : Cell) (h : n ∈ stack ∨ (adjacent4 cell n = true ∧ isPushed tiles closed n = true)) :
    n ∈ pushNeighbours tiles closed cell stack := by
  rw [pushNeighbours_eq]
  simp only [List.mem_append]
  rcases h with h | ⟨hadj, hp⟩
  · exact Or.inr (Or.inr (Or.inr (Or.inr h)))
  · have hn : ∀ r c : Int, n.row = r → n.col = c → n = ⟨r, c⟩ := by
      intro r c h1 h2
      cases n
      simp only at h1 h2
      rw [h1, h2]
    rcases (adjacent4_iff cell n).mp hadj with ⟨h1, h2⟩ | ⟨h1, h2⟩ | ⟨h1, h2⟩ | ⟨h1, h2⟩
    · have e := hn _ _ h1 h2
      rw [e] at hp
      refine Or.inr (Or.inr (Or.inr (Or.inl ?_)))
      rw [if_pos hp, e]
      exact List.mem_singleton_self _
    · have e := hn _ _ h1 h2
      rw [e] at hp
      refine Or.inr (Or.inr (Or.inl ?_))
      rw [if_pos hp, e]
      exact List.mem_singleton_self _
    · have e := hn _ _ h1 h2
      rw [e] at hp
      refine Or.inr (Or.inl ?_)
      rw [if_pos hp, e]
      exact List.mem_singleton_self _
    · have e := hn _ _ h1 h2
      rw [e] at hp
      refine Or.inl ?_
      rw [if_pos hp, e]
      exact List.mem_singleton_self _

/-- Every cell on the stack after the neighbour loop was there before, or is a neighbour of
the explored cell that passed the test of line 122. -/
theorem mem_pushNeighbours_adjacent (tiles : Grid) (closed : Closed) (cell : Cell)
    (stack : List Cell) (a : Cell) (ha : a ∈ pushNeighbours tiles closed cell stack) :
    a ∈ stack ∨ (adjacent4 cell a = true ∧ isPushed tiles closed a = true) := by
  rw [pushNeighbours_eq] at ha
  simp only [List.mem_append] at ha
  rcases ha with ha | ha | ha | ha | ha
  · split_ifs at ha with h
    · rw [List.mem_singleton.mp ha]
      exact Or.inr ⟨(adjacent4_iff _ _).mpr (Or.inr (Or.inr (Or.inr ⟨rfl, rfl⟩))), h⟩
    · cases ha
  · split_ifs at ha with h
    · rw [List.mem_singleton.mp ha]
      exact Or.inr ⟨(adjacent4_iff _ _).mpr (Or.inr (Or.inr (Or.inl ⟨rfl, rfl⟩))), h⟩
    · cases ha
  · split_ifs at ha with h
    · rw [List.mem_singleton.mp ha]
      exact Or.inr ⟨(adjacent4_iff _ _).mpr (Or.inr (Or.inl ⟨rfl, rfl⟩)), h⟩
    · cases ha
  · split_ifs at ha with h
    · rw [List.mem_singleton.mp ha]
      exact Or.inr ⟨(adjacent4_iff _ _).mpr (Or.inl ⟨rfl, rfl⟩), h⟩
    · cases ha
  · exact Or.inl ha

/-- The loop reports connected cells only: when the cells of the stack and of the list so far
are connected to `start`, so are the cells of the list the loop returns. -/
theorem floodLoop_connected (tiles : Grid) (searchValue : Int) (start : Cell) :
    ∀ (closed : Closed) (openStack result : List Cell),
      (∀ c ∈ openStack, Connected tiles start c) →
      (∀ c ∈ result, Connected tiles start c) →
      ∀ l, floodLoop tiles searchValue closed openStack result = some l →
        ∀ c ∈ l, Connected tiles start c := by
  intro closed openStack result
  induction closed, openStack, result using floodLoop.induct tiles searchValue with
  | case1 closed result =>
    intro _ hres l hl
    rw [floodLoop_nil] at hl
    rw [← Option.some.inj hl]
    exact hres
  | case2 closed result c tail hc ih =>
    intro hstack hres l hl
    rw [floodLoop_cons _ _ _ _ _ _ hc] at hl
    have hcc : Connected tiles start c := hstack c (List.mem_cons_self _ _)
    have h1 : ∀ a ∈ pushNeighbours tiles (setClosed closed c) c tail,
        Connected tiles start a := by
      intro a ha
      rcases mem_pushNeighbours_adjacent _ _ _ _ a ha with h | ⟨hadj, hp⟩
      · exact hstack a (List.mem_cons_of_mem _ h)
      · have hb := isPushed_inBounds _ _ _ hp
        unfold isPushed at hp
        simp only [Bool.and_eq_true, decide_eq_true_eq] at hp
        exact Connected.step c a hcc hadj hb hp.2
    have h2 : ∀ a ∈ (if h : tiles c.row c.col = searchValue then result ++ [c] else result),
        Connected tiles start a := by
      intro a ha
      by_cases ht : tiles c.row c.col = searchValue
      · rw [dif_pos ht] at ha
        rcases List.mem_append.mp ha with h | h
        · exact hres a h
        · rw [List.mem_singleton.mp h]; exact hcc
      · rw [dif_neg ht] at ha
        exact hres a ha
    refine ih h1 h2 l ?_
    by_cases ht : tiles c.row c.col = searchValue
    · rw [if_pos ht] at hl; rw [dif_pos ht]; exact hl
    · rw [if_neg ht] at hl; rw [dif_neg ht]; exact hl
  | case3 closed result c tail hc =>
    intro _ _ l hl
    rw [floodLoop_cons_out _ _ _ _ _ _ hc] at hl
    cases hl

/-- The loop explores everything: when the cells popped so far (`popped`) have all their
corridor neighbours popped or on the stack, the loop returns a list, and there is a set of
cells (`visited`, the cells popped at the end) that contains the popped cells and the stack,
is closed under corridor neighbours, and whose cells with the search value are in the list. -/
theorem floodLoop_explores (tiles : Grid) (searchValue : Int) :
    ∀ (closed : Closed) (openStack result : List Cell) (popped : Cell → Prop),
      (∀ c ∈ openStack, InBounds c TILE_COUNT TILE_COUNT = true) →
      (∀ c, popped c → ∀ n, adjacent4 c n = true → InBounds n TILE_COUNT TILE_COUNT = true →
        tiles n.row n.col > 0 → popped n ∨ n ∈ openStack) →
      (∀ n, InBounds n TILE_COUNT TILE_COUNT = true → tiles n.row n.col > 0 →
        closed n.row n.col = true → popped n) →
      (∀ c, popped c → tiles c.row c.col = searchValue → c ∈ result) →
      ∃ l, floodLoop tiles searchValue closed openStack result = some l ∧
        ∃ visited : Cell → Prop,
          (∀ c, popped c → visited c) ∧
          (∀ c ∈ openStack, visited c) ∧
          (∀ c, visited c → ∀ n, adjacent4 c n = true →
            InBounds n TILE_COUNT TILE_COUNT = true → tiles n.row n.col > 0 → visited n) ∧
          (∀ c, visited c → tiles c.row c.col = searchValue → c ∈ l) := by
  intro closed openStack result
  induction closed, openStack, result using floodLoop.induct tiles searchValue with
  | case1 closed result =>
    intro popped _ h1 _ h3
    refine ⟨result, floodLoop_nil _ _ _ _, popped, fun c hc => hc, ?_, ?_, h3⟩
    · intro c hc
      cases hc
    · intro c hc n ha hb ht
      rcases h1 c hc n ha hb ht with h | h
      · exact h
      · cases h
  | case2 closed result c tail hc ih =>
    intro popped hall h1 h2 h3
    have hstack : ∀ a ∈ pushNeighbours tiles (setClosed closed c) c tail,
        InBounds a TILE_COUNT TILE_COUNT = true := by
      intro a ha
      rcases mem_pushNeighbours _ _ _ _ a ha with h | h
      · exact hall a (List.mem_cons_of_mem _ h)
      · exact isPushed_inBounds _ _ _ h
    have hclosed : ∀ n : Cell, setClosed closed c n.row n.col = true →
        n = c ∨ closed n.row n.col = true := by
      intro n hn
      unfold setClosed at hn
      by_cases hnc : n.row = c.row ∧ n.col = c.col
      · left
        cases n
        cases c
        simp only at hnc
        rw [hnc.1, hnc.2]
      · rw [if_neg hnc] at hn
        exact Or.inr hn
    have g1 : ∀ x, (popped x ∨ x = c) → ∀ n, adjacent4 x n = true →
        InBounds n TILE_COUNT TILE_COUNT = true → tiles n.row n.col > 0 →
        (popped n ∨ n = c) ∨ n ∈ pushNeighbours tiles (setClosed closed c) c tail := by
      intro x hx n ha hb ht
      rcases hx with hx | hx
      · rcases h1 x hx n ha hb ht with h | h
        · exact Or.inl (Or.inl h)
        · rcases List.mem_cons.mp h with h | h
          · exact Or.inl (Or.inr h)
          · exact Or.inr (mem_pushNeighbours_of _ _ _ _ _ (Or.inl h))
      · rw [hx] at ha
        by_cases hcl : setClosed closed c n.row n.col = true
        · rcases hclosed n hcl with h | h
          · exact Or.inl (Or.inr h)
          · exact Or.inl (Or.inl (h2 n hb ht h))
        · refine Or.inr (mem_pushNeighbours_of _ _ _ _ _ (Or.inr ⟨ha, ?_⟩))
          unfold isPushed
          simp only [Bool.not_eq_true] at hcl
          rw [hb, hcl]
          simpa using ht
    have g2 : ∀ n, InBounds n TILE_COUNT TILE_COUNT = true → tiles n.row n.col > 0 →
        setClosed closed c n.row n.col = true → (popped n ∨ n = c) := by
      intro n hb ht hcl
      rcases hclosed n hcl with h | h
      · exact Or.inr h
      · exact Or.inl (h2 n hb ht h)
    have g3 : ∀ x, (popped x ∨ x = c) → tiles x.row x.col = searchValue →
        x ∈ (if h : tiles c.row c.col = searchValue then result ++ [c] else result) := by
      intro x hx ht
      rcases hx with hx | hx
      · by_cases hs : tiles c.row c.col = searchValue
        · rw [dif_pos hs]
          exact List.mem_append_left _ (h3 x hx ht)
        · rw [dif_neg hs]
          exact h3 x hx ht
      · rw [hx] at ht ⊢
        rw [dif_pos ht]
        exact List.mem_append_right _ (List.mem_singleton_self _)
    obtain ⟨l, hl, visited, v0, v1, v2, v3⟩ := ih (fun x => popped x ∨ x = c) hstack g1 g2 g3
    refine ⟨l, ?_, visited, fun x hx => v0 x (Or.inl hx), ?_, v2, v3⟩
    · rw [floodLoop_cons _ _ _ _ _ _ hc]
      by_cases ht : tiles c.row c.col = searchValue
      · rw [if_pos ht]; rw [dif_pos ht] at hl; exact hl
      · rw [if_neg ht]; rw [dif_neg ht] at hl; exact hl
    · intro x hx
      rcases List.mem_cons.mp hx with h | h
      · exact v0 x (Or.inr h)
      · exact v1 x (mem_pushNeighbours_of _ _ _ _ _ (Or.inl h))
  | case3 closed result c tail hc =>
    intro popped hall
    exact absurd (hall c (List.mem_cons_self c tail)) hc

/-- C13 as amended: for every grid, with or without branches, every start cell of the grid and
every search value, `FloodFill` reports no failure and explores every branch: it returns a
list; the cells of the list are exactly the cells with the search value that are connected to
the start cell through corridor cells (cells of the grid with a positive tile), all of them
cells of the grid; and the neighbour loop pushes every neighbour of the explored cell that is
in the grid, not closed and a corridor cell, however many there are. -/
theorem C13_floodfill_explores_every_branch (tiles : Grid) (start : Cell) (searchValue : Int)
    (hstart : InBounds start TILE_COUNT TILE_COUNT = true) :
    (∃ l, FloodFill start tiles searchValue = some l
      ∧ (∀ c ∈ l, InBounds c TILE_COUNT TILE_COUNT = true)
      ∧ (∀ c, c ∈ l ↔ (Connected tiles start c ∧ tiles c.row c.col = searchValue)))
    ∧ (∀ (closed : Closed) (cell n : Cell) (openStack : List Cell),
        adjacent4 cell n = true → InBounds n TILE_COUNT TILE_COUNT = true →
        closed n.row n.col = false → tiles n.row n.col > 0 →
        n ∈ pushNeighbours tiles closed cell openStack) := by
  constructor
  · obtain ⟨l, hl, hmem⟩ := floodLoop_returns tiles searchValue (initClosed tiles) [start] []
      (fun c hc => by rw [List.mem_singleton.mp hc]; exact hstart)
    obtain ⟨l2, hl2, visited, _, v1, v2, v3⟩ :=
      floodLoop_explores tiles searchValue (initClosed tiles) [start] [] (fun _ => False)
        (fun c hc => by rw [List.mem_singleton.mp hc]; exact hstart)
        (fun c hc => False.elim hc)
        (fun n _ ht hcl => by
          unfold initClosed at hcl
          simp only [decide_eq_true_eq] at hcl
          omega)
        (fun c hc => False.elim hc)
    have hll : l2 = l := by
      rw [hl] at hl2
      exact (Option.some.inj hl2).symm
    subst hll
    have hconn : ∀ c ∈ l2, Connected tiles start c :=
      floodLoop_connected tiles searchValue start (initClosed tiles) [start] []
        (fun c hc => by rw [List.mem_singleton.mp hc]; exact Connected.start)
        (fun c hc => by cases hc) l2 hl
    have hsound : ∀ c ∈ l2,
        InBounds c TILE_COUNT TILE_COUNT = true ∧ tiles c.row c.col = searchValue := by
      intro c hc
      rcases hmem c hc with h | h
      · cases h
      · exact h
    refine ⟨l2, hl, fun c hc => (hsound c hc).1, ?_⟩
    intro c
    constructor
    · intro hc
      exact ⟨hconn c hc, (hsound c hc).2⟩
    · intro ⟨hcn, ht⟩
      have hv : ∀ x, Connected tiles start x → visited x := by
        intro x hx
        induction hx with
        | start => exact v1 start (List.mem_singleton_self _)
        | step y n _ ha hb ht2 ihy => exact v2 y ihy n ha hb ht2
      exact v3 c (hv c hcn) ht
  · intro closed cell n openStack ha hb hcl ht
    refine mem_pushNeighbours_of _ _ _ _ _ (Or.inr ⟨ha, ?_⟩)
    unfold isPushed
    rw [hb, hcl]
    simpa using ht

/-- C13 as amended, on the grid with a branch from the start cell (0,0), which is a cell of
the grid; there the list is (0,0), (0,2), (2,1), with a waypoint of either branch. -/
theorem C13_explores_witness :
    InBounds ⟨0, 0⟩ TILE_COUNT TILE_COUNT = true
    ∧ ((∃ l, FloodFill ⟨0, 0⟩ (gridOfRows branchTiles) WAYPOINT = some l
        ∧ (∀ c ∈ l, InBounds c TILE_COUNT TILE_COUNT = true)
        ∧ (∀ c, c ∈ l ↔ (Connected (gridOfRows branchTiles) ⟨0, 0⟩ c
            ∧ gridOfRows branchTiles c.row c.col = WAYPOINT)))
      ∧ (∀ (closed : Closed) (cell n : Cell) (openStack : List Cell),
          adjacent4 cell n = true → InBounds n TILE_COUNT TILE_COUNT = true →
          closed n.row n.col = false → gridOfRows branchTiles n.row n.col > 0 →
          n ∈ pushNeighbours (gridOfRows branchTiles) closed cell openStack)) :=
  ⟨by decide, C13_floodfill_explores_every_branch (gridOfRows branchTiles) ⟨0, 0⟩ WAYPOINT
    (by decide)⟩

/-- C18: for every grid, every start cell of the grid and every search value, `FloodFill`
terminates with every array access within bounds: the loop in which every read and write of
`closed` and `tiles` is checked against the array bounds (`floodLoopFuel`: the write and the
read at the popped cell, and the reads of line 122, made in the order of the `&&`) has, after
some finite number `n` of pops, an empty stack and met no access outside the arrays, and the
list at that point is the result of `FloodFill`. -/
theorem C18_floodfill_terminates_in_bounds (tiles : Grid) (start : Cell) (searchValue : Int)
    (hstart : InBounds start TILE_COUNT TILE_COUNT = true) :
    ∃ (n : Nat) (l : List Cell),
      floodLoopFuel tiles searchValue n (initClosed tiles) [start] [] = some (some l)
      ∧ FloodFill start tiles searchValue = some l := by
  obtain ⟨l, hl, _⟩ := floodLoop_returns tiles searchValue (initClosed tiles) [start] []
    (fun c hc => by rw [List.mem_singleton.mp hc]; exact hstart)
  obtain ⟨n, hn⟩ := floodLoopFuel_complete tiles searchValue (initClosed tiles) [start] []
  refine ⟨n, l, ?_, hl⟩
  rw [hn, hl]

/-- C18 on the grid of `main` from the start cell (0,12). -/
theorem C18_terminates_witness :
    InBounds ⟨0, 12⟩ TILE_COUNT TILE_COUNT = true
    ∧ ∃ (n : Nat) (l : List Cell),
      floodLoopFuel (gridOfRows mainTiles) WAYPOINT n (initClosed (gridOfRows mainTiles))
          [⟨0, 12⟩] [] = some (some l)
      ∧ FloodFill ⟨0, 12⟩ (gridOfRows mainTiles) WAYPOINT = some l :=
  ⟨by decide, C18_floodfill_terminates_in_bounds (gridOfRows mainTiles) ⟨0, 12⟩ WAYPOINT
    (by decide)⟩

/-- C19 evaluated on a grid with a filled 2x2 block of waypoint tiles, from the start cell
(0,0): cell (1,0) is pushed twice, by (0,0) and by (1,1), before it is popped, and both pops
append it: the returned list is (0,0), (0,1), (1,1), (1,0), (1,0). -/
theorem C19_block_gives_duplicate :
    InBounds ⟨0, 0⟩ TILE_COUNT TILE_COUNT = true
    ∧ FloodFill ⟨0, 0⟩ (gridOfRows blockTiles) WAYPOINT
        = some [⟨0, 0⟩, ⟨0, 1⟩, ⟨1, 1⟩, ⟨1, 0⟩, ⟨1, 0⟩]
    ∧ ¬ ([⟨0, 0⟩, ⟨0, 1⟩, ⟨1, 1⟩, ⟨1, 0⟩, ⟨1, 0⟩] : List Cell).Nodup := by
  refine ⟨by decide, floodLoopFuel_sound _ _ 10 _ _ _ _ (by decide), by decide⟩


/-! ## The flood fill on a simple corridor -/

/-- When the test of line 122 passes for the neighbour `d` of `cell` and for no other
neighbour, the neighbour loop pushes `d` and nothing else. -/
theorem pushNeighbours_single (tiles : Grid) (closed : Closed) (cell d : Cell)
    (stack : List Cell)
    (hkey : ∀ adj, adjacent4 cell adj = true → (isPushed tiles closed adj = true ↔ adj = d))
    (hd : adjacent4 cell d = true) :
    pushNeighbours tiles closed cell stack = d :: stack := by
  have h1 := hkey ⟨cell.row, cell.col + 1⟩ (by rw [adjacent4_iff]; simp)
  have h2 := hkey ⟨cell.row, cell.col - 1⟩ (by rw [adjacent4_iff]; simp)
  have h3 := hkey ⟨cell.row + 1, cell.col⟩ (by rw [adjacent4_iff]; simp)
  have h4 := hkey ⟨cell.row - 1, cell.col⟩ (by rw [adjacent4_iff]; simp)
  rw [pushNeighbours_eq]
  obtain ⟨dr, dc⟩ := d
  rw [adjacent4_iff] at hd
  simp only [Cell.mk.injEq] at h1 h2 h3 h4
  dsimp only at hd
  rcases hd with ⟨hr, hc⟩ | ⟨hr, hc⟩ | ⟨hr, hc⟩ | ⟨hr, hc⟩
  · rw [if_neg (by rw [h1]; omega), if_neg (by rw [h2]; omega), if_neg (by rw [h3]; omega),
      if_pos (by rw [h4]; omega), hr, hc]
    rfl
  · rw [if_neg (by rw [h1]; omega), if_neg (by rw [h2]; omega), if_pos (by rw [h3]; omega),
      if_neg (by rw [h4]; omega), hr, hc]
    rfl
  · rw [if_neg (by rw [h1]; omega), if_pos (by rw [h2]; omega), if_neg (by rw [h3]; omega),
      if_neg (by rw [h4]; omega), hr, hc]
    rfl
  · rw [if_pos (by rw [h1]; omega), if_neg (by rw [h2]; omega), if_neg (by rw [h3]; omega),
      if_neg (by rw [h4]; omega), hr, hc]
    rfl

/-- When the test of line 122 passes for no neighbour of `cell`, nothing is pushed. -/
theorem pushNeighbours_none (tiles : Grid) (closed : Closed) (cell : Cell) (stack : List Cell)
    (hkey : ∀ adj, adjacent4 cell adj = true → isPushed tiles closed adj = false) :
    pushNeighbours tiles closed cell stack = stack := by
  have h1 := hkey ⟨cell.row, cell.col + 1⟩ (by rw [adjacent4_iff]; simp)
  have h2 := hkey ⟨cell.row, cell.col - 1⟩ (by rw [adjacent4_iff]; simp)
  have h3 := hkey ⟨cell.row + 1, cell.col⟩ (by rw [adjacent4_iff]; simp)
  have h4 := hkey ⟨cell.row - 1, cell.col⟩ (by rw [adjacent4_iff]; simp)
  rw [pushNeighbours_eq, h1, h2, h3, h4]
  rfl

/-- The index form of a simple corridor gives the structural form. -/
theorem simpleChain_of_index (cs : List Cell)
    (hadj : ∀ (i j : Nat) (a b : Cell), i < j → cs.get? i = some a → cs.get? j = some b →
      (adjacent4 a b = true ↔ j = i + 1)) :
    simpleChain cs := by
  induction cs with
  | nil => trivial
  | cons c rest ih =>
    have hrest : simpleChain rest := by
      apply ih
      intro i j a b hij ha hb
      have := hadj (i + 1) (j + 1) a b (by omega) (by simpa using ha) (by simpa using hb)
      rw [this]
      omega
    cases rest with
    | nil => trivial
    | cons d rest2 =>
      refine ⟨?_, ?_, hrest⟩
      · exact (hadj 0 1 c d (by omega) rfl rfl).mpr rfl
      · intro x hx
        obtain ⟨k, hk⟩ := List.mem_iff_get?.mp hx
        have := hadj 0 (k + 2) c x (by omega) rfl (by simpa using hk)
        by_contra hne
        have htrue : adjacent4 c x = true := by simpa using hne
        have := this.mp htrue
        omega


/-- Walk of the loop along a simple corridor. When the stack holds the single cell `c`, the
cells `pre` before it are closed, and the cells `suf` after it are the open non-zero cells,
the loop appends to the result the cells of `c :: suf` whose tile is the search value, in
order. -/
theorem corridor_walk (tiles : Grid) (searchValue : Int) :
    ∀ (suf pre : List Cell) (c : Cell) (closed : Closed) (result : List Cell),
      (∀ x ∈ c :: suf, InBounds x TILE_COUNT TILE_COUNT = true) →
      (pre ++ c :: suf).Nodup →
      (∀ x, InBounds x TILE_COUNT TILE_COUNT = true →
        (closed x.row x.col = true ↔ (tiles x.row x.col = 0 ∨ x ∈ pre))) →
      (∀ x, InBounds x TILE_COUNT TILE_COUNT = true →
        (tiles x.row x.col ≠ 0 ↔ x ∈ pre ++ c :: suf)) →
      (∀ x ∈ c :: suf, 0 < tiles x.row x.col) →
      simpleChain (c :: suf) →
      floodLoop tiles searchValue closed [c] result
        = some (result ++ (c :: suf).filter (fun x => decide (tiles x.row x.col = searchValue))) := by
  intro suf
  induction suf with
  | nil =>
    intro pre c closed result hin hnd hcl htiles hpos _
    have hc : InBounds c TILE_COUNT TILE_COUNT = true := hin c (List.mem_cons_self _ _)
    rw [floodLoop_cons _ _ _ _ _ _ hc]
    have hnone : pushNeighbours tiles (setClosed closed c) c [] = [] := by
      apply pushNeighbours_none
      intro adj _
      by_contra hp
      have hp : isPushed tiles (setClosed closed c) adj = true := by simpa using hp
      unfold isPushed at hp
      simp only [Bool.and_eq_true, Bool.not_eq_true', decide_eq_true_eq] at hp
      obtain ⟨⟨hb, hcl2⟩, ht⟩ := hp
      have hmem := (htiles adj hb).mp (by omega)
      unfold setClosed at hcl2
      by_cases hsame : adj.row = c.row ∧ adj.col = c.col
      · rw [if_pos hsame] at hcl2; cases hcl2
      · rw [if_neg hsame] at hcl2
        have hnc : ¬ (tiles adj.row adj.col = 0 ∨ adj ∈ pre) := by
          intro h
          have := (hcl adj hb).mpr h
          rw [this] at hcl2
          cases hcl2
        simp only [List.mem_append, List.mem_cons, List.mem_nil_iff, or_false] at hmem
        rcases hmem with h | h
        · exact hnc (Or.inr h)
        · apply hsame
          rw [h]
          exact ⟨rfl, rfl⟩
    rw [hnone, floodLoop_nil]
    by_cases ht : tiles c.row c.col = searchValue
    · rw [if_pos ht, List.filter_cons_of_pos (by simpa using ht)]
      rfl
    · rw [if_neg ht, List.filter_cons_of_neg (by simpa using ht)]
      simp
  | cons d rest ih =>
    intro pre c closed result hin hnd hcl htiles hpos hchain
    have hc : InBounds c TILE_COUNT TILE_COUNT = true := hin c (List.mem_cons_self _ _)
    have hdin : InBounds d TILE_COUNT TILE_COUNT = true :=
      hin d (List.mem_cons_of_mem _ (List.mem_cons_self _ _))
    obtain ⟨hcd, hnonadj, hchain2⟩ := hchain
    rw [floodLoop_cons _ _ _ _ _ _ hc]
    -- facts from the absence of repetitions
    have hnd2 : ((pre ++ [c]) ++ d :: rest).Nodup := by
      simpa [List.append_assoc] using hnd
    have hd_notin : d ∉ pre ++ [c] := by
      intro h
      have := (List.nodup_append.mp hnd2).2.2
      exact this h (List.mem_cons_self _ _)
    have hclosed2 : ∀ x, InBounds x TILE_COUNT TILE_COUNT = true →
        (setClosed closed c x.row x.col = true ↔ (tiles x.row x.col = 0 ∨ x ∈ pre ++ [c])) := by
      intro x hx
      unfold setClosed
      by_cases hxc : x.row = c.row ∧ x.col = c.col
      · rw [if_pos hxc]
        have : x = c := by
          cases x; cases c
          simp only [Cell.mk.injEq]
          exact hxc
        simp [this]
      · rw [if_neg hxc, hcl x hx]
        have : x ≠ c := by
          intro h
          apply hxc
          rw [h]
          exact ⟨rfl, rfl⟩
        simp [this]
    have hpush : pushNeighbours tiles (setClosed closed c) c [] = [d] := by
      apply pushNeighbours_single _ _ _ _ _ _ hcd
      intro adj hadj
      constructor
      · intro hp
        unfold isPushed at hp
        simp only [Bool.and_eq_true, Bool.not_eq_true', decide_eq_true_eq] at hp
        obtain ⟨⟨hb, hcl2⟩, ht⟩ := hp
        have hmem := (htiles adj hb).mp (by omega)
        have hnc : ¬ (tiles adj.row adj.col = 0 ∨ adj ∈ pre ++ [c]) := by
          intro h
          have := (hclosed2 adj hb).mpr h
          rw [this] at hcl2
          cases hcl2
        simp only [List.mem_append, List.mem_cons, List.mem_nil_iff, or_false] at hmem hnc
        rcases hmem with h | h | h | h
        · exact absurd (Or.inr (Or.inl h)) hnc
        · exact absurd (Or.inr (Or.inr h)) hnc
        · exact h
        · have := hnonadj adj h
          rw [hadj] at this
          cases this
      · intro hadjd
        rw [hadjd]
        unfold isPushed
        simp only [Bool.and_eq_true, Bool.not_eq_true', decide_eq_true_eq]
        refine ⟨⟨hdin, ?_⟩, hpos d (List.mem_cons_of_mem _ (List.mem_cons_self _ _))⟩
        by_contra hne
        have htrue : setClosed closed c d.row d.col = true := by simpa using hne
        rcases (hclosed2 d hdin).mp htrue with h | h
        · have := hpos d (List.mem_cons_of_mem _ (List.mem_cons_self _ _))
          omega
        · exact hd_notin h
    rw [hpush]
    have hstep := ih (pre ++ [c]) d (setClosed closed c)
      (if tiles c.row c.col = searchValue then result ++ [c] else result)
      (fun x hx => hin x (List.mem_cons_of_mem _ hx)) hnd2 hclosed2
      (fun x hx => by
        rw [htiles x hx]
        simp [List.append_assoc])
      (fun x hx => hpos x (List.mem_cons_of_mem _ hx)) hchain2
    rw [hstep]
    by_cases ht : tiles c.row c.col = searchValue
    · have hf : (c :: d :: rest).filter (fun x => decide (tiles x.row x.col = searchValue))
          = c :: (d :: rest).filter (fun x => decide (tiles x.row x.col = searchValue)) :=
        List.filter_cons_of_pos (by simpa using ht)
      rw [if_pos ht, hf]
      simp
    · have hf : (c :: d :: rest).filter (fun x => decide (tiles x.row x.col = searchValue))
          = (d :: rest).filter (fun x => decide (tiles x.row x.col = searchValue)) :=
        List.filter_cons_of_neg (by simpa using ht)
      rw [if_neg ht, hf]

/-- C17: on a grid whose non-zero cells are exactly the cells of a simple corridor
`c0 :: rest` (cells of the grid, pairwise distinct, two cells being neighbours exactly when
they are consecutive, every tile DIRT or WAYPOINT), `FloodFill` from `c0` with search value
WAYPOINT returns the cells of the corridor whose tile is WAYPOINT, in the order of the
corridor, each once. -/
theorem C17_corridor_waypoints_in_order (tiles : Grid) (c0 : Cell) (rest : List Cell)
    (hin : ∀ c ∈ c0 :: rest, InBounds c TILE_COUNT TILE_COUNT = true)
    (hnodup : (c0 :: rest).Nodup)
    (hadj : ∀ (i j : Nat) (a b : Cell), i < j → (c0 :: rest).get? i = some a →
      (c0 :: rest).get? j = some b → (adjacent4 a b = true ↔ j = i + 1))
    (hcells : ∀ c, InBounds c TILE_COUNT TILE_COUNT = true →
      (tiles c.row c.col ≠ 0 ↔ c ∈ c0 :: rest))
    (hkind : ∀ c ∈ c0 :: rest, tiles c.row c.col = DIRT ∨ tiles c.row c.col = WAYPOINT) :
    FloodFill c0 tiles WAYPOINT
        = some ((c0 :: rest).filter (fun c => decide (tiles c.row c.col = WAYPOINT)))
    ∧ ((c0 :: rest).filter (fun c => decide (tiles c.row c.col = WAYPOINT))).Nodup := by
  refine ⟨?_, hnodup.filter _⟩
  unfold FloodFill
  have h := corridor_walk tiles WAYPOINT rest [] c0 (initClosed tiles) [] hin
    (by simpa using hnodup)
    (fun x _ => by simp [initClosed])
    (fun x hx => by simpa using hcells x hx)
    (fun x hx => by
      rcases hkind x hx with h | h <;> rw [h] <;> decide)
    (simpleChain_of_index _ hadj)
  rw [h]
  rfl


/-- The cells that `InBounds` accepts are the cells of `gridCells`. -/
theorem mem_gridCells_of_inBounds (c : Cell) (h : InBounds c TILE_COUNT TILE_COUNT = true) :
    c ∈ gridCells := by
  obtain ⟨r, k⟩ := c
  simp only [InBounds, TILE_COUNT, Bool.and_eq_true, decide_eq_true_eq] at h
  obtain ⟨⟨⟨h1, h2⟩, h3⟩, h4⟩ := h
  simp only [gridCells, List.mem_flatMap, List.mem_map, List.mem_range, Cell.mk.injEq]
  lift r to ℕ using h3
  lift k to ℕ using h1
  refine ⟨r, ?_, k, ?_, rfl, rfl⟩ <;> omega

/-- The adjacency condition of a corridor, checked on the indices below the length. -/
theorem corridor_adjacency_of_bounded (cs : List Cell)
    (h : ∀ i < cs.length, ∀ j < cs.length, i < j →
      (adjacent4 (cs.getD i ⟨0, 0⟩) (cs.getD j ⟨0, 0⟩) = true ↔ j = i + 1)) :
    ∀ (i j : Nat) (a b : Cell), i < j → cs.get? i = some a → cs.get? j = some b →
      (adjacent4 a b = true ↔ j = i + 1) := by
  intro i j a b hij ha hb
  obtain ⟨hi, hai⟩ := List.get?_eq_some.mp ha
  obtain ⟨hj, hbj⟩ := List.get?_eq_some.mp hb
  have := h i hi j hj hij
  simp only [List.getD_eq_getElem?_getD, ← List.get?_eq_getElem?, ha, hb,
    Option.getD_some] at this
  exact this

set_option maxRecDepth 100000 in
/-- C17 on the grid of `main`: its non-zero cells are the cells of a simple corridor from
(0,12) to (19,9), so the theorem gives the waypoint list of the game. -/
theorem C17_corridor_witness :
    ((∀ c ∈ (⟨0, 12⟩ : Cell) :: mainCorridorRest, InBounds c TILE_COUNT TILE_COUNT = true)
      ∧ ((⟨0, 12⟩ : Cell) :: mainCorridorRest).Nodup
      ∧ (∀ (i j : Nat) (a b : Cell), i < j →
          ((⟨0, 12⟩ : Cell) :: mainCorridorRest).get? i = some a →
          ((⟨0, 12⟩ : Cell) :: mainCorridorRest).get? j = some b →
          (adjacent4 a b = true ↔ j = i + 1))
      ∧ (∀ c, InBounds c TILE_COUNT TILE_COUNT = true →
          (gridOfRows mainTiles c.row c.col ≠ 0 ↔ c ∈ (⟨0, 12⟩ : Cell) :: mainCorridorRest))
      ∧ (∀ c ∈ (⟨0, 12⟩ : Cell) :: mainCorridorRest,
          gridOfRows mainTiles c.row c.col = DIRT ∨ gridOfRows mainTiles c.row c.col = WAYPOINT))
    ∧ (FloodFill ⟨0, 12⟩ (gridOfRows mainTiles) WAYPOINT
        = some (((⟨0, 12⟩ : Cell) :: mainCorridorRest).filter
            (fun c => decide (gridOfRows mainTiles c.row c.col = WAYPOINT)))
      ∧ (((⟨0, 12⟩ : Cell) :: mainCorridorRest).filter
            (fun c => decide (gridOfRows mainTiles c.row c.col = WAYPOINT))).Nodup) := by
  have h1 : ∀ c ∈ (⟨0, 12⟩ : Cell) :: mainCorridorRest,
      InBounds c TILE_COUNT TILE_COUNT = true := by decide!
  have h2 : ((⟨0, 12⟩ : Cell) :: mainCorridorRest).Nodup := by decide!
  have h3 : ∀ (i j : Nat) (a b : Cell), i < j →
      ((⟨0, 12⟩ : Cell) :: mainCorridorRest).get? i = some a →
      ((⟨0, 12⟩ : Cell) :: mainCorridorRest).get? j = some b →
      (adjacent4 a b = true ↔ j = i + 1) :=
    corridor_adjacency_of_bounded _ (by decide!)
  have h4 : ∀ c, InBounds c TILE_COUNT TILE_COUNT = true →
      (gridOfRows mainTiles c.row c.col ≠ 0 ↔ c ∈ (⟨0, 12⟩ : Cell) :: mainCorridorRest) := by
    have hall : ∀ c ∈ gridCells,
        (gridOfRows mainTiles c.row c.col ≠ 0 ↔ c ∈ (⟨0, 12⟩ : Cell) :: mainCorridorRest) := by
      decide!
    exact fun c hc => hall c (mem_gridCells_of_inBounds c hc)
  have h5 : ∀ c ∈ (⟨0, 12⟩ : Cell) :: mainCorridorRest,
      gridOfRows mainTiles c.row c.col = DIRT ∨ gridOfRows mainTiles c.row c.col = WAYPOINT := by
    decide!
  exact ⟨⟨h1, h2, h3, h4, h5⟩,
    C17_corridor_waypoints_in_order (gridOfRows mainTiles) ⟨0, 12⟩ mainCorridorRest h1 h2 h3 h4 h5⟩


/-! ## The update passes: what they do to the enemy list -/

theorem scanEnemies_index (t : Turret) (es : List Enemy) (i : Nat)
    (sel : Option Nat) (d : ℚ) (k : Nat)
    (h : (scanEnemies t es i (sel, d)).1 = some k) :
    sel = some k ∨ ∃ e, es.get? (k - i) = some e ∧ i ≤ k ∧ e.active = true := by
  rcases scanEnemies_spec t es i sel d with ⟨heq, _⟩ | ⟨j, e, hj, heq, hact, _⟩
  · rw [heq] at h
    exact Or.inl h
  · rw [heq] at h
    have hk : i + j = k := Option.some.inj h
    right
    refine ⟨e, ?_, by omega, hact⟩
    have : k - i = j := by omega
    rw [this]
    exact hj

/-- The enemy the scan selects is an active enemy of the list. -/
theorem findNearest_index (t : Turret) (es : List Enemy) (k : Nat)
    (h : (findNearest t es).1 = some k) : ∃ e, es.get? k = some e ∧ e.active = true := by
  unfold findNearest at h
  rcases scanEnemies_index t es 0 none FLT_MAX k h with h1 | ⟨e, he, _, hact⟩
  · cases h1
  · exact ⟨e, by simpa using he, hact⟩

/-- The two outcomes of the turret loop body: the turret fires at the selected enemy, or only
its reload time advances. -/
theorem updateTurret_cases (lib : Lib) (dt : ℚ) (t : Turret) (es : List Enemy)
    (bs : List Bullet) :
    (∃ k e, (findNearest { t with reloadTime := fadd t.reloadTime dt } es).1 = some k
        ∧ es.get? k = some e ∧ e.active = true ∧ fadd t.reloadTime dt ≥ t.fireRate
        ∧ updateTurret lib dt t es bs
          = ({ t with reloadTime := 0 }, es.set k (applyDamage t.damage e),
              bs ++ [{ position := t.position,
                       direction := lib.Normalize (e.position.sub t.position),
                       time := 0, enabled := true }]))
    ∨ (((findNearest { t with reloadTime := fadd t.reloadTime dt } es).1 = none
          ∨ ¬ fadd t.reloadTime dt ≥ t.fireRate)
        ∧ updateTurret lib dt t es bs = ({ t with reloadTime := fadd t.reloadTime dt }, es, bs)) := by
  unfold updateTurret
  dsimp only
  cases hsel : (findNearest { t with reloadTime := fadd t.reloadTime dt } es).1 with
  | none =>
    right
    exact ⟨Or.inl rfl, rfl⟩
  | some k =>
    obtain ⟨e, he, hact⟩ := findNearest_index _ es k hsel
    dsimp only
    rw [he]
    dsimp only
    by_cases hr : fadd t.reloadTime dt ≥ t.fireRate
    · left
      rw [if_pos hr]
      exact ⟨k, e, rfl, he, hact, hr, rfl⟩
    · right
      rw [if_neg hr]
      exact ⟨Or.inr hr, rfl⟩

theorem updateTurret_length (lib : Lib) (dt : ℚ) (t : Turret) (es : List Enemy)
    (bs : List Bullet) : (updateTurret lib dt t es bs).2.1.length = es.length := by
  rcases updateTurret_cases lib dt t es bs with ⟨k, e, _, _, _, _, h⟩ | ⟨_, h⟩
  · rw [h]; simp
  · rw [h]

theorem updateTurrets_length (lib : Lib) (dt : ℚ) (ts : List Turret) :
    ∀ (es : List Enemy) (bs : List Bullet),
      (updateTurrets lib dt ts es bs).2.1.length = es.length := by
  induction ts with
  | nil => intro es bs; rfl
  | cons t rest ih =>
    intro es bs
    unfold updateTurrets
    dsimp only
    rw [ih, updateTurret_length]

theorem collideBullet_length (lib : Lib) (es : List Enemy) :
    ∀ b : Bullet, (collideBullet lib b es).2.length = es.length := by
  induction es with
  | nil => intro b; rfl
  | cons e rest ih =>
    intro b
    unfold collideBullet
    split_ifs
    · simp only [List.length_cons, ih]
    · simp only [List.length_cons, ih]

theorem updateBullets_length (lib : Lib) (dt : ℚ) (bs : List Bullet) :
    ∀ es : List Enemy, (updateBullets lib dt bs es).2.length = es.length := by
  induction bs with
  | nil => intro es; rfl
  | cons b rest ih =>
    intro es
    unfold updateBullets
    dsimp only
    rw [ih]
    unfold updateBullet
    exact collideBullet_length lib es _

/-- A property of enemies that damage keeps holds for every enemy after the turret loop. -/
theorem updateTurrets_all (lib : Lib) (dt : ℚ) (Q : Enemy → Prop)
    (hQ : ∀ (e : Enemy) (d : ℚ), Q e → Q (applyDamage d e)) (ts : List Turret) :
    ∀ (es : List Enemy) (bs : List Bullet), (∀ e ∈ es, Q e) →
      ∀ e ∈ (updateTurrets lib dt ts es bs).2.1, Q e := by
  induction ts with
  | nil => intro es bs h; exact h
  | cons t rest ih =>
    intro es bs h
    unfold updateTurrets
    dsimp only
    apply ih
    rcases updateTurret_cases lib dt t es bs with ⟨k, e0, _, hget, _, _, heq⟩ | ⟨_, heq⟩
    · rw [heq]
      intro e he
      rcases List.mem_or_eq_of_mem_set he with h1 | h1
      · exact h e h1
      · rw [h1]
        exact hQ e0 _ (h e0 (List.get?_mem hget))
    · rw [heq]
      exact h

/-- A property of enemies that a loss of health keeps holds for every enemy after the bullet
loop. -/
theorem updateBullets_all (lib : Lib) (dt : ℚ) (Q : Enemy → Prop)
    (hQ : ∀ e : Enemy, Q e → Q { e with health := fsub e.health 10 }) (bs : List Bullet) :
    ∀ es : List Enemy, (∀ e ∈ es, Q e) → ∀ e ∈ (updateBullets lib dt bs es).2, Q e := by
  have hcollide : ∀ (es : List Enemy) (b : Bullet), (∀ e ∈ es, Q e) →
      ∀ e ∈ (collideBullet lib b es).2, Q e := by
    intro es
    induction es with
    | nil => intro b h e he; cases he
    | cons e0 rest ih =>
      intro b h e he
      unfold collideBullet at he
      split_ifs at he
      · rcases List.mem_cons.mp he with h1 | h1
        · rw [h1]; exact hQ e0 (h e0 (List.mem_cons_self _ _))
        · exact ih _ (fun x hx => h x (List.mem_cons_of_mem _ hx)) e h1
      · rcases List.mem_cons.mp he with h1 | h1
        · rw [h1]; exact h e0 (List.mem_cons_self _ _)
        · exact ih _ (fun x hx => h x (List.mem_cons_of_mem _ hx)) e h1
  induction bs with
  | nil => intro es h; exact h
  | cons b rest ih =>
    intro es h
    unfold updateBullets
    dsimp only
    apply ih
    unfold updateBullet
    exact hcollide es _ h


/-! ## Frames: setup part and playing part -/

/-- A property kept by the setup block and by the playing block is kept by a frame. -/
theorem frame_preserves (lib : Lib) (P : Game → Prop)
    (hsetup : ∀ inp s, P s → P (setupStep inp s))
    (hplay : ∀ dt s, P s → P (playingStep lib dt s)) (inp : Input) (s : Game) (h : P s) :
    P (frame lib inp s) := by
  unfold frame
  dsimp only
  split_ifs
  · exact hplay _ _ (hsetup _ _ h)
  · exact hsetup _ _ h
  · exact hplay _ _ h
  · exact h

/-- The click handler touches the tiles, the turrets, the turret count and the sound log
only. -/
theorem handleClick_other_fields (p : Vector2) (s : Game) :
    (handleClick p s).m.enemies = s.m.enemies
    ∧ (handleClick p s).m.enemyCount = s.m.enemyCount
    ∧ (handleClick p s).m.waypoints = s.m.waypoints
    ∧ (handleClick p s).m.spawnTimer = s.m.spawnTimer
    ∧ (handleClick p s).m.bullets = s.m.bullets
    ∧ (handleClick p s).g.currentLevel = s.g.currentLevel := by
  unfold handleClick
  dsimp only
  split_ifs <;> exact ⟨rfl, rfl, rfl, rfl, rfl, rfl⟩

theorem setupStep_other_fields (inp : Input) (s : Game) :
    (setupStep inp s).m.enemies = s.m.enemies
    ∧ (setupStep inp s).m.enemyCount = s.m.enemyCount
    ∧ (setupStep inp s).m.waypoints = s.m.waypoints
    ∧ (setupStep inp s).m.spawnTimer = s.m.spawnTimer
    ∧ (setupStep inp s).m.bullets = s.m.bullets
    ∧ (setupStep inp s).g.currentLevel = s.g.currentLevel := by
  unfold setupStep
  cases inp.mouse with
  | none => dsimp only; split_ifs <;> exact ⟨rfl, rfl, rfl, rfl, rfl, rfl⟩
  | some p => dsimp only; split_ifs <;> exact handleClick_other_fields p s

/-! ## The spawn step -/

theorem spawnStep_spawns (dt : ℚ) (m : Locals)
    (h : fadd m.spawnTimer dt ≥ main.spawnInterval ∧ m.enemyCount < main.maxEnemies) :
    (spawnStep dt m).enemies = m.enemies ++
        [{ position := TileCenter (waypointAt m.waypoints 0).row (waypointAt m.waypoints 0).col,
           speed := main.enemySpeed, currentWaypoint := 0, health := 150,
           radius := main.enemyRadius, active := true }]
    ∧ (spawnStep dt m).spawnTimer = 0
    ∧ (spawnStep dt m).enemyCount = m.enemyCount + 1
    ∧ (spawnStep dt m).waypoints = m.waypoints := by
  unfold spawnStep
  dsimp only
  rw [if_pos h]
  exact ⟨rfl, rfl, rfl, rfl⟩

theorem spawnStep_idle (dt : ℚ) (m : Locals)
    (h : ¬ (fadd m.spawnTimer dt ≥ main.spawnInterval ∧ m.enemyCount < main.maxEnemies)) :
    (spawnStep dt m).enemies = m.enemies
    ∧ (spawnStep dt m).spawnTimer = fadd m.spawnTimer dt
    ∧ (spawnStep dt m).enemyCount = m.enemyCount
    ∧ (spawnStep dt m).waypoints = m.waypoints := by
  unfold spawnStep
  dsimp only
  rw [if_neg h]
  exact ⟨rfl, rfl, rfl, rfl⟩

/-- After the spawn step the passes of a playing frame keep the counters and the waypoints,
and the number of enemies. -/
theorem playingStep_locals (lib : Lib) (dt : ℚ) (s : Game) :
    (playingStep lib dt s).m.enemyCount = (spawnStep dt s.m).enemyCount
    ∧ (playingStep lib dt s).m.spawnTimer = (spawnStep dt s.m).spawnTimer
    ∧ (playingStep lib dt s).m.waypoints = (spawnStep dt s.m).waypoints
    ∧ (playingStep lib dt s).m.enemies.length = (spawnStep dt s.m).enemies.length := by
  rw [playingStep_m]
  refine ⟨rfl, rfl, rfl, ?_⟩
  show (updateBullets lib dt _ _).2.length = _
  rw [updateBullets_length, updateTurrets_length]
  simp

/-- A property of enemies kept by the movement, by damage and by a loss of health, and true
of the enemies after the spawn step, is true of the enemies after the playing block. -/
theorem playingStep_all (lib : Lib) (dt : ℚ) (s : Game) (Q : Enemy → Prop)
    (hmove : ∀ e ∈ (spawnStep dt s.m).enemies, Q e →
      Q (moveEnemy lib dt (spawnStep dt s.m).waypoints e))
    (hdamage : ∀ (e : Enemy) (d : ℚ), Q e → Q (applyDamage d e))
    (hhit : ∀ e : Enemy, Q e → Q { e with health := fsub e.health 10 })
    (h : ∀ e ∈ (spawnStep dt s.m).enemies, Q e) :
    ∀ e ∈ (playingStep lib dt s).m.enemies, Q e := by
  rw [playingStep_m]
  show ∀ e ∈ (updateBullets lib dt _ _).2, Q e
  apply updateBullets_all lib dt Q hhit
  apply updateTurrets_all lib dt Q hdamage
  intro e he
  simp only [List.mem_map] at he
  obtain ⟨e0, he0, rfl⟩ := he
  exact hmove e0 he0 (h e0 he0)


/-! ## Waypoint index of the active enemies -/

/-- The movement keeps the waypoint index of an active enemy below the last index. -/
theorem moveEnemy_index (lib : Lib) (dt : ℚ) (waypoints : List Cell) (e : Enemy)
    (hsize : (waypoints.length : Int) ≤ 2 ^ 64)
    (h : e.active = true →
      0 ≤ e.currentWaypoint ∧ e.currentWaypoint < (waypoints.length : Int) - 1) :
    (moveEnemy lib dt waypoints e).active = true →
      0 ≤ (moveEnemy lib dt waypoints e).currentWaypoint
      ∧ (moveEnemy lib dt waypoints e).currentWaypoint < (waypoints.length : Int) - 1 := by
  unfold moveEnemy
  by_cases hact : e.active = true
  · obtain ⟨h0, h1⟩ := h hact
    rw [if_pos hact]
    dsimp only
    split_ifs with harr hlast
    · intro hfalse
      cases hfalse
    · intro _
      dsimp only
      have e1 : toSizeT (e.currentWaypoint + 1) = e.currentWaypoint + 1 := by
        unfold toSizeT
        exact Int.emod_eq_of_lt (by omega) (by omega)
      have e2 : toSizeT ((waypoints.length : Int) - 1) = (waypoints.length : Int) - 1 := by
        unfold toSizeT
        exact Int.emod_eq_of_lt (by omega) (by omega)
      rw [e1, e2] at hlast
      omega
    · intro _
      exact ⟨h0, h1⟩
  · rw [if_neg hact]
    exact h

/-- The spawn step keeps the bound: the enemy it appends has waypoint index 0, below the last
index of a list of at least two waypoints. -/
theorem spawnStep_waypoint_index (wps : List Cell) (hlen : 2 ≤ wps.length) (dt : ℚ)
    (m : Locals)
    (h : m.waypoints = wps ∧ ∀ e ∈ m.enemies, e.active = true →
      0 ≤ e.currentWaypoint ∧ e.currentWaypoint < (wps.length : Int) - 1) :
    (spawnStep dt m).waypoints = wps ∧ ∀ e ∈ (spawnStep dt m).enemies, e.active = true →
      0 ≤ e.currentWaypoint ∧ e.currentWaypoint < (wps.length : Int) - 1 := by
  obtain ⟨hw, hs⟩ := h
  by_cases hc : fadd m.spawnTimer dt ≥ main.spawnInterval ∧ m.enemyCount < main.maxEnemies
  · obtain ⟨h1, _, _, h4⟩ := spawnStep_spawns dt m hc
    rw [h1, h4]
    refine ⟨hw, ?_⟩
    intro e he
    rcases List.mem_append.mp he with he | he
    · exact hs e he
    · rw [List.mem_singleton.mp he]
      intro _
      dsimp only
      omega
  · obtain ⟨h1, _, _, h4⟩ := spawnStep_idle dt m hc
    rw [h1, h4]
    exact ⟨hw, hs⟩

/-- The waypoint list never changes, and when it has between 2 and 2^64 entries every frame
keeps the waypoint index of every active enemy between 0 and the last index minus one. -/
theorem frame_waypoint_index (lib : Lib) (wps : List Cell) (hlen : 2 ≤ wps.length)
    (hsize : (wps.length : Int) ≤ 2 ^ 64) (inp : Input) (s : Game)
    (h : s.m.waypoints = wps ∧ ∀ e ∈ s.m.enemies, e.active = true →
      0 ≤ e.currentWaypoint ∧ e.currentWaypoint < (wps.length : Int) - 1) :
    (frame lib inp s).m.waypoints = wps ∧ ∀ e ∈ (frame lib inp s).m.enemies, e.active = true →
      0 ≤ e.currentWaypoint ∧ e.currentWaypoint < (wps.length : Int) - 1 := by
  apply frame_preserves lib
    (fun s => s.m.waypoints = wps ∧ ∀ e ∈ s.m.enemies, e.active = true →
      0 ≤ e.currentWaypoint ∧ e.currentWaypoint < (wps.length : Int) - 1) _ _ inp s h
  · intro inp s hs
    obtain ⟨he, _, hw, _⟩ := setupStep_other_fields inp s
    rw [he, hw]
    exact hs
  · intro dt s ⟨hw, hs⟩
    have hspawn := spawnStep_waypoint_index wps hlen dt s.m ⟨hw, hs⟩
    refine ⟨by rw [(playingStep_locals lib dt s).2.2.1]; exact hspawn.1, ?_⟩
    apply playingStep_all lib dt s
      (fun e => e.active = true →
        0 ≤ e.currentWaypoint ∧ e.currentWaypoint < (wps.length : Int) - 1)
    · intro e _ he
      rw [hspawn.1]
      exact moveEnemy_index lib dt wps e hsize he
    · intro e d he
      unfold applyDamage
      dsimp only
      split_ifs
      · intro hfalse; cases hfalse
      · exact he
    · intro e he
      exact he
    · exact hspawn.2

/-- C11: in every state reached from the initial state the waypoint list has at least two
entries (it has eight) and every active enemy has a waypoint index `idx` with
`0 <= idx < len(waypoints) - 1`, so that `waypoints[idx]` and `waypoints[idx + 1]` are entries
of the list; the same holds for the enemies the movement pass of the next frame iterates
over, after the spawn step. More generally, from any state whose waypoint list has between 2 and 2^64 entries
and whose active enemies satisfy the bound, every sequence of frames keeps the bound. -/
theorem C11_active_enemy_waypoint_index (lib : Lib) (inputs : List Input) :
    (2 ≤ (run lib inputs).m.waypoints.length
      ∧ ∀ e ∈ (run lib inputs).m.enemies, e.active = true →
          0 ≤ e.currentWaypoint
          ∧ e.currentWaypoint < ((run lib inputs).m.waypoints.length : Int) - 1
          ∧ (∃ a b, (run lib inputs).m.waypoints.get? e.currentWaypoint.toNat = some a
              ∧ (run lib inputs).m.waypoints.get? (e.currentWaypoint + 1).toNat = some b))
    ∧ (∀ (dt : ℚ), ∀ e ∈ (spawnStep dt (run lib inputs).m).enemies, e.active = true →
        0 ≤ e.currentWaypoint
        ∧ e.currentWaypoint < ((run lib inputs).m.waypoints.length : Int) - 1)
    ∧ (∀ s0 : Game, 2 ≤ s0.m.waypoints.length → (s0.m.waypoints.length : Int) ≤ 2 ^ 64 →
        (∀ e ∈ s0.m.enemies, e.active = true →
          0 ≤ e.currentWaypoint ∧ e.currentWaypoint < (s0.m.waypoints.length : Int) - 1) →
        ∀ e ∈ (inputs.foldl (fun s inp => frame lib inp s) s0).m.enemies, e.active = true →
          0 ≤ e.currentWaypoint ∧ e.currentWaypoint < (s0.m.waypoints.length : Int) - 1) := by
  have general : ∀ (wps : List Cell), 2 ≤ wps.length → (wps.length : Int) ≤ 2 ^ 64 →
      ∀ (l : List Input) (s : Game),
        (s.m.waypoints = wps ∧ ∀ e ∈ s.m.enemies, e.active = true →
          0 ≤ e.currentWaypoint ∧ e.currentWaypoint < (wps.length : Int) - 1) →
        ((l.foldl (fun s inp => frame lib inp s) s).m.waypoints = wps ∧
          ∀ e ∈ (l.foldl (fun s inp => frame lib inp s) s).m.enemies, e.active = true →
            0 ≤ e.currentWaypoint ∧ e.currentWaypoint < (wps.length : Int) - 1) := by
    intro wps hlen hsize l
    induction l with
    | nil => intro s hs; exact hs
    | cons a t ih =>
      intro s hs
      exact ih _ (frame_waypoint_index lib wps hlen hsize a s hs)
  have hrun := general _ (by decide) (by decide) inputs initGame
    ⟨initGame_waypoints, fun e he => by cases he⟩
  refine ⟨?_, ?_, ?_⟩
  · have hw : (run lib inputs).m.waypoints
        = [⟨0, 12⟩, ⟨7, 12⟩, ⟨7, 3⟩, ⟨13, 3⟩, ⟨13, 16⟩, ⟨17, 16⟩, ⟨17, 9⟩, ⟨19, 9⟩] := hrun.1
    have he := hrun.2
    refine ⟨by rw [hw]; decide, ?_⟩
    intro e hmem hact
    obtain ⟨h0, h1⟩ := he e hmem hact
    rw [hw]
    refine ⟨h0, h1, ?_⟩
    have hlen : ([⟨0, 12⟩, ⟨7, 12⟩, ⟨7, 3⟩, ⟨13, 3⟩, ⟨13, 16⟩, ⟨17, 16⟩, ⟨17, 9⟩,
        ⟨19, 9⟩] : List Cell).length = 8 := rfl
    rw [hlen] at h1
    have b1 : e.currentWaypoint.toNat < ([⟨0, 12⟩, ⟨7, 12⟩, ⟨7, 3⟩, ⟨13, 3⟩, ⟨13, 16⟩,
        ⟨17, 16⟩, ⟨17, 9⟩, ⟨19, 9⟩] : List Cell).length := by
      rw [hlen]; omega
    have b2 : (e.currentWaypoint + 1).toNat < ([⟨0, 12⟩, ⟨7, 12⟩, ⟨7, 3⟩, ⟨13, 3⟩, ⟨13, 16⟩,
        ⟨17, 16⟩, ⟨17, 9⟩, ⟨19, 9⟩] : List Cell).length := by
      rw [hlen]; omega
    exact ⟨_, _, List.get?_eq_get b1, List.get?_eq_get b2⟩
  · intro dt e hmem hact
    have hsp := spawnStep_waypoint_index _ (by decide) dt (run lib inputs).m hrun
    have := hsp.2 e hmem hact
    have hw : (run lib inputs).m.waypoints
        = [⟨0, 12⟩, ⟨7, 12⟩, ⟨7, 3⟩, ⟨13, 3⟩, ⟨13, 16⟩, ⟨17, 16⟩, ⟨17, 9⟩, ⟨19, 9⟩] := hrun.1
    rw [hw]
    exact this
  · intro s0 hlen hsize h0
    exact (general s0.m.waypoints hlen hsize inputs s0 ⟨rfl, h0⟩).2


/-! ## Spawning -/

theorem playingStep_enemyCount_le (lib : Lib) (dt : ℚ) (s : Game)
    (h : s.m.enemyCount ≤ main.maxEnemies) :
    (playingStep lib dt s).m.enemyCount ≤ main.maxEnemies := by
  rw [(playingStep_locals lib dt s).1]
  by_cases hc : fadd s.m.spawnTimer dt ≥ main.spawnInterval ∧ s.m.enemyCount < main.maxEnemies
  · rw [(spawnStep_spawns dt s.m hc).2.2.1]
    have := hc.2
    omega
  · rw [(spawnStep_idle dt s.m hc).2.2.1]
    exact h

theorem run_enemyCount_le (lib : Lib) (inputs : List Input) :
    (run lib inputs).m.enemyCount ≤ main.maxEnemies := by
  apply run_invariant lib (fun s => s.m.enemyCount ≤ main.maxEnemies) (by decide!)
  intro s inp hs
  apply frame_preserves lib (fun s => s.m.enemyCount ≤ main.maxEnemies) _ _ inp s hs
  · intro inp s h
    rw [(setupStep_other_fields inp s).2.1]
    exact h
  · intro dt s h
    exact playingStep_enemyCount_le lib dt s h

/-- C14: in a playing frame with elapsed time `dt`, when `spawnTimer + dt >= spawnInterval`
(the sum is the `float` sum of line 366, rounded to binary32; `spawnInterval` is the one of
`main`) and the spawned count is below `maxEnemies`, the spawn step appends exactly one enemy,
active, at waypoint index 0 and at the tile centre of the first waypoint; after the frame the
enemy list is one longer, the spawn timer is 0 and the spawned count is one more. Otherwise
the spawn step appends nothing, and after the frame the enemy list has the same length, the
spawned count is unchanged and the spawn timer is the sum. In every state reached from the
initial state the spawned count is at most `maxEnemies`. -/
theorem C14_spawn_gating (lib : Lib) (dt : ℚ) (s : Game) :
    ((fadd s.m.spawnTimer dt ≥ main.spawnInterval ∧ s.m.enemyCount < main.maxEnemies) →
      (∃ enemy : Enemy, (spawnStep dt s.m).enemies = s.m.enemies ++ [enemy]
        ∧ enemy.active = true ∧ enemy.currentWaypoint = 0
        ∧ enemy.position
            = TileCenter (waypointAt s.m.waypoints 0).row (waypointAt s.m.waypoints 0).col)
      ∧ (playingStep lib dt s).m.enemies.length = s.m.enemies.length + 1
      ∧ (playingStep lib dt s).m.spawnTimer = 0
      ∧ (playingStep lib dt s).m.enemyCount = s.m.enemyCount + 1)
    ∧ (¬ (fadd s.m.spawnTimer dt ≥ main.spawnInterval ∧ s.m.enemyCount < main.maxEnemies) →
      (spawnStep dt s.m).enemies = s.m.enemies
      ∧ (playingStep lib dt s).m.enemies.length = s.m.enemies.length
      ∧ (playingStep lib dt s).m.enemyCount = s.m.enemyCount
      ∧ (playingStep lib dt s).m.spawnTimer = fadd s.m.spawnTimer dt)
    ∧ (∀ inputs : List Input, (run lib inputs).m.enemyCount ≤ main.maxEnemies) := by
  obtain ⟨hcount, htimer, _, hlen⟩ := playingStep_locals lib dt s
  refine ⟨?_, ?_, run_enemyCount_le lib⟩
  · intro hc
    obtain ⟨h1, h2, h3, _⟩ := spawnStep_spawns dt s.m hc
    refine ⟨⟨_, h1, rfl, rfl, rfl⟩, ?_, ?_, ?_⟩
    · rw [hlen, h1]; simp
    · rw [htimer, h2]
    · rw [hcount, h3]
  · intro hc
    obtain ⟨h1, h2, h3, _⟩ := spawnStep_idle dt s.m hc
    refine ⟨h1, ?_, ?_, ?_⟩
    · rw [hlen, h1]
    · rw [hcount, h3]
    · rw [htimer, h2]

/-- C14 on a run: the game enters Playing with a frame of 0.9f seconds, which leaves the spawn
timer at 0.9f, and the next frame takes 0.1f seconds. The exact sum of the two floats is below
1, their `float` sum is 1, the spawn interval of `main`: the condition of the spawn holds and
an enemy is spawned. -/
theorem C14_spawn_gating_witness :
    (run refLib [⟨7549747 / 8388608, none, true⟩]).m.spawnTimer = 7549747 / 8388608
    ∧ (7549747 / 8388608 + 13421773 / 134217728 : ℚ) < 1
    ∧ fadd (7549747 / 8388608) (13421773 / 134217728) = 1
    ∧ (fadd (run refLib [⟨7549747 / 8388608, none, true⟩]).m.spawnTimer (13421773 / 134217728)
          ≥ main.spawnInterval
      ∧ (run refLib [⟨7549747 / 8388608, none, true⟩]).m.enemyCount < main.maxEnemies)
    ∧ (playingStep refLib (13421773 / 134217728)
          (run refLib [⟨7549747 / 8388608, none, true⟩])).m.enemies.length
        = (run refLib [⟨7549747 / 8388608, none, true⟩]).m.enemies.length + 1
    ∧ (playingStep refLib (13421773 / 134217728)
          (run refLib [⟨7549747 / 8388608, none, true⟩])).m.spawnTimer = 0
    ∧ (playingStep refLib (13421773 / 134217728)
          (run refLib [⟨7549747 / 8388608, none, true⟩])).m.enemyCount
        = (run refLib [⟨7549747 / 8388608, none, true⟩]).m.enemyCount + 1 := by
  have hc : (run refLib [⟨7549747 / 8388608, none, true⟩]).m.spawnTimer = 7549747 / 8388608
      ∧ fadd (run refLib [⟨7549747 / 8388608, none, true⟩]).m.spawnTimer (13421773 / 134217728)
          ≥ main.spawnInterval
      ∧ (run refLib [⟨7549747 / 8388608, none, true⟩]).m.enemyCount < main.maxEnemies := by
    unfold run initGame
    simp only [FloodFill_mainTiles, Option.getD_some]
    decide!
  exact ⟨hc.1, by norm_num, by decide!, hc.2,
    ((C14_spawn_gating refLib (13421773 / 134217728)
      (run refLib [⟨7549747 / 8388608, none, true⟩])).1 hc.2).2⟩

/-! ## The enemy vector is never emptied -/

theorem playingStep_keeps_level (lib : Lib) (dt : ℚ) (s : Game)
    (h : (s.m.enemies.length : Int) = s.m.enemyCount ∧ s.g.currentLevel = 1) :
    ((playingStep lib dt s).m.enemies.length : Int) = (playingStep lib dt s).m.enemyCount
    ∧ (playingStep lib dt s).g.currentLevel = 1
    ∧ (playingStep lib dt s).g = s.g := by
  obtain ⟨hcount, _, _, hlen⟩ := playingStep_locals lib dt s
  have hm : ((playingStep lib dt s).m.enemies.length : Int)
      = (playingStep lib dt s).m.enemyCount := by
    rw [hcount, hlen]
    by_cases hc : fadd s.m.spawnTimer dt ≥ main.spawnInterval ∧ s.m.enemyCount < main.maxEnemies
    · obtain ⟨h1, _, h3, _⟩ := spawnStep_spawns dt s.m hc
      rw [h1, h3, ← h.1]
      simp
    · obtain ⟨h1, _, h3, _⟩ := spawnStep_idle dt s.m hc
      rw [h1, h3, h.1]
  have hg : (playingStep lib dt s).g = s.g := by
    have hm2 := hm
    rw [playingStep_m] at hm2
    unfold playingStep winCheck
    rw [if_neg]
    intro hwin
    have hempty : (compactBullets (updatePasses lib dt s.m)).enemies.isEmpty = true := hwin.1
    have hge : (compactBullets (updatePasses lib dt s.m)).enemyCount ≥ main.maxEnemies := hwin.2
    rw [List.isEmpty_iff] at hempty
    rw [hempty] at hm2
    rw [← hm2] at hge
    exact absurd hge (by decide)
  exact ⟨hm, by rw [hg]; exact h.2, hg⟩

/-- C20: in every state reached from the initial state the length of the enemy vector equals
the spawned count, so the win test (`enemies.empty()` and `enemyCount >= maxEnemies`, with
`maxEnemies` = 10) is false; no frame changes the file-scope variables other than
`turretCount` (`AdvanceLevel` is not called) and the level is 1. -/
theorem C20_level_never_advances (lib : Lib) (inputs : List Input) :
    ((run lib inputs).m.enemies.length : Int) = (run lib inputs).m.enemyCount
    ∧ ¬ ((run lib inputs).m.enemies.isEmpty = true
        ∧ (run lib inputs).m.enemyCount ≥ main.maxEnemies)
    ∧ main.maxEnemies = 10
    ∧ (run lib inputs).g.currentLevel = 1
    ∧ (∀ (dt : ℚ), (playingStep lib dt (run lib inputs)).g = (run lib inputs).g) := by
  have hinv : ((run lib inputs).m.enemies.length : Int) = (run lib inputs).m.enemyCount
      ∧ (run lib inputs).g.currentLevel = 1 := by
    apply run_invariant lib
      (fun s => (s.m.enemies.length : Int) = s.m.enemyCount ∧ s.g.currentLevel = 1) (by decide!)
    intro s inp hs
    apply frame_preserves lib
      (fun s => (s.m.enemies.length : Int) = s.m.enemyCount ∧ s.g.currentLevel = 1) _ _ inp s hs
    · intro inp s h
      obtain ⟨h1, h2, _, _, _, h6⟩ := setupStep_other_fields inp s
      rw [h1, h2, h6]
      exact h
    · intro dt s h
      exact ⟨(playingStep_keeps_level lib dt s h).1, (playingStep_keeps_level lib dt s h).2.1⟩
  refine ⟨hinv.1, ?_, rfl, hinv.2, fun dt => (playingStep_keeps_level lib dt _ hinv).2.2⟩
  intro hwin
  have hempty := hwin.1
  rw [List.isEmpty_iff] at hempty
  have h1 := hinv.1
  rw [hempty] at h1
  have hge := hwin.2
  rw [← h1] at hge
  exact absurd hge (by decide)


/-! ## Turret fire -/

/-- The scan reads the position and the range of the turret, not its reload time. -/
theorem findNearest_reloadTime (t : Turret) (r : ℚ) (es : List Enemy) :
    findNearest { t with reloadTime := r } es = findNearest t es := by
  unfold findNearest
  have key : ∀ (l : List Enemy) (i : Nat) (acc : Option Nat × ℚ),
      scanEnemies { t with reloadTime := r } l i acc = scanEnemies t l i acc := by
    intro l
    induction l with
    | nil => intro i acc; rfl
    | cons e rest ih =>
      intro i acc
      simp only [scanEnemies, ih]
  exact key es 0 _

/-- C16: for a turret in a playing frame with elapsed time `dt`: when the targeting scan
selects an enemy and `reloadTime + dt >= fireRate` (the sum is the `float` sum of line 408,
rounded to binary32), the turret fires: its reload time becomes 0, exactly one bullet is
appended, at the position of the turret and directed at the selected enemy (the normalized
difference of the positions), and the selected enemy (no other) loses exactly the
damage of the turret in health (the `float` difference of line 439) and is deactivated exactly
when the resulting health is <= 0. Otherwise it does not fire: no bullet is appended, the enemy
list is unchanged and the reload time is increased by `dt`. -/
theorem C16_turret_fire (lib : Lib) (dt : ℚ) (t : Turret) (es : List Enemy)
    (bs : List Bullet) :
    (((∃ k, (findNearest t es).1 = some k) ∧ fadd t.reloadTime dt ≥ t.fireRate) →
      ∃ (k : Nat) (e e2 : Enemy) (b : Bullet),
        (findNearest t es).1 = some k ∧ es.get? k = some e ∧ e.active = true
        ∧ (updateTurret lib dt t es bs).1 = { t with reloadTime := 0 }
        ∧ (updateTurret lib dt t es bs).2.2 = bs ++ [b]
        ∧ b.position = t.position ∧ b.enabled = true
        ∧ b.direction = lib.Normalize (e.position.sub t.position)
        ∧ (updateTurret lib dt t es bs).2.1 = es.set k e2
        ∧ e2.health = fsub e.health t.damage
        ∧ (e2.active = false ↔ e2.health ≤ 0)
        ∧ e2.position = e.position ∧ e2.currentWaypoint = e.currentWaypoint
        ∧ e2.speed = e.speed ∧ e2.radius = e.radius)
    ∧ (¬ ((∃ k, (findNearest t es).1 = some k) ∧ fadd t.reloadTime dt ≥ t.fireRate) →
      (updateTurret lib dt t es bs).1 = { t with reloadTime := fadd t.reloadTime dt }
      ∧ (updateTurret lib dt t es bs).2.1 = es
      ∧ (updateTurret lib dt t es bs).2.2 = bs) := by
  constructor
  · intro ⟨⟨k0, hk0⟩, hr⟩
    rcases updateTurret_cases lib dt t es bs with ⟨k, e, hsel, hget, hact, _, heq⟩ | ⟨hno, _⟩
    · rw [findNearest_reloadTime] at hsel
      refine ⟨k, e, applyDamage t.damage e, _, hsel, hget, hact, by rw [heq], by rw [heq],
        rfl, rfl, rfl, by rw [heq], ?_, ?_, ?_, ?_, ?_, ?_⟩
      all_goals unfold applyDamage
      all_goals dsimp only
      · split_ifs <;> rfl
      · split_ifs with h
        · exact ⟨fun _ => h, fun _ => rfl⟩
        · constructor
          · intro hf
            rw [hact] at hf
            cases hf
          · intro hle
            exact absurd hle h
      · split_ifs <;> rfl
      · split_ifs <;> rfl
      · split_ifs <;> rfl
      · split_ifs <;> rfl
    · rw [findNearest_reloadTime] at hno
      rcases hno with h | h
      · rw [hk0] at h; cases h
      · exact absurd hr h
  · intro hnot
    rcases updateTurret_cases lib dt t es bs with ⟨k, e, hsel, _, _, hr, _⟩ | ⟨_, heq⟩
    · rw [findNearest_reloadTime] at hsel
      exact absurd ⟨⟨k, hsel⟩, hr⟩ hnot
    · rw [heq]
      exact ⟨rfl, rfl, rfl⟩

/-- C16 at a turret of the game on tile (0,0) whose reload time is 0.7f, with `dt` = 0.1f and
one active enemy at distance 100. The exact sum of the two floats is below 0.8f, the fire rate;
their `float` sum is 0.8f: the scan selects the enemy and `reloadTime + dt >= fireRate`, so the
turret fires. -/
theorem C16_turret_fire_witness :
    (11744051 / 16777216 + 13421773 / 134217728 : ℚ) < (newTurret 0 0).fireRate
    ∧ fadd (11744051 / 16777216) (13421773 / 134217728) = (newTurret 0 0).fireRate
    ∧ ((∃ k, (findNearest reloadingTurret [enemyAt ⟨20, 120⟩]).1 = some k)
      ∧ fadd reloadingTurret.reloadTime (13421773 / 134217728) ≥ reloadingTurret.fireRate)
    ∧ ∃ (k : Nat) (e e2 : Enemy) (b : Bullet),
        (findNearest reloadingTurret [enemyAt ⟨20, 120⟩]).1 = some k
        ∧ [enemyAt ⟨20, 120⟩].get? k = some e ∧ e.active = true
        ∧ (updateTurret refLib (13421773 / 134217728) reloadingTurret [enemyAt ⟨20, 120⟩] []).1
            = { reloadingTurret with reloadTime := 0 }
        ∧ (updateTurret refLib (13421773 / 134217728) reloadingTurret [enemyAt ⟨20, 120⟩] []).2.2
            = [] ++ [b]
        ∧ b.position = reloadingTurret.position ∧ b.enabled = true
        ∧ b.direction = refLib.Normalize (e.position.sub reloadingTurret.position)
        ∧ (updateTurret refLib (13421773 / 134217728) reloadingTurret [enemyAt ⟨20, 120⟩] []).2.1
            = [enemyAt ⟨20, 120⟩].set k e2
        ∧ e2.health = fsub e.health reloadingTurret.damage
        ∧ (e2.active = false ↔ e2.health ≤ 0)
        ∧ e2.position = e.position ∧ e2.currentWaypoint = e.currentWaypoint
        ∧ e2.speed = e.speed ∧ e2.radius = e.radius :=
  ⟨by decide!, by decide!, ⟨⟨0, by decide!⟩, by decide!⟩,
    (C16_turret_fire refLib (13421773 / 134217728) reloadingTurret [enemyAt ⟨20, 120⟩] []).1
      ⟨⟨0, by decide!⟩, by decide!⟩⟩

/-! ## Sounds -/

/-- The sounds a click plays: the place sound first, on every click, then the place sound
again when a turret is placed, or the remove sound when a turret is removed. -/
theorem handleClick_played (p : Vector2) (s : Game) :
    (handleClick p s).played = s.played ++ [Sound.placeturretSound] ++
      (if InBounds ⟨mouseRow p, mouseCol p⟩ TILE_COUNT TILE_COUNT = true
          ∧ s.m.tiles (mouseRow p) (mouseCol p) = GRASS ∧ s.g.turretCount < MAX_TURRETS
        then [Sound.placeturretSound]
        else if InBounds ⟨mouseRow p, mouseCol p⟩ TILE_COUNT TILE_COUNT = true
          ∧ s.m.tiles (mouseRow p) (mouseCol p) = TURRET
        then [Sound.removeTurretSound] else []) := by
  unfold handleClick
  dsimp only
  by_cases hb : InBounds ⟨mouseRow p, mouseCol p⟩ TILE_COUNT TILE_COUNT = true
  · by_cases hg : s.m.tiles (mouseRow p) (mouseCol p) = GRASS ∧ s.g.turretCount < MAX_TURRETS
    · rw [if_pos hb, if_pos hg, if_pos ⟨hb, hg⟩]
    · by_cases ht : s.m.tiles (mouseRow p) (mouseCol p) = TURRET
      · rw [if_pos hb, if_neg hg, if_pos ht, if_neg (fun h => hg h.2), if_pos ⟨hb, ht⟩]
      · rw [if_pos hb, if_neg hg, if_neg ht, if_neg (fun h => hg h.2), if_neg (fun h => ht h.2)]
        simp
  · rw [if_neg hb, if_neg (fun h => hb h.1), if_neg (fun h => hb h.1)]
    simp

/-- C12 evaluated at the initial state: the click at (500,20), on the WAYPOINT cell (0,12),
places nothing and plays the place sound once; the click at (20,20), on the GRASS cell (0,0),
places one turret and plays the place sound twice; a second click there removes the turret
and plays the place sound once more before the remove sound. -/
theorem C12_place_sound_on_every_click :
    initGame.played = []
    ∧ (handleClick ⟨500, 20⟩ initGame).played = [Sound.placeturretSound]
    ∧ (handleClick ⟨500, 20⟩ initGame).g.turretCount = 0
    ∧ (handleClick ⟨500, 20⟩ initGame).m.turrets = []
    ∧ (handleClick ⟨20, 20⟩ initGame).played = [Sound.placeturretSound, Sound.placeturretSound]
    ∧ (handleClick ⟨20, 20⟩ initGame).g.turretCount = 1
    ∧ (handleClick ⟨20, 20⟩ (handleClick ⟨20, 20⟩ initGame)).played
        = [Sound.placeturretSound, Sound.placeturretSound,
           Sound.placeturretSound, Sound.removeTurretSound]
    ∧ (handleClick ⟨20, 20⟩ (handleClick ⟨20, 20⟩ initGame)).g.turretCount = 0 := by
  decide!

/-! ## Health of a spawned enemy -/

/-- C15 evaluated on the run that enters Playing with a frame of 1/2 second followed by a
frame of 1/2 second, with no turret placed: the level is 1 and the configured `enemyHealth` is
100, and the enemy spawned in the second frame has health 150, the constant of line 376. -/
theorem C15_spawned_health_is_150 :
    (run refLib [⟨1 / 2, none, true⟩, ⟨1 / 2, none, false⟩]).g.currentLevel = 1
    ∧ (run refLib [⟨1 / 2, none, true⟩, ⟨1 / 2, none, false⟩]).g.enemyHealth = 100
    ∧ (run refLib [⟨1 / 2, none, true⟩]).m.enemies = []
    ∧ (run refLib [⟨1 / 2, none, true⟩, ⟨1 / 2, none, false⟩]).m.enemies.map
        (fun e => e.health) = [150]
    ∧ (spawnStep (1 / 2) (run refLib [⟨1 / 2, none, true⟩]).m).enemies.map
        (fun e => e.health) = [150] := by
  unfold run initGame
  simp only [FloodFill_mainTiles, Option.getD_some]
  decide!


/-! ## Turret count, TURRET tiles and turret list -/

theorem TILE_SIZE_eq : TILE_SIZE = 40 := by
  decide!

/-- The coordinate of a tile centre for the indices of the grid: 40 k + 20, computed without
rounding error. -/
theorem tileCoordinate_grid :
    ∀ k ∈ List.range 20,
      fadd (fmul (intToFloat (Int.ofNat k)) TILE_SIZE) (fmul TILE_SIZE (1 / 2))
        = ((40 * k + 20 : Nat) : ℚ) := by
  decide!

/-- The tile centre of a cell of the grid. -/
theorem TileCenter_grid (c : Cell) (h : InBounds c TILE_COUNT TILE_COUNT = true) :
    TileCenter c.row c.col
      = ⟨((40 * c.col.toNat + 20 : Nat) : ℚ), ((40 * c.row.toNat + 20 : Nat) : ℚ)⟩ := by
  obtain ⟨h1, h2, h3, h4⟩ := (inBounds_iff c).mp h
  unfold TILE_COUNT at h2 h4
  have hr : c.row = Int.ofNat c.row.toNat := by
    show c.row = ((c.row.toNat : Nat) : Int)
    omega
  have hc : c.col = Int.ofNat c.col.toNat := by
    show c.col = ((c.col.toNat : Nat) : Int)
    omega
  have hrr : c.row.toNat ∈ List.range 20 := List.mem_range.mpr (by omega)
  have hcr : c.col.toNat ∈ List.range 20 := List.mem_range.mpr (by omega)
  unfold TileCenter
  have e1 := tileCoordinate_grid _ hcr
  have e2 := tileCoordinate_grid _ hrr
  rw [← hc] at e1
  rw [← hr] at e2
  rw [e1, e2]

/-- Different cells of the grid have different tile centres. -/
theorem TileCenter_injective (a b : Cell) (ha : InBounds a TILE_COUNT TILE_COUNT = true)
    (hb : InBounds b TILE_COUNT TILE_COUNT = true)
    (h : TileCenter a.row a.col = TileCenter b.row b.col) : a = b := by
  rw [TileCenter_grid a ha, TileCenter_grid b hb] at h
  simp only [Vector2.mk.injEq, Nat.cast_inj] at h
  obtain ⟨hx, hy⟩ := h
  obtain ⟨a1, _, a3, _⟩ := (inBounds_iff a).mp ha
  obtain ⟨b1, _, b3, _⟩ := (inBounds_iff b).mp hb
  cases a
  cases b
  simp only [Cell.mk.injEq]
  simp only at hx hy a1 a3 b1 b3
  constructor <;> omega

theorem Vector2Equals_TileCenter (a b : Cell) (ha : InBounds a TILE_COUNT TILE_COUNT = true)
    (hb : InBounds b TILE_COUNT TILE_COUNT = true) :
    Vector2Equals (TileCenter a.row a.col) (TileCenter b.row b.col) = decide (a = b) := by
  by_cases h : a = b
  · rw [h]
    simp [Vector2Equals]
  · have hne : TileCenter a.row a.col ≠ TileCenter b.row b.col :=
      fun heq => h (TileCenter_injective a b ha hb heq)
    have : Vector2Equals (TileCenter a.row a.col) (TileCenter b.row b.col) = false := by
      unfold Vector2Equals
      by_contra hc
      simp only [Bool.not_eq_false, Bool.and_eq_true, decide_eq_true_eq] at hc
      apply hne
      cases hA : TileCenter a.row a.col
      cases hB : TileCenter b.row b.col
      rw [hA, hB] at hc
      simp only [Vector2.mk.injEq]
      exact hc
    rw [this]
    simp [h]

/-- The removal of the turrets at the tile centre of a cell removes that cell from the list
of the turret cells. -/
theorem eraseRemoveIf_positions (c0 : Cell) (hc0 : InBounds c0 TILE_COUNT TILE_COUNT = true)
    (turrets : List Turret) :
    ∀ cells : List Cell, (∀ c ∈ cells, InBounds c TILE_COUNT TILE_COUNT = true) →
      turrets.map (fun t => t.position) = cells.map (fun c => TileCenter c.row c.col) →
      (eraseRemoveIf (fun turret => Vector2Equals turret.position (TileCenter c0.row c0.col))
          turrets).map (fun t => t.position)
        = (cells.filter (fun c => decide (c ≠ c0))).map (fun c => TileCenter c.row c.col) := by
  induction turrets with
  | nil =>
    intro cells _ h
    cases cells with
    | nil => rfl
    | cons x xs => simp at h
  | cons t ts ih =>
    intro cells hin h
    cases cells with
    | nil => simp at h
    | cons x xs =>
      simp only [List.map_cons, List.cons.injEq] at h
      obtain ⟨hpos, hrest⟩ := h
      have hxs : ∀ c ∈ xs, InBounds c TILE_COUNT TILE_COUNT = true :=
        fun c hc => hin c (List.mem_cons_of_mem _ hc)
      have hpred : Vector2Equals t.position (TileCenter c0.row c0.col) = decide (x = c0) := by
        rw [hpos]
        exact Vector2Equals_TileCenter x c0 (hin x (List.mem_cons_self _ _)) hc0
      unfold eraseRemoveIf
      by_cases hx : x = c0
      · rw [hpred, if_pos (by simpa using hx), List.filter_cons_of_neg (by simpa using hx)]
        exact ih xs hxs hrest
      · rw [hpred, if_neg (by simpa using hx), List.filter_cons_of_pos (by simpa using hx)]
        simp only [List.map_cons, List.cons.injEq]
        exact ⟨hpos, ih xs hxs hrest⟩

theorem length_filter_ne (c0 : Cell) (cells : List Cell) (hnd : cells.Nodup)
    (hmem : c0 ∈ cells) :
    ((cells.filter (fun c => decide (c ≠ c0))).length : Int) = (cells.length : Int) - 1 := by
  induction cells with
  | nil => cases hmem
  | cons x xs ih =>
    have hnd2 := List.nodup_cons.mp hnd
    by_cases hx : x = c0
    · rw [List.filter_cons_of_neg (by simpa using hx)]
      have hnot : c0 ∉ xs := by rw [← hx]; exact hnd2.1
      have hall : xs.filter (fun c => decide (c ≠ c0)) = xs := by
        apply List.filter_eq_self.mpr
        intro a ha
        have : a ≠ c0 := fun h => hnot (h ▸ ha)
        simpa using this
      rw [hall]
      simp
    · rw [List.filter_cons_of_pos (by simpa using hx)]
      have hin : c0 ∈ xs := by
        rcases List.mem_cons.mp hmem with h | h
        · exact absurd h.symm hx
        · exact h
      have := ih hnd2.2 hin
      simp only [List.length_cons, Nat.cast_add, Nat.cast_one]
      omega


theorem updateTurrets_positions (lib : Lib) (dt : ℚ) (ts : List Turret) :
    ∀ (es : List Enemy) (bs : List Bullet),
      (updateTurrets lib dt ts es bs).1.map (fun t => t.position)
        = ts.map (fun t => t.position) := by
  induction ts with
  | nil => intro es bs; rfl
  | cons t rest ih =>
    intro es bs
    unfold updateTurrets
    dsimp only
    rw [List.map_cons, List.map_cons, ih]
    congr 1
    rcases updateTurret_cases lib dt t es bs with ⟨_, _, _, _, _, _, h⟩ | ⟨_, h⟩
    · rw [h]
    · rw [h]

theorem spawnStep_turrets (dt : ℚ) (m : Locals) : (spawnStep dt m).turrets = m.turrets := by
  unfold spawnStep
  dsimp only
  split_ifs <;> rfl

/-- The playing block keeps the positions of the turrets, in order. -/
theorem playingStep_turret_positions (lib : Lib) (dt : ℚ) (s : Game) :
    (playingStep lib dt s).m.turrets.map (fun t => t.position)
      = s.m.turrets.map (fun t => t.position) := by
  rw [playingStep_m]
  show (updateTurrets lib dt _ _ _).1.map (fun t => t.position) = _
  rw [updateTurrets_positions]
  show (spawnStep dt s.m).turrets.map (fun t => t.position) = _
  rw [spawnStep_turrets]

/-- A click keeps a turret layout: a placement appends the clicked cell, a removal takes it
out, and a rejected click changes nothing. -/
theorem handleClick_layout (p : Vector2) (s : Game) (cells : List Cell)
    (h : TurretLayout s cells) : ∃ cells2, TurretLayout (handleClick p s) cells2 := by
  obtain ⟨hnd, hmem, hpos, hcount⟩ := h
  rcases handleClick_cases p s with
    ⟨⟨hb, hgrass, _⟩, hc, ht, htur, _⟩ | ⟨⟨hb, _, hturret⟩, hc, ht, htur, _⟩ | ⟨_, hg, hm⟩
  · -- placement on the cell c0
    have hnot : (⟨mouseRow p, mouseCol p⟩ : Cell) ∉ cells := by
      intro hin
      have := ((hmem _).mp hin).2
      dsimp only at this
      rw [hgrass] at this
      exact absurd this (by decide)
    refine ⟨cells ++ [⟨mouseRow p, mouseCol p⟩], ?_, ?_, ?_, ?_⟩
    · rw [List.nodup_append]
      refine ⟨hnd, List.nodup_singleton _, ?_⟩
      intro a ha hb2
      rw [List.mem_singleton.mp hb2] at ha
      exact hnot ha
    · intro c
      rw [ht]
      unfold setTile
      by_cases hc0 : c.row = mouseRow p ∧ c.col = mouseCol p
      · have hceq : c = ⟨mouseRow p, mouseCol p⟩ := by
          cases c
          simp only [Cell.mk.injEq]
          exact hc0
        rw [if_pos hc0]
        constructor
        · intro _
          rw [hceq]
          exact ⟨hb, rfl⟩
        · intro _
          rw [hceq]
          simp
      · have hcne : c ≠ ⟨mouseRow p, mouseCol p⟩ := by
          intro heq
          apply hc0
          rw [heq]
          exact ⟨rfl, rfl⟩
        rw [if_neg hc0]
        simp only [List.mem_append, List.mem_singleton, hcne, or_false]
        exact hmem c
    · rw [htur, List.map_append, List.map_append, hpos]
      rfl
    · rw [hc, hcount]
      simp
  · -- removal from the cell c0
    have hin : (⟨mouseRow p, mouseCol p⟩ : Cell) ∈ cells := (hmem _).mpr ⟨hb, hturret⟩
    refine ⟨cells.filter (fun c => decide (c ≠ (⟨mouseRow p, mouseCol p⟩ : Cell))),
      hnd.filter _, ?_, ?_, ?_⟩
    · intro c
      rw [ht]
      unfold setTile
      by_cases hc0 : c.row = mouseRow p ∧ c.col = mouseCol p
      · have hceq : c = ⟨mouseRow p, mouseCol p⟩ := by
          cases c
          simp only [Cell.mk.injEq]
          exact hc0
        rw [if_pos hc0]
        constructor
        · intro hf
          have := (List.mem_filter.mp hf).2
          simp [hceq] at this
        · intro hf
          exact absurd hf.2 (by decide)
      · have hcne : c ≠ ⟨mouseRow p, mouseCol p⟩ := by
          intro heq
          apply hc0
          rw [heq]
          exact ⟨rfl, rfl⟩
        rw [if_neg hc0, List.mem_filter]
        simp only [hcne, ne_eq, not_false_eq_true, decide_True, and_true]
        exact hmem c
    · rw [htur]
      exact eraseRemoveIf_positions ⟨mouseRow p, mouseCol p⟩ hb s.m.turrets cells
        (fun c hc => ((hmem c).mp hc).1) hpos
    · rw [hc, hcount]
      exact (length_filter_ne _ cells hnd hin).symm
  · exact ⟨cells, by unfold TurretLayout; rw [hm, hg]; exact ⟨hnd, hmem, hpos, hcount⟩⟩

theorem setupStep_layout (inp : Input) (s : Game) (h : ∃ cells, TurretLayout s cells) :
    ∃ cells, TurretLayout (setupStep inp s) cells := by
  obtain ⟨cells, hl⟩ := h
  unfold setupStep
  cases inp.mouse with
  | none =>
    dsimp only
    split_ifs
    · exact ⟨cells, hl⟩
    · exact ⟨cells, hl⟩
  | some p =>
    dsimp only
    obtain ⟨cells2, hl2⟩ := handleClick_layout p s cells hl
    split_ifs
    · exact ⟨cells2, hl2⟩
    · exact ⟨cells2, hl2⟩

theorem playingStep_layout (lib : Lib) (dt : ℚ) (s : Game)
    (h : ∃ cells, TurretLayout s cells) : ∃ cells, TurretLayout (playingStep lib dt s) cells := by
  obtain ⟨cells, hnd, hmem, hpos, hcount⟩ := h
  refine ⟨cells, hnd, ?_, ?_, ?_⟩
  · intro c
    rw [playingStep_tiles]
    exact hmem c
  · rw [playingStep_turret_positions]
    exact hpos
  · rw [playingStep_turretCount]
    exact hcount

/-- In every state reached from the initial state the turrets have a layout. -/
theorem run_layout (lib : Lib) (inputs : List Input) :
    ∃ cells, TurretLayout (run lib inputs) cells := by
  apply run_invariant lib (fun s => ∃ cells, TurretLayout s cells)
  · refine ⟨[], List.nodup_nil, ?_, ?_, ?_⟩
    · have hnone : ∀ c ∈ gridCells, ¬ (gridOfRows mainTiles c.row c.col = TURRET) := by decide!
      intro c
      constructor
      · intro hc; cases hc
      · intro ⟨hb, ht⟩
        exact absurd ht (hnone c (mem_gridCells_of_inBounds c hb))
    · have : initialTurrets (gridOfRows mainTiles) = [] := by decide!
      show (initialTurrets (gridOfRows mainTiles)).map (fun t => t.position) = _
      rw [this]
      rfl
    · decide!
  · intro s inp hs
    exact frame_preserves lib (fun s => ∃ cells, TurretLayout s cells)
      (fun inp s h => setupStep_layout inp s h)
      (fun dt s h => playingStep_layout lib dt s h) inp s hs


/-- In a turret layout every cell of the layout carries exactly one turret. -/
theorem layout_one_turret (turrets : List Turret) (cells : List Cell)
    (hpos : turrets.map (fun t => t.position) = cells.map (fun c => TileCenter c.row c.col))
    (hnd : cells.Nodup) (hin : ∀ x ∈ cells, InBounds x TILE_COUNT TILE_COUNT = true)
    (c : Cell) (hc : c ∈ cells) :
    turrets.countP (fun t => decide (t.position = TileCenter c.row c.col)) = 1 := by
  have e1 : turrets.countP (fun t => decide (t.position = TileCenter c.row c.col))
      = (turrets.map (fun t => t.position)).countP
          (fun v => decide (v = TileCenter c.row c.col)) := by
    rw [List.countP_map]
    rfl
  rw [e1, hpos, List.countP_map]
  have e2 : cells.countP ((fun v => decide (v = TileCenter c.row c.col))
        ∘ (fun c => TileCenter c.row c.col))
      = cells.count c := by
    unfold List.count
    apply List.countP_congr
    intro x hx
    simp only [Function.comp_apply, decide_eq_true_eq, beq_iff_eq]
    constructor
    · intro h
      exact TileCenter_injective x c (hin x hx) (hin c hc) h
    · intro h
      rw [h]
  rw [e2]
  exact List.count_eq_one_of_mem hnd hc

/-- C21: in every state reached from the initial state the turret count equals the number of
cells of the grid whose tile is TURRET and the length of the turret list of `main`; the list
holds exactly one turret at the tile centre of every TURRET cell, every turret of the list
stands at the tile centre of a TURRET cell, and the count is not negative. -/
theorem C21_turret_count_matches_tiles_and_list (lib : Lib) (inputs : List Input) :
    (run lib inputs).g.turretCount
        = ((gridCells.filter
            (fun c => decide ((run lib inputs).m.tiles c.row c.col = TURRET))).length : Int)
    ∧ ((run lib inputs).m.turrets.length : Int) = (run lib inputs).g.turretCount
    ∧ (∀ c : Cell, InBounds c TILE_COUNT TILE_COUNT = true →
        (run lib inputs).m.tiles c.row c.col = TURRET →
        (run lib inputs).m.turrets.countP
          (fun t => decide (t.position = TileCenter c.row c.col)) = 1)
    ∧ (∀ t ∈ (run lib inputs).m.turrets, ∃ c : Cell,
        InBounds c TILE_COUNT TILE_COUNT = true
        ∧ (run lib inputs).m.tiles c.row c.col = TURRET
        ∧ t.position = TileCenter c.row c.col)
    ∧ 0 ≤ (run lib inputs).g.turretCount := by
  obtain ⟨cells, hnd, hmem, hpos, hcount⟩ := run_layout lib inputs
  have hgrid_nodup : gridCells.Nodup := by
    have hcode : gridCells.map (fun c => (c.row * 20 + c.col).toNat) = List.range 400 := by
      decide!
    have hn : (gridCells.map (fun c => (c.row * 20 + c.col).toNat)).Nodup := by
      rw [hcode]
      exact List.nodup_range 400
    exact List.Nodup.of_map _ hn
  have hgrid_in : ∀ c ∈ gridCells, InBounds c TILE_COUNT TILE_COUNT = true := by decide!
  have hperm : List.Perm
      (gridCells.filter (fun c => decide ((run lib inputs).m.tiles c.row c.col = TURRET)))
      cells := by
    rw [List.perm_ext_iff_of_nodup (hgrid_nodup.filter _) hnd]
    intro c
    rw [List.mem_filter, hmem c]
    simp only [decide_eq_true_eq]
    constructor
    · intro ⟨h1, h2⟩
      exact ⟨hgrid_in c h1, h2⟩
    · intro ⟨h1, h2⟩
      exact ⟨mem_gridCells_of_inBounds c h1, h2⟩
  have hlen : (run lib inputs).m.turrets.length = cells.length := by
    have := congrArg List.length hpos
    simpa using this
  refine ⟨?_, ?_, ?_, ?_, ?_⟩
  · rw [hcount, hperm.length_eq]
  · rw [hcount, hlen]
  · intro c hb ht
    exact layout_one_turret _ cells hpos hnd (fun x hx => ((hmem x).mp hx).1) c
      ((hmem c).mpr ⟨hb, ht⟩)
  · intro t ht
    have hin : t.position ∈ (run lib inputs).m.turrets.map (fun t => t.position) :=
      List.mem_map.mpr ⟨t, ht, rfl⟩
    rw [hpos] at hin
    obtain ⟨c, hc, hceq⟩ := List.mem_map.mp hin
    obtain ⟨hb, htile⟩ := (hmem c).mp hc
    exact ⟨c, hb, htile, hceq.symm⟩
  · rw [hcount]
    exact Int.natCast_nonneg _

/-- The layout on explicit runs: after clicks on the GRASS cells (0,11), (0,13) and (1,11)
the count is 3 and the turrets stand at the three tile centres, in the order of the clicks;
after one more click at (460,20), which removes the turret of cell (0,11), the count is 2 and
the two other turrets remain. -/
theorem turret_layout_examples :
    (run refLib [⟨1 / 64, some ⟨460, 20⟩, false⟩, ⟨1 / 64, some ⟨540, 20⟩, false⟩,
        ⟨1 / 64, some ⟨460, 60⟩, false⟩]).g.turretCount = 3
    ∧ (run refLib [⟨1 / 64, some ⟨460, 20⟩, false⟩, ⟨1 / 64, some ⟨540, 20⟩, false⟩,
        ⟨1 / 64, some ⟨460, 60⟩, false⟩]).m.turrets.map (fun t => t.position)
        = [⟨460, 20⟩, ⟨540, 20⟩, ⟨460, 60⟩]
    ∧ (run refLib [⟨1 / 64, some ⟨460, 20⟩, false⟩, ⟨1 / 64, some ⟨540, 20⟩, false⟩,
        ⟨1 / 64, some ⟨460, 60⟩, false⟩, ⟨1 / 64, some ⟨460, 20⟩, false⟩]).g.turretCount = 2
    ∧ (run refLib [⟨1 / 64, some ⟨460, 20⟩, false⟩, ⟨1 / 64, some ⟨540, 20⟩, false⟩,
        ⟨1 / 64, some ⟨460, 60⟩, false⟩, ⟨1 / 64, some ⟨460, 20⟩, false⟩]).m.turrets.map
          (fun t => t.position) = [⟨540, 20⟩, ⟨460, 60⟩] := by
  unfold run initGame
  simp only [FloodFill_mainTiles, Option.getD_some]
  decide!

/-! ## A run in which every enemy leaves the path -/

